import Mathlib

/-!
# bigqueue: arena manager and write path

A shallow embedding of `arenamanager.go` and `write.go`.

Go `int` values are modelled as `Int` (the code never relies on wrap-around).
The slot table `[]*arena` is a `List (Option Arena)`, a nil pointer being
`none`.  Indexing a slice outside its bounds is a Go runtime panic, which is
an outcome of its own (`Res.panic`).  The capabilities the two files consume
(the memory-mapped arena and the position index) are not part of these files;
they are modelled from the specification, with a fault schedule that decides
which capability call fails and a trace that records every capability call.
-/

namespace Bigqueue

/-- A payload byte. -/
abbrev Byte := Fin 256

/-- Modelled from the spec: the constant `cInt64Size`, the width of the
8-byte length header. -/
def cInt64Size : Int := 8

/-- The constant `cMaxActiveArenaCount = int(math.MaxInt32)`. -/
def cMaxActiveArenaCount : Int := 2147483647

/-- Modelled from the spec: an `*arena`, a mapping of the backing file
`arena_<aid>.dat`.  Two mappings of the same file are different pointers;
`uid` is the identity of the mapping (the number of the capability call that
created it). -/
structure Arena where
  aid : Int
  uid : Nat
deriving DecidableEq, Repr

/-- Errors a call can return. -/
inductive Error where
  /-- The error `ErrInactiveArena`. -/
  | inactiveArena
  /-- The error `newArena` returned for file `arena_<aid>.dat`. -/
  | newArena (aid : Int)
  /-- The error `Unmap` returned for a mapping. -/
  | unmap (a : Arena)
  /-- The error `Write` returned for a mapping. -/
  | write (a : Arena)
deriving DecidableEq, Repr

/-- The ways a call does not produce its value: it returns an error, it stops
in a Go runtime panic, or its loop was cut off before it finished. -/
inductive Failure where
  | err (e : Error)
  | panic
  | outOfFuel
deriving DecidableEq, Repr

/-- Outcome of a call: a value or a failure. -/
inductive Res (α : Type) where
  | ok (v : α)
  | fail (f : Failure)
deriving DecidableEq, Repr

/-- One call of a consumed capability. -/
inductive Event where
  /-- The call `newArena(arena_<aid>.dat, arenaSize)` returned mapping `a`. -/
  | newArena (a : Arena)
  /-- The call `newArena(arena_<aid>.dat, arenaSize)` returned an error. -/
  | newArenaFailed (aid : Int)
  /-- The call `a.Unmap()`; `ok` says whether it returned nil. -/
  | unmap (a : Arena) (ok : Bool)
  /-- The call `a.WriteUint64(offset, num)`. -/
  | writeUint64 (a : Arena) (offset : Int) (num : Nat)
  /-- The call `a.Write(bytes, offset)` accepted the first `n` bytes. -/
  | write (a : Arena) (offset : Int) (bytes : List Byte) (n : Nat)
  /-- The call `a.Write(bytes, offset)` returned an error. -/
  | writeFailed (a : Arena) (offset : Int) (bytes : List Byte)
  /-- The call `index.putTail(aid, offset)`. -/
  | putTail (aid : Int) (offset : Int)
deriving DecidableEq, Repr

/-- The configuration `bqConfig`: `arenaSize` and `memorySize` in bytes. -/
structure BqConfig where
  arenaSize : Int
  memorySize : Int
deriving DecidableEq, Repr

/-- Modelled from the spec: the position index `queueIndex`, which stores the
head and the tail position, each an (arena id, offset) pair. -/
structure QueueIndex where
  head : Int × Int
  tail : Int × Int
deriving DecidableEq, Repr

/-- Modelled from the spec: `getHead() -> (aid, offset)`. -/
def QueueIndex.getHead (ix : QueueIndex) : Int × Int := ix.head

/-- Modelled from the spec: `getTail() -> (aid, offset)`. -/
def QueueIndex.getTail (ix : QueueIndex) : Int × Int := ix.tail

/-- The struct `arenaManager` together with the objects its pointers reach
(`conf`, `index`) and the world of the consumed capabilities: `fails n` says
whether the capability call number `n` fails, `trace` lists the capability
calls made so far, oldest first.  The field `dir` only prefixes file names and
is left out. -/
structure ArenaManager where
  conf : BqConfig
  baseAid : Int
  arenaList : List (Option Arena)
  activeArenaCount : Int
  index : QueueIndex
  fails : Nat → Bool
  trace : List Event

/-- The slice index expression `arenaList[i]`: `none` is the runtime panic
for an index outside `0 .. len-1`. -/
def slot (l : List (Option Arena)) (i : Int) : Option (Option Arena) :=
  if i < 0 then none else l[i.toNat]?

/-- Modelled from the spec: `newArena(file, size)` for the file of `aid`;
creates and maps the file, or fails. -/
def newArena (m : ArenaManager) (aid : Int) : Res Arena × ArenaManager :=
  if m.fails m.trace.length then
    (.fail (.err (.newArena aid)), { m with trace := m.trace ++ [.newArenaFailed aid] })
  else
    (.ok ⟨aid, m.trace.length⟩,
      { m with trace := m.trace ++ [.newArena ⟨aid, m.trace.length⟩] })

/-- Modelled from the spec: `a.Unmap()`, releasing the mapping; returns an
error (`some e`) or nil (`none`). -/
def Unmap (m : ArenaManager) (a : Arena) : Option Error × ArenaManager :=
  if m.fails m.trace.length then
    (some (.unmap a), { m with trace := m.trace ++ [.unmap a false] })
  else
    (none, { m with trace := m.trace ++ [.unmap a true] })

/-- Modelled from the spec: `a.WriteUint64(offset, num)`, which returns
nothing. -/
def WriteUint64 (m : ArenaManager) (a : Arena) (offset : Int) (num : Nat) :
    ArenaManager :=
  { m with trace := m.trace ++ [.writeUint64 a offset num] }

/-- Modelled from the spec: `a.Write(bytes, offset)` returns the count
actually written, bounded by the remaining capacity: it accepts
`min(len(bytes), arenaSize - offset)` bytes, or fails. -/
def Write (m : ArenaManager) (a : Arena) (bytes : List Byte) (offset : Int) :
    Res Nat × ArenaManager :=
  if m.fails m.trace.length then
    (.fail (.err (.write a)), { m with trace := m.trace ++ [.writeFailed a offset bytes] })
  else
    (.ok (min bytes.length (m.conf.arenaSize - offset).toNat),
      { m with trace := m.trace ++
          [.write a offset bytes (min bytes.length (m.conf.arenaSize - offset).toNat)] })

/-- Modelled from the spec: `index.putTail(aid, offset)`. -/
def putTail (m : ArenaManager) (aid offset : Int) : ArenaManager :=
  { m with index := { m.index with tail := (aid, offset) },
           trace := m.trace ++ [.putTail aid offset] }

/-- The part of `addArena` after the check for an existing arena: create the
mapping, then append it to the slot table or store it in its slot. -/
def createArena (m : ArenaManager) (aid : Int) : Res Arena × ArenaManager :=
  match newArena m aid with
  | (.fail f, m1) => (.fail f, m1)
  | (.ok a, m1) =>
    if (m1.arenaList.length : Int) < aid - m1.baseAid + 1 then
      (.ok a, { m1 with arenaList := m1.arenaList ++ [some a] })
    else if aid - m1.baseAid < 0 then (.fail .panic, m1)
    else (.ok a, { m1 with arenaList := m1.arenaList.set (aid - m1.baseAid).toNat (some a) })

/-- The method `addArena` of `arenamanager.go`.  The existence check compares
`aid` itself, not `aid - baseAid`, with the length of the slot table. -/
def addArena (m : ArenaManager) (aid : Int) : Res Arena × ArenaManager :=
  if aid < (m.arenaList.length : Int) then
    match slot m.arenaList (aid - m.baseAid) with
    | none => (.fail .panic, m)
    | some (some a) => (.ok a, m)
    | some none => createArena m aid
  else createArena m aid

/-- The method `getArena` of `arenamanager.go`. -/
def getArena (m : ArenaManager) (aid : Int) : Res Arena × ArenaManager :=
  match slot m.arenaList (aid - m.baseAid) with
  | none => (.fail .panic, m)
  | some (some a) => (.ok a, m)
  | some none =>
    let headAid := m.index.getHead.1
    if aid < headAid + m.activeArenaCount then addArena m aid
    else (.fail (.err .inactiveArena), m)

/-- The method `unmapArena` of `arenamanager.go`. -/
def unmapArena (m : ArenaManager) (aid : Int) (isStrict : Bool) : Res Unit × ArenaManager :=
  match slot m.arenaList (aid - m.baseAid) with
  | none => (.fail .panic, m)
  | some none => (.ok (), m)
  | some (some a) =>
    if !isStrict && decide (aid - m.index.getHead.1 < m.activeArenaCount) then (.ok (), m)
    else
      match Unmap m a with
      | (some e, m1) => (.fail (.err e), m1)
      | (none, m1) =>
        (.ok (), { m1 with arenaList := m1.arenaList.set (aid - m1.baseAid).toNat none })

/-- The method `activateArenaRange`, with `n` the iterations left of
`for aid := startAid; aid <= endAid; aid++`. -/
def activateArenaRangeLoop (n : Nat) (m : ArenaManager) (aid : Int) : Res Unit × ArenaManager :=
  match n with
  | 0 => (.ok (), m)
  | n + 1 =>
    match getArena m aid with
    | (.ok _, m1) => activateArenaRangeLoop n m1 (aid + 1)
    | (.fail f, m1) => (.fail f, m1)

/-- The method `activateArenaRange` of `arenamanager.go`. -/
def activateArenaRange (m : ArenaManager) (startAid endAid : Int) : Res Unit × ArenaManager :=
  activateArenaRangeLoop (endAid + 1 - startAid).toNat m startAid

/-- The method `getMaxActiveAid` of `arenamanager.go`.  The constant
`cDefaultArenaSize` it compares the window size with is declared outside
these files and is a parameter. -/
def getMaxActiveAid (cDefaultArenaSize : Int) (m : ArenaManager) : Int :=
  let headAid := m.index.getHead.1
  let tailAid := m.index.getTail.1
  if m.activeArenaCount = cDefaultArenaSize then tailAid
  else min (headAid + m.activeArenaCount - 1) tailAid

/-- The loop of `close` over the slots that are left: nil slots are skipped,
an error of `Unmap` overwrites `retErr`. -/
def closeLoop (l : List (Option Arena)) (m : ArenaManager) (retErr : Option Error) :
    Option Error × ArenaManager :=
  match l with
  | [] => (retErr, m)
  | none :: l => closeLoop l m retErr
  | some a :: l =>
    match Unmap m a with
    | (some e, m1) => closeLoop l m1 (some e)
    | (none, m1) => closeLoop l m1 retErr

/-- The method `close` of `arenamanager.go`; the result is `retErr`. -/
def close (m : ArenaManager) : Option Error × ArenaManager :=
  closeLoop m.arenaList m none

/-- The method `unmapArenaRange`, with `n` the iterations left of
`for aid := startAid; aid <= endAid; aid++`. -/
def unmapArenaRangeLoop (n : Nat) (m : ArenaManager) (aid : Int) (isStrict : Bool) :
    Res Unit × ArenaManager :=
  match n with
  | 0 => (.ok (), m)
  | n + 1 =>
    match unmapArena m aid isStrict with
    | (.ok _, m1) => unmapArenaRangeLoop n m1 (aid + 1) isStrict
    | (.fail f, m1) => (.fail f, m1)

/-- The method `unmapArenaRange` of `arenamanager.go`. -/
def unmapArenaRange (m : ArenaManager) (startAid endAid : Int) (isStrict : Bool) :
    Res Unit × ArenaManager :=
  unmapArenaRangeLoop (endAid + 1 - startAid).toNat m startAid isStrict

/-- The setup loop of `newArenaManager`, with `n` the iterations left of
`for i := 0; i < min(tailAid+1-headAid, activeArenaCount); i++`. -/
def setupLoop (n : Nat) (m : ArenaManager) (headAid i : Int) : Res Unit × ArenaManager :=
  match n with
  | 0 => (.ok (), m)
  | n + 1 =>
    match addArena m (headAid + i) with
    | (.ok _, m1) => setupLoop n m1 headAid (i + 1)
    | (.fail f, m1) => (.fail f, m1)

/-- The window size `newArenaManager` computes from the configuration
(Go's `/` truncates). -/
def windowSize (conf : BqConfig) : Int :=
  if conf.memorySize > 0 then Int.tdiv conf.memorySize conf.arenaSize - 1
  else cMaxActiveArenaCount

/-- The part of `newArenaManager` after the struct is allocated: the setup
loop and the setup of the tail arena; `activeArenaCount` is the local variable
the struct field was initialised with.  A failed setup closes the manager
before returning. -/
def setupArenas (am : ArenaManager) (headAid tailAid : Int) : Res ArenaManager × List Event :=
  match setupLoop (min (tailAid + 1 - headAid) am.activeArenaCount).toNat am headAid 0 with
  | (.fail (.err e), am1) => (.fail (.err e), (close am1).2.trace)
  | (.fail f, am1) => (.fail f, am1.trace)
  | (.ok _, am1) =>
    if am.activeArenaCount ≤ tailAid - headAid then
      match addArena am1 tailAid with
      | (.fail (.err e), am2) => (.fail (.err e), (close am2).2.trace)
      | (.fail f, am2) => (.fail f, am2.trace)
      | (.ok _, am2) => (.ok am2, am2.trace)
    else (.ok am1, am1.trace)

/-- The function `newArenaManager` of `arenamanager.go`, run in the world
`fails`, `trace`.  The result is the manager or the failure, and the trace of
the world afterwards.  Dividing by an arena size of zero and making a slice
of negative length are runtime panics. -/
def newArenaManager (conf : BqConfig) (headAid tailAid : Int) (index : QueueIndex)
    (fails : Nat → Bool) (trace : List Event) : Res ArenaManager × List Event :=
  if conf.memorySize > 0 ∧ conf.arenaSize = 0 then (.fail .panic, trace)
  else if tailAid - headAid + 1 < 0 then (.fail .panic, trace)
  else
    setupArenas
      { conf := conf, baseAid := headAid,
        arenaList := List.replicate (tailAid - headAid + 1).toNat none,
        activeArenaCount := windowSize conf, index := index,
        fails := fails, trace := trace }
      headAid tailAid

/-- The struct `BigQueue` is declared outside these files.  The write path
uses its fields `am`, `conf` and `index`; `conf` and `index` are the objects
the manager points to as well, so the state of the queue is the state of the
manager: `bq.conf`, `bq.index` and `bq.am` all read this record. -/
abbrev BigQueue := ArenaManager

/-- The method `getNextArena` of `write.go`. -/
def getNextArena (bq : BigQueue) (prevAid : Int) : Res Unit × BigQueue :=
  match unmapArena bq prevAid false with
  | (.fail f, bq1) => (.fail f, bq1)
  | (.ok _, bq1) =>
    match addArena bq1 (prevAid + 1) with
    | (.fail f, bq2) => (.fail f, bq2)
    | (.ok _, bq2) => (.ok (), bq2)

/-- The part of `writeLength` after the first rollover check: look the arena
up, write the header, advance the offset and roll over at capacity. -/
def writeLengthAt (bq : BigQueue) (aid offset : Int) (length : Nat) :
    Res (Int × Int) × BigQueue :=
  match getArena bq aid with
  | (.fail f, bq1) => (.fail f, bq1)
  | (.ok arena, bq1) =>
    let bq2 := WriteUint64 bq1 arena offset length
    if offset + cInt64Size = bq2.conf.arenaSize then
      match getNextArena bq2 aid with
      | (.fail f, bq3) => (.fail f, bq3)
      | (.ok _, bq3) => (.ok (aid + 1, 0), bq3)
    else (.ok (aid, offset + cInt64Size), bq2)

/-- The method `writeLength` of `write.go`. -/
def writeLength (bq : BigQueue) (aid offset : Int) (length : Nat) :
    Res (Int × Int) × BigQueue :=
  if cInt64Size + offset > bq.conf.arenaSize then
    match getNextArena bq aid with
    | (.fail f, bq1) => (.fail f, bq1)
    | (.ok _, bq1) => writeLengthAt bq1 (aid + 1) 0 length
  else writeLengthAt bq aid offset length

/-- The `for` loop of `writeBytes`; `fuel` bounds the number of iterations
and `counter` is the number of bytes written so far. -/
def writeBytesLoop (fuel : Nat) (bq : BigQueue) (aid offset : Int) (byteSlice : List Byte)
    (counter : Nat) : Res (Int × Int) × BigQueue :=
  match fuel with
  | 0 => (.fail .outOfFuel, bq)
  | fuel + 1 =>
    match getArena bq aid with
    | (.fail f, bq1) => (.fail f, bq1)
    | (.ok arena, bq1) =>
      match Write bq1 arena (byteSlice.drop counter) offset with
      | (.fail f, bq2) => (.fail f, bq2)
      | (.ok bytesWritten, bq2) =>
        if offset + bytesWritten = bq2.conf.arenaSize then
          match getNextArena bq2 aid with
          | (.fail f, bq3) => (.fail f, bq3)
          | (.ok _, bq3) =>
            if counter + bytesWritten = byteSlice.length then (.ok (aid + 1, 0), bq3)
            else writeBytesLoop fuel bq3 (aid + 1) 0 byteSlice (counter + bytesWritten)
        else
          if counter + bytesWritten = byteSlice.length then
            (.ok (aid, offset + bytesWritten), bq2)
          else writeBytesLoop fuel bq2 aid (offset + bytesWritten) byteSlice (counter + bytesWritten)

/-- The method `writeBytes` of `write.go`, its loop cut off after `fuel`
iterations. -/
def writeBytes (fuel : Nat) (bq : BigQueue) (aid offset : Int) (byteSlice : List Byte) :
    Res (Int × Int) × BigQueue :=
  writeBytesLoop fuel bq aid offset byteSlice 0

/-- The method `Enqueue` of `write.go`, the loop of `writeBytes` cut off
after `fuel` iterations. -/
def Enqueue (fuel : Nat) (bq : BigQueue) (message : List Byte) : Res Unit × BigQueue :=
  match writeLength bq bq.index.getTail.1 bq.index.getTail.2 message.length with
  | (.fail f, bq1) => (.fail f, bq1)
  | (.ok (aid, offset), bq1) =>
    match writeBytes fuel bq1 aid offset message with
    | (.fail f, bq2) => (.fail f, bq2)
    | (.ok (aid, offset), bq2) => (.ok (), putTail bq2 aid offset)

/-- Segment `aid` is resident: its slot exists and is not nil. -/
def resident (m : ArenaManager) (aid : Int) : Prop :=
  ∃ a, slot m.arenaList (aid - m.baseAid) = some (some a)

instance (m : ArenaManager) (aid : Int) : Decidable (resident m aid) :=
  match h : slot m.arenaList (aid - m.baseAid) with
  | some (some a) => isTrue ⟨a, h⟩
  | some none => isFalse (by rintro ⟨a, ha⟩; rw [h] at ha; cases ha)
  | none => isFalse (by rintro ⟨a, ha⟩; rw [h] at ha; cases ha)

/-- The capability calls the manager itself makes: creating a mapping and
releasing one. -/
def Event.isMgr : Event → Bool
  | .newArena _ => true
  | .newArenaFailed _ => true
  | .unmap _ _ => true
  | _ => false

/-- The call `putTail`. -/
def Event.isPutTail : Event → Bool
  | .putTail _ _ => true
  | _ => false

/-- The capability calls `writeLength` makes: those of the manager and the
write of the header. -/
def Event.isHeader : Event → Bool
  | .writeUint64 _ _ _ => true
  | e => e.isMgr

/-- A successful call of `Write`. -/
def Event.isWrite : Event → Bool
  | .write _ _ _ _ => true
  | _ => false

/-- The headers a trace writes: file, offset and value of every
`WriteUint64`, oldest first. -/
def headerWrites : List Event → List (Int × Int × Nat)
  | [] => []
  | .writeUint64 a offset num :: es => (a.aid, offset, num) :: headerWrites es
  | _ :: es => headerWrites es

/-- The bytes `bs` placed one after the other in the file of segment `aid`
from offset `offset` on. -/
def placeBytes (aid offset : Int) : List Byte → List (Int × Int × Byte)
  | [] => []
  | b :: bs => (aid, offset, b) :: placeBytes aid (offset + 1) bs

/-- The payload bytes a trace writes: file, offset and value of every byte
that a `Write` accepted, oldest first. -/
def writtenBytes : List Event → List (Int × Int × Byte)
  | [] => []
  | .write a offset bytes n :: es => placeBytes a.aid offset (bytes.take n) ++ writtenBytes es
  | _ :: es => writtenBytes es

/-- The contiguous layout of a payload from the linear position `P` on, with
capacity `C`: byte number `i` lies in segment `(P + i) / C` at offset
`(P + i) % C`. -/
def layout (C : Int) (P : Int) : List Byte → List (Int × Int × Byte)
  | [] => []
  | b :: bs => (P / C, P % C, b) :: layout C (P + 1) bs

/-- Every `Write` of the trace goes to the segment and offset of the current
linear position `pos`, which starts at `pos` and advances by the count each
`Write` accepted, and carries the suffix of the payload `p` that is not yet
written, `c` counting the bytes written before. -/
def contiguousWrites (C : Int) (p : List Byte) : Int → Nat → List Event → Prop
  | _, _, [] => True
  | pos, c, .write a offset bytes n :: es =>
    a.aid = pos / C ∧ offset = pos % C ∧ bytes = p.drop c ∧
      contiguousWrites C p (pos + n) (c + n) es
  | pos, c, _ :: es => contiguousWrites C p pos c es

/-- A step from `m` to `m'` that leaves configuration, base, window size,
position index and fault schedule alone and appends events that satisfy `P`
to the trace. -/
structure Step (P : Event → Prop) (m m' : ArenaManager) : Prop where
  conf : m'.conf = m.conf
  baseAid : m'.baseAid = m.baseAid
  activeArenaCount : m'.activeArenaCount = m.activeArenaCount
  index : m'.index = m.index
  fails : m'.fails = m.fails
  trace : ∃ evs, m'.trace = m.trace ++ evs ∧ ∀ e ∈ evs, P e

/-- Slots hold mappings of the file of their own segment id. -/
def Consistent (m : ArenaManager) : Prop :=
  ∀ j a, slot m.arenaList j = some (some a) → a.aid = m.baseAid + j

/-- The slot table after `newArena` succeeded inside `addArena`. -/
def addedList (m : ArenaManager) (aid : Int) (a : Arena) : List (Option Arena) :=
  if (m.arenaList.length : Int) < aid - m.baseAid + 1 then m.arenaList ++ [some a]
  else m.arenaList.set (aid - m.baseAid).toNat (some a)

/-! ## Example states -/

/-- A queue with capacity 16 and window size 2 (memory budget 48), head and
tail at `(0, 0)`, segment 0 resident, in a world without faults. -/
def queueA : BigQueue :=
  { conf := ⟨16, 48⟩, baseAid := 0, arenaList := [some ⟨0, 0⟩], activeArenaCount := 2,
    index := ⟨(0, 0), (0, 0)⟩, fails := fun _ => false, trace := [.newArena ⟨0, 0⟩] }

/-- A queue with capacity 16 and window size 1 (memory budget 32), head at
`(0, 0)`, tail at `(1, 0)`, segments 0 and 1 resident, in a world where the
capability call number 5 fails.  It is the manager `newArenaManager` builds
for head segment 0 and tail segment 1. -/
def queueB : BigQueue :=
  { conf := ⟨16, 32⟩, baseAid := 0, arenaList := [some ⟨0, 0⟩, some ⟨1, 1⟩],
    activeArenaCount := 1, index := ⟨(0, 0), (1, 0)⟩, fails := fun n => n == 5,
    trace := [.newArena ⟨0, 0⟩, .newArena ⟨1, 1⟩] }

/-- The states reached from `m0` by `Enqueue` calls that all succeed. -/
inductive EnqueueReach (m0 : BigQueue) : BigQueue → Prop where
  | init : EnqueueReach m0 m0
  | step {m m' : BigQueue} (fuel : Nat) (message : List Byte) :
      EnqueueReach m0 m → Enqueue fuel m message = (.ok (), m') → EnqueueReach m0 m'

/-- The base of the slot table is the head segment, and every resident
segment other than `cur` lies in the window `[head, head + W)`. -/
def WindowAt (m : ArenaManager) (cur : Int) : Prop :=
  m.baseAid = m.index.getHead.1 ∧
  ∀ aid, resident m aid → aid ≠ cur →
    m.index.getHead.1 ≤ aid ∧ aid < m.index.getHead.1 + m.activeArenaCount

/-- The slot indices of the resident segments other than the segment of the
committed tail. -/
def othersResident (m : ArenaManager) : List Nat :=
  (List.range m.arenaList.length).filter (fun i =>
    decide (resident m (m.baseAid + (i : Int))) &&
      decide (m.baseAid + (i : Int) ≠ m.index.getTail.1))

/-- The manager `newArenaManager` builds with capacity 16 and memory budget 8
(window size `8/16 - 1 = -1`) for head and tail segment 0. -/
def queueNeg : BigQueue :=
  { conf := ⟨16, 8⟩, baseAid := 0, arenaList := [some ⟨0, 0⟩], activeArenaCount := -1,
    index := ⟨(0, 0), (0, 0)⟩, fails := fun _ => false, trace := [.newArena ⟨0, 0⟩] }

/-- The state of the setup loop of `newArenaManager` before iteration `i`,
for a table of `N` slots: slots `0 .. i-1` hold mappings of their files and
slots `i .. N-1` are nil. -/
def SetupInv (N h i : Int) (m : ArenaManager) : Prop :=
  m.baseAid = h ∧ (m.arenaList.length : Int) = N ∧
  (∀ j, i ≤ j → j < N → slot m.arenaList j = some none) ∧
  (∀ j, 0 ≤ j → j < i → ∃ a, slot m.arenaList j = some (some a) ∧ a.aid = h + j)

/-- The configuration with capacity 16 and window size 2. -/
def confC : BqConfig := ⟨16, 48⟩

/-- The position index with head `(0, 0)` and tail `(5, 0)`. -/
def indexC : QueueIndex := ⟨(0, 0), (5, 0)⟩

/-- The manager `newArenaManager` builds for `confC`, head segment 0 and tail
segment 5 in a world without faults. -/
def queueC : BigQueue :=
  { conf := confC, baseAid := 0,
    arenaList := [some ⟨0, 0⟩, some ⟨1, 1⟩, none, none, none, some ⟨5, 2⟩],
    activeArenaCount := 2, index := indexC, fails := fun _ => false,
    trace := [.newArena ⟨0, 0⟩, .newArena ⟨1, 1⟩, .newArena ⟨5, 2⟩] }

/-- A queue with capacity 16 and window size 2, head `(0, 0)`, tail `(1, 0)`,
segment 0 resident and the slot of segment 1 nil (as after a strict unmap of
segment 1), in a world without faults. -/
def queueD : BigQueue :=
  { conf := confC, baseAid := 0, arenaList := [some ⟨0, 0⟩, none],
    activeArenaCount := 2, index := ⟨(0, 0), (1, 0)⟩, fails := fun _ => false,
    trace := [.newArena ⟨0, 0⟩, .newArena ⟨1, 1⟩, .unmap ⟨1, 1⟩ true] }

/-- A queue with capacity 4 and no memory budget, head and tail at `(0, 0)`,
segment 0 resident, in a world without faults. -/
def queueSmall : BigQueue :=
  { conf := ⟨4, 0⟩, baseAid := 0, arenaList := [some ⟨0, 0⟩],
    activeArenaCount := cMaxActiveArenaCount, index := ⟨(0, 0), (0, 0)⟩,
    fails := fun _ => false, trace := [.newArena ⟨0, 0⟩] }

/-- The payload `0, 1, ..., n-1`. -/
def payload (n : Nat) : List Byte := (List.range n).map (fun i => Fin.ofNat i)

/-- The manager `newArenaManager` builds with capacity 16 and no memory
budget for head and tail segment 5 (so `baseAid = 5`), in a world where the
capability call number 4 fails. -/
def queueE : BigQueue :=
  { conf := ⟨16, 0⟩, baseAid := 5, arenaList := [some ⟨5, 0⟩],
    activeArenaCount := cMaxActiveArenaCount, index := ⟨(5, 0), (5, 0)⟩,
    fails := fun n => n == 4, trace := [.newArena ⟨5, 0⟩] }

/-- The queue `queueC` in a world where the capability call number 4 fails. -/
def queueF : BigQueue :=
  { conf := confC, baseAid := 0,
    arenaList := [some ⟨0, 0⟩, some ⟨1, 1⟩, none, none, none, some ⟨5, 2⟩],
    activeArenaCount := 2, index := indexC, fails := fun n => n == 4,
    trace := [.newArena ⟨0, 0⟩, .newArena ⟨1, 1⟩, .newArena ⟨5, 2⟩] }

/-- A queue with capacity 16 and no memory budget (window size the sentinel
`2147483647`), head `(0, 0)` and tail `(2147483647, 0)`: a table of
`2147483648` slots of which only the last one, that of the tail segment,
holds a segment. -/
def queueHuge : BigQueue :=
  { conf := ⟨16, 0⟩, baseAid := 0,
    arenaList := List.replicate 2147483647 none ++ [some ⟨2147483647, 0⟩],
    activeArenaCount := cMaxActiveArenaCount, index := ⟨(0, 0), (2147483647, 0)⟩,
    fails := fun _ => false, trace := [.newArena ⟨2147483647, 0⟩] }

/-- The queue `queueHuge` with capacity 8 and memory budget `8 * 2^31`
instead: a window limit applies and is `2^31 - 1`. -/
def queueWide : BigQueue :=
  { conf := ⟨8, 17179869184⟩, baseAid := 0,
    arenaList := List.replicate 2147483647 none ++ [some ⟨2147483647, 0⟩],
    activeArenaCount := 2147483647, index := ⟨(0, 0), (2147483647, 0)⟩,
    fails := fun _ => false, trace := [.newArena ⟨2147483647, 0⟩] }

/-- The resident segments of a manager, in slot order. -/
def residentArenas (m : ArenaManager) : List Arena := m.arenaList.filterMap id

/-- One `Unmap` call for every segment of the list, in order, the first one
being the capability call number `start`; each call fails or not as the fault
schedule says. -/
def unmapEvents (fails : Nat → Bool) (start : Nat) : List Arena → List Event
  | [] => []
  | a :: as => .unmap a (!fails start) :: unmapEvents fails (start + 1) as

/-- The last segment of the list whose `Unmap` call fails, the call of the
first segment being the capability call number `start`. -/
def lastFailed (fails : Nat → Bool) (start : Nat) : List Arena → Option Arena
  | [] => none
  | a :: as =>
    match lastFailed fails (start + 1) as with
    | some b => some b
    | none => if fails start then some a else none

/-- The segment an `Unmap` call is made on. -/
def Event.unmapped : Event → Option Arena
  | .unmap a _ => some a
  | _ => none

/-- The queue `queueC` in a world where the capability calls number 3 and 4
fail. -/
def queueG : BigQueue :=
  { conf := confC, baseAid := 0,
    arenaList := [some ⟨0, 0⟩, some ⟨1, 1⟩, none, none, none, some ⟨5, 2⟩],
    activeArenaCount := 2, index := indexC, fails := fun n => n == 3 || n == 4,
    trace := [.newArena ⟨0, 0⟩, .newArena ⟨1, 1⟩, .newArena ⟨5, 2⟩] }

/-- A call of `Write`, failed or not. -/
def Event.isWriteCall : Event → Bool
  | .write _ _ _ _ => true
  | .writeFailed _ _ _ => true
  | _ => false

/-- A `Write` that was given bytes accepted at least one of them. -/
def Event.progress : Event → Prop
  | .write _ _ bytes n => bytes ≠ [] → 1 ≤ n
  | _ => True

/-- A run from `m` to `m'` that makes at most `k` calls of `Write`, each of
which makes progress. -/
def Calls (k : Nat) (m m' : ArenaManager) : Prop :=
  ∃ evs, m'.trace = m.trace ++ evs ∧ evs.countP Event.isWriteCall ≤ k ∧
    ∀ e ∈ evs, e.progress

/-- The slot table ends with the slot of segment `cur`, which is resident,
and the base of the table is not negative. -/
def LastSlot (m : ArenaManager) (cur : Int) : Prop :=
  0 ≤ m.baseAid ∧ (m.arenaList.length : Int) = cur - m.baseAid + 1 ∧ resident m cur

/-- No capability call from now on fails. -/
def NoFault (m : ArenaManager) : Prop :=
  ∀ k, m.trace.length ≤ k → m.fails k = false

/-- The states reached from `m0` by `Enqueue` calls of any outcome. -/
inductive EnqueueSeq (m0 : BigQueue) : BigQueue → Prop where
  | init : EnqueueSeq m0 m0
  | step {m : BigQueue} (fuel : Nat) (message : List Byte) :
      EnqueueSeq m0 m → EnqueueSeq m0 (Enqueue fuel m message).2

/-- From `m` to `m'` the base, the head and the window size stay and every
resident segment inside the window of the head stays resident. -/
def Keeps (m m' : ArenaManager) : Prop :=
  m'.baseAid = m.baseAid ∧ m'.index.getHead = m.index.getHead ∧
  m'.activeArenaCount = m.activeArenaCount ∧
  ∀ aid, resident m aid → aid - m.index.getHead.1 < m.activeArenaCount → resident m' aid

/-- Every segment from `lo` through `hi` that lies inside the window of the
head is resident. -/
def RangeResident (m : ArenaManager) (lo hi : Int) : Prop :=
  ∀ aid, lo ≤ aid → aid ≤ hi → aid - m.index.getHead.1 < m.activeArenaCount → resident m aid

/-! ## The slot table -/

theorem slot_eq_none_iff (l : List (Option Arena)) (i : Int) :
    slot l i = none ↔ i < 0 ∨ (l.length : Int) ≤ i := by
  unfold slot
  split
  · simp [*]
  · rw [List.getElem?_eq_none_iff]; omega

theorem slot_eq_some_bounds {l : List (Option Arena)} {i : Int} {v : Option Arena}
    (h : slot l i = some v) : 0 ≤ i ∧ i < (l.length : Int) := by
  by_contra hc
  have : slot l i = none := (slot_eq_none_iff l i).2 (by omega)
  rw [this] at h; cases h

theorem slot_set (l : List (Option Arena)) (i j : Int) (v : Option Arena)
    (hi : 0 ≤ i) (hlt : i < (l.length : Int)) :
    slot (l.set i.toNat v) j = if j = i then some v else slot l j := by
  unfold slot
  by_cases hj : j < 0
  · have : j ≠ i := by omega
    simp [hj, this]
  · simp only [hj, if_false]
    rw [List.getElem?_set]
    by_cases hji : j = i
    · subst hji
      have : j.toNat < l.length := by omega
      simp [this]
    · have : i.toNat ≠ j.toNat := by omega
      simp [this, hji]

theorem slot_append_single (l : List (Option Arena)) (j : Int) (v : Option Arena) :
    slot (l ++ [v]) j = if j = (l.length : Int) then some v else slot l j := by
  unfold slot
  by_cases hj : j < 0
  · have : j ≠ (l.length : Int) := by omega
    simp [hj, this]
  · simp only [hj, if_false]
    by_cases hji : j = (l.length : Int)
    · have : j.toNat = l.length := by omega
      simp [hji]
    · simp only [hji, if_false]
      rw [List.getElem?_append]
      by_cases hlt : j.toNat < l.length
      · simp [hlt]
      · have h1 : l.length ≤ j.toNat := by omega
        have h2 : j.toNat - l.length ≠ 0 := by omega
        simp only [hlt, if_false]
        rw [List.getElem?_eq_none h1]
        cases hk : j.toNat - l.length with
        | zero => exact absurd hk h2
        | succ k => simp

theorem slot_replicate_none (n : Nat) (j : Int) :
    slot (List.replicate n none) j = if 0 ≤ j ∧ j < (n : Int) then some none else none := by
  unfold slot
  by_cases hj : j < 0
  · have : ¬ (0 ≤ j ∧ j < (n : Int)) := by omega
    simp [hj, this]
  · simp only [hj, if_false]
    rw [List.getElem?_replicate]
    by_cases hlt : j.toNat < n
    · have : 0 ≤ j ∧ j < (n : Int) := by omega
      simp [hlt, this]
    · have : ¬ (0 ≤ j ∧ j < (n : Int)) := by omega
      simp [hlt, this]

/-! ## Steps -/

theorem Step.refl (P : Event → Prop) (m : ArenaManager) : Step P m m :=
  ⟨rfl, rfl, rfl, rfl, rfl, [], by simp, by simp⟩

theorem Step.trans {P : Event → Prop} {m1 m2 m3 : ArenaManager}
    (h12 : Step P m1 m2) (h23 : Step P m2 m3) : Step P m1 m3 := by
  obtain ⟨c1, b1, a1, i1, f1, e1, t1, p1⟩ := h12
  obtain ⟨c2, b2, a2, i2, f2, e2, t2, p2⟩ := h23
  refine ⟨c2.trans c1, b2.trans b1, a2.trans a1, i2.trans i1, f2.trans f1, e1 ++ e2, ?_, ?_⟩
  · rw [t2, t1, List.append_assoc]
  · intro e he
    rcases List.mem_append.1 he with h | h
    · exact p1 e h
    · exact p2 e h

theorem Step.mono {P Q : Event → Prop} {m m' : ArenaManager} (hPQ : ∀ e, P e → Q e)
    (h : Step P m m') : Step Q m m' := by
  obtain ⟨c1, b1, a1, i1, f1, e1, t1, p1⟩ := h
  exact ⟨c1, b1, a1, i1, f1, e1, t1, fun e he => hPQ e (p1 e he)⟩

theorem Step.single {P : Event → Prop} (m : ArenaManager) (e : Event) (he : P e) :
    Step P m { m with trace := m.trace ++ [e] } :=
  ⟨rfl, rfl, rfl, rfl, rfl, [e], rfl, by simpa using he⟩

theorem Step.arenaList {P : Event → Prop} {m m' : ArenaManager} (l : List (Option Arena))
    (h : Step P m m') : Step P m { m' with arenaList := l } :=
  ⟨h.conf, h.baseAid, h.activeArenaCount, h.index, h.fails, h.trace⟩

theorem newArena_step (m : ArenaManager) (aid : Int) :
    Step (fun e => e.isMgr = true) m (newArena m aid).2 := by
  unfold newArena
  split
  · exact Step.single m _ rfl
  · exact Step.single m _ rfl

theorem Unmap_step (m : ArenaManager) (a : Arena) :
    Step (fun e => e.isMgr = true) m (Unmap m a).2 := by
  unfold Unmap
  split
  · exact Step.single m _ rfl
  · exact Step.single m _ rfl

theorem createArena_step (m : ArenaManager) (aid : Int) :
    Step (fun e => e.isMgr = true) m (createArena m aid).2 := by
  have hs := newArena_step m aid
  unfold createArena
  rcases hn : newArena m aid with ⟨_ | f, m1⟩
  · rw [hn] at hs
    simp only
    split_ifs
    · exact hs.arenaList _
    · exact hs
    · exact hs.arenaList _
  · rw [hn] at hs
    exact hs

theorem addArena_step (m : ArenaManager) (aid : Int) :
    Step (fun e => e.isMgr = true) m (addArena m aid).2 := by
  unfold addArena
  split
  · split
    · exact Step.refl _ m
    · exact Step.refl _ m
    · exact createArena_step m aid
  · exact createArena_step m aid

theorem createArena_ok {m m' : ArenaManager} {aid : Int} {a : Arena}
    (hok : createArena m aid = (.ok a, m')) :
    m.fails m.trace.length = false ∧ a = ⟨aid, m.trace.length⟩ ∧
      ((m.arenaList.length : Int) < aid - m.baseAid + 1 ∨ 0 ≤ aid - m.baseAid) ∧
      m' = { m with trace := m.trace ++ [.newArena a], arenaList := addedList m aid a } := by
  unfold createArena newArena at hok
  by_cases hf : m.fails m.trace.length = true
  · simp [hf] at hok
  · simp only [hf] at hok
    simp only [Bool.false_eq_true, if_false] at hok
    unfold addedList
    split_ifs at hok with h1 h2
    · simp only [Prod.mk.injEq, Res.ok.injEq] at hok
      obtain ⟨ha, hm⟩ := hok
      subst ha
      refine ⟨by simpa using hf, rfl, Or.inl h1, ?_⟩
      simp [h1, ← hm]
    · simp at hok
    · simp only [Prod.mk.injEq, Res.ok.injEq] at hok
      obtain ⟨ha, hm⟩ := hok
      subst ha
      refine ⟨by simpa using hf, rfl, Or.inr (by omega), ?_⟩
      simp [h1, ← hm]

theorem addArena_ok {m m' : ArenaManager} {aid : Int} {a : Arena}
    (h : addArena m aid = (.ok a, m')) :
    (m' = m ∧ slot m.arenaList (aid - m.baseAid) = some (some a)) ∨
    (m.fails m.trace.length = false ∧ a = ⟨aid, m.trace.length⟩ ∧
      ((m.arenaList.length : Int) < aid - m.baseAid + 1 ∨ 0 ≤ aid - m.baseAid) ∧
      m' = { m with trace := m.trace ++ [.newArena a], arenaList := addedList m aid a }) := by
  unfold addArena at h
  split at h
  · split at h
    · simp at h
    · next a0 hs =>
      simp only [Prod.mk.injEq, Res.ok.injEq] at h
      obtain ⟨ha, hm⟩ := h
      subst ha; subst hm
      exact Or.inl ⟨rfl, hs⟩
    · exact Or.inr (createArena_ok h)
  · exact Or.inr (createArena_ok h)

/-- After a successful `addArena(aid)` whose slot index is at most the length
of the table, slot `aid` holds the returned arena and the other slots are as
before. -/
theorem addArena_slots {m m' : ArenaManager} {aid : Int} {a : Arena}
    (h : addArena m aid = (.ok a, m')) (h0 : 0 ≤ aid - m.baseAid)
    (hlen : aid - m.baseAid ≤ (m.arenaList.length : Int)) :
    (∀ j, slot m'.arenaList j = if j = aid - m.baseAid then some (some a)
      else slot m.arenaList j) ∧
    (a.aid = aid ∨ slot m.arenaList (aid - m.baseAid) = some (some a)) := by
  rcases addArena_ok h with ⟨hm, hs⟩ | ⟨_, ha, _, hm⟩
  · subst hm
    refine ⟨fun j => ?_, Or.inr hs⟩
    split_ifs with hj
    · rw [hj, hs]
    · rfl
  · refine ⟨fun j => ?_, Or.inl (by rw [ha])⟩
    subst hm
    simp only [addedList]
    split_ifs with h1 hj hj
    · have : aid - m.baseAid = (m.arenaList.length : Int) := by omega
      rw [slot_append_single, hj, this]; simp
    · have : aid - m.baseAid = (m.arenaList.length : Int) := by omega
      rw [slot_append_single, ← this]; simp [hj]
    · rw [slot_set _ _ _ _ h0 (by omega), hj]; simp
    · rw [slot_set _ _ _ _ h0 (by omega)]; simp [hj]

theorem getArena_step (m : ArenaManager) (aid : Int) :
    Step (fun e => e.isMgr = true) m (getArena m aid).2 := by
  unfold getArena
  split
  · exact Step.refl _ m
  · exact Step.refl _ m
  · simp only
    split
    · exact addArena_step m aid
    · exact Step.refl _ m

theorem getArena_ok {m m' : ArenaManager} {aid : Int} {a : Arena}
    (h : getArena m aid = (.ok a, m')) :
    (m' = m ∧ slot m.arenaList (aid - m.baseAid) = some (some a)) ∨
    (slot m.arenaList (aid - m.baseAid) = some none ∧
      aid < m.index.getHead.1 + m.activeArenaCount ∧ addArena m aid = (.ok a, m')) := by
  unfold getArena at h
  split at h
  · simp at h
  · next a0 hs =>
    simp only [Prod.mk.injEq, Res.ok.injEq] at h
    obtain ⟨ha, hm⟩ := h
    subst ha; subst hm
    exact Or.inl ⟨rfl, hs⟩
  · next hs =>
    simp only at h
    split at h
    · next hw => exact Or.inr ⟨hs, hw, h⟩
    · simp at h

/-- After a successful `getArena(aid)` slot `aid` exists and holds the
returned arena; the other slots are as before. -/
theorem getArena_slots {m m' : ArenaManager} {aid : Int} {a : Arena}
    (h : getArena m aid = (.ok a, m')) :
    (0 ≤ aid - m.baseAid ∧ aid - m.baseAid < (m.arenaList.length : Int)) ∧
    (∀ j, slot m'.arenaList j = if j = aid - m.baseAid then some (some a)
      else slot m.arenaList j) ∧
    (a.aid = aid ∨ slot m.arenaList (aid - m.baseAid) = some (some a)) := by
  rcases getArena_ok h with ⟨hm, hs⟩ | ⟨hs, _, hadd⟩
  · subst hm
    refine ⟨slot_eq_some_bounds hs, fun j => ?_, Or.inr hs⟩
    split_ifs with hj
    · rw [hj, hs]
    · rfl
  · have hb := slot_eq_some_bounds hs
    obtain ⟨h1, h2⟩ := addArena_slots hadd hb.1 (by omega)
    exact ⟨hb, h1, h2⟩

theorem unmapArena_step (m : ArenaManager) (aid : Int) (isStrict : Bool) :
    Step (fun e => e.isMgr = true) m (unmapArena m aid isStrict).2 := by
  unfold unmapArena
  split
  · exact Step.refl _ m
  · exact Step.refl _ m
  · next a hs =>
    split
    · exact Step.refl _ m
    · have hu := Unmap_step m a
      rcases hn : Unmap m a with ⟨_ | e, m1⟩
      · rw [hn] at hu
        exact hu.arenaList _
      · rw [hn] at hu
        exact hu

theorem unmapArena_ok {m m' : ArenaManager} {aid : Int} {isStrict : Bool}
    (h : unmapArena m aid isStrict = (.ok (), m')) :
    (m' = m ∧ (slot m.arenaList (aid - m.baseAid) = some none ∨
      ∃ a, slot m.arenaList (aid - m.baseAid) = some (some a) ∧ isStrict = false ∧
        aid - m.index.getHead.1 < m.activeArenaCount)) ∨
    (∃ a, slot m.arenaList (aid - m.baseAid) = some (some a) ∧
      (isStrict = true ∨ ¬ aid - m.index.getHead.1 < m.activeArenaCount) ∧
      m.fails m.trace.length = false ∧
      m' = { m with trace := m.trace ++ [.unmap a true],
                    arenaList := m.arenaList.set (aid - m.baseAid).toNat none }) := by
  unfold unmapArena at h
  split at h
  · simp at h
  · next hs =>
    simp only [Prod.mk.injEq, true_and] at h
    exact Or.inl ⟨h.symm, Or.inl hs⟩
  · next a hs =>
    split at h
    · next hc =>
      simp only [Prod.mk.injEq, true_and] at h
      simp only [Bool.and_eq_true, Bool.not_eq_true', decide_eq_true_eq] at hc
      exact Or.inl ⟨h.symm, Or.inr ⟨a, hs, hc.1, hc.2⟩⟩
    · next hc =>
      simp only [Bool.and_eq_true, Bool.not_eq_true', decide_eq_true_eq, not_and] at hc
      unfold Unmap at h
      by_cases hf : m.fails m.trace.length = true
      · simp [hf] at h
      · simp only [hf, Bool.false_eq_true, if_false, Prod.mk.injEq, true_and] at h
        refine Or.inr ⟨a, hs, ?_, by simpa using hf, h.symm⟩
        cases isStrict
        · exact Or.inr (hc rfl)
        · exact Or.inl rfl

/-- After a successful `unmapArena(aid, isStrict)` slot `aid` exists; it is
either untouched (it was nil, or the call is not strict and `aid` is inside
the window) or cleared; the other slots are as before. -/
theorem unmapArena_slots {m m' : ArenaManager} {aid : Int} {isStrict : Bool}
    (h : unmapArena m aid isStrict = (.ok (), m')) :
    (0 ≤ aid - m.baseAid ∧ aid - m.baseAid < (m.arenaList.length : Int)) ∧
    (m'.arenaList.length = m.arenaList.length) ∧
    (∀ j, j ≠ aid - m.baseAid → slot m'.arenaList j = slot m.arenaList j) ∧
    ((slot m'.arenaList (aid - m.baseAid) = slot m.arenaList (aid - m.baseAid) ∧
        (slot m.arenaList (aid - m.baseAid) = some none ∨
          (isStrict = false ∧ aid - m.index.getHead.1 < m.activeArenaCount))) ∨
      slot m'.arenaList (aid - m.baseAid) = some none) := by
  rcases unmapArena_ok h with ⟨hm, hs⟩ | ⟨a, hs, _, _, hm⟩
  · subst hm
    have hb : 0 ≤ aid - m'.baseAid ∧ aid - m'.baseAid < (m'.arenaList.length : Int) := by
      rcases hs with hs | ⟨a, hs, _⟩ <;> exact slot_eq_some_bounds hs
    refine ⟨hb, rfl, fun j _ => rfl, Or.inl ⟨rfl, ?_⟩⟩
    rcases hs with hs | ⟨a, _, h1, h2⟩
    · exact Or.inl hs
    · exact Or.inr ⟨h1, h2⟩
  · have hb := slot_eq_some_bounds hs
    subst hm
    refine ⟨hb, by simp, fun j hj => ?_, Or.inr ?_⟩
    · simp only
      rw [slot_set _ _ _ _ hb.1 hb.2]; simp [hj]
    · simp only
      rw [slot_set _ _ _ _ hb.1 hb.2]; simp

theorem getNextArena_step (bq : BigQueue) (prevAid : Int) :
    Step (fun e => e.isMgr = true) bq (getNextArena bq prevAid).2 := by
  unfold getNextArena
  have h1 := unmapArena_step bq prevAid false
  rcases hu : unmapArena bq prevAid false with ⟨_ | f, bq1⟩
  · rw [hu] at h1
    have h2 := addArena_step bq1 (prevAid + 1)
    simp only
    rcases ha : addArena bq1 (prevAid + 1) with ⟨_ | f, bq2⟩
    · rw [ha] at h2
      exact h1.trans h2
    · rw [ha] at h2
      exact h1.trans h2
  · rw [hu] at h1
    exact h1

theorem getNextArena_ok {bq bq' : BigQueue} {prevAid : Int}
    (h : getNextArena bq prevAid = (.ok (), bq')) :
    ∃ bq1 a, unmapArena bq prevAid false = (.ok (), bq1) ∧
      addArena bq1 (prevAid + 1) = (.ok a, bq') := by
  unfold getNextArena at h
  rcases hu : unmapArena bq prevAid false with ⟨_ | f, bq1⟩
  · rw [hu] at h
    simp only at h
    rcases ha : addArena bq1 (prevAid + 1) with ⟨a | f, bq2⟩
    · rw [ha] at h
      simp only [Prod.mk.injEq, true_and] at h
      exact ⟨bq1, a, rfl, by rw [← h]; exact ha⟩
    · rw [ha] at h
      simp at h
  · rw [hu] at h
    simp at h

/-- After a successful `getNextArena(prevAid)`: slot `prevAid` exists, slot
`prevAid + 1` holds an arena, slot `prevAid` is untouched or cleared, and the
other slots are as before. -/
theorem getNextArena_slots {bq bq' : BigQueue} {prevAid : Int}
    (h : getNextArena bq prevAid = (.ok (), bq')) :
    (0 ≤ prevAid - bq.baseAid ∧ prevAid - bq.baseAid < (bq.arenaList.length : Int)) ∧
    (∃ a, slot bq'.arenaList (prevAid + 1 - bq.baseAid) = some (some a) ∧
      (a.aid = prevAid + 1 ∨ slot bq.arenaList (prevAid + 1 - bq.baseAid) = some (some a))) ∧
    (∀ j, j ≠ prevAid - bq.baseAid → j ≠ prevAid + 1 - bq.baseAid →
      slot bq'.arenaList j = slot bq.arenaList j) ∧
    ((slot bq'.arenaList (prevAid - bq.baseAid) = slot bq.arenaList (prevAid - bq.baseAid) ∧
        (slot bq.arenaList (prevAid - bq.baseAid) = some none ∨
          prevAid - bq.index.getHead.1 < bq.activeArenaCount)) ∨
      slot bq'.arenaList (prevAid - bq.baseAid) = some none) := by
  obtain ⟨bq1, a, hu, ha⟩ := getNextArena_ok h
  have hs1 : Step (fun e => e.isMgr = true) bq bq1 := by
    simpa [hu] using unmapArena_step bq prevAid false
  obtain ⟨hb, hlen, hother, hself⟩ := unmapArena_slots hu
  have hb1 := hs1.baseAid
  obtain ⟨hall, hfile⟩ := addArena_slots ha (by rw [hb1]; omega) (by rw [hb1, hlen]; omega)
  rw [hb1] at hall hfile
  have hne : prevAid - bq.baseAid ≠ prevAid + 1 - bq.baseAid := by omega
  refine ⟨hb, ⟨a, ?_, ?_⟩, ?_, ?_⟩
  · rw [hall]; simp
  · rcases hfile with hf | hf
    · exact Or.inl hf
    · right
      rw [← hother _ (Ne.symm hne)]
      exact hf
  · intro j h1 h2
    rw [hall]
    simp only [h2, if_false]
    exact hother j h1
  · rw [hall]
    simp only [hne, if_false]
    rcases hself with ⟨h1, h2⟩ | h1
    · left
      refine ⟨h1, ?_⟩
      rcases h2 with h2 | ⟨_, h2⟩
      · exact Or.inl h2
      · exact Or.inr h2
    · exact Or.inr h1

theorem addArena_length {m m' : ArenaManager} {aid : Int} {a : Arena}
    (h : addArena m aid = (.ok a, m')) (hlt : aid - m.baseAid < (m.arenaList.length : Int)) :
    m'.arenaList.length = m.arenaList.length := by
  rcases addArena_ok h with ⟨hm, _⟩ | ⟨_, _, _, hm⟩
  · rw [hm]
  · subst hm
    have : ¬ (m.arenaList.length : Int) < aid - m.baseAid + 1 := by omega
    simp [addedList, this]

/-- Activating a segment whose slot is nil, when `newArena` does not fail:
`addArena` creates the mapping and stores it in that slot. -/
theorem addArena_nil_slot {m : ArenaManager} {aid : Int}
    (hs : slot m.arenaList (aid - m.baseAid) = some none)
    (hf : m.fails m.trace.length = false) :
    addArena m aid = (.ok ⟨aid, m.trace.length⟩,
      { m with trace := m.trace ++ [.newArena ⟨aid, m.trace.length⟩],
               arenaList := m.arenaList.set (aid - m.baseAid).toNat
                 (some ⟨aid, m.trace.length⟩) }) := by
  have hb := slot_eq_some_bounds hs
  have h1 : ¬ (m.arenaList.length : Int) < aid - m.baseAid + 1 := by omega
  have h2 : ¬ aid - m.baseAid < 0 := by omega
  unfold addArena
  split
  · rw [hs]
    simp [createArena, newArena, hf, h1, h2]
  · simp [createArena, newArena, hf, h1, h2]

/-- Activating a segment whose slot is nil, when `newArena` fails. -/
theorem addArena_nil_slot_fails {m : ArenaManager} {aid : Int}
    (hs : slot m.arenaList (aid - m.baseAid) = some none)
    (hf : m.fails m.trace.length = true) :
    addArena m aid = (.fail (.err (.newArena aid)),
      { m with trace := m.trace ++ [.newArenaFailed aid] }) := by
  unfold addArena
  split
  · rw [hs]
    simp [createArena, newArena, hf]
  · simp [createArena, newArena, hf]

/-! ## Construction -/

theorem setupLoop_ok (n : Nat) : ∀ (m m' : ArenaManager) (N h i : Int),
    SetupInv N h i m → 0 ≤ i → i + n ≤ N → setupLoop n m h i = (.ok (), m') →
    SetupInv N h (i + n) m' ∧ Step (fun e => e.isMgr = true) m m' := by
  induction n with
  | zero =>
    intro m m' N h i hinv _ _ hrun
    simp only [setupLoop, Prod.mk.injEq, true_and] at hrun
    subst hrun
    simpa using ⟨hinv, Step.refl _ m⟩
  | succ n ih =>
    intro m m' N h i hinv h0 hN hrun
    obtain ⟨hbase, hlen, hnil, hset⟩ := hinv
    rw [setupLoop] at hrun
    have hstep := addArena_step m (h + i)
    rcases ha : addArena m (h + i) with ⟨a | f, m1⟩
    · rw [ha] at hrun hstep
      simp only at hrun hstep
      have hidx : h + i - m.baseAid = i := by rw [hbase]; omega
      obtain ⟨hall, hfile⟩ := addArena_slots ha (by omega) (by omega)
      have hlen1 := addArena_length ha (by omega)
      rw [hidx] at hall hfile
      have hinv1 : SetupInv N h (i + 1) m1 := by
        refine ⟨hstep.baseAid.trans hbase, by omega, fun j hj1 hj2 => ?_, fun j hj1 hj2 => ?_⟩
        · rw [hall]
          have : j ≠ i := by omega
          simp only [this, if_false]
          exact hnil j (by omega) hj2
        · rw [hall]
          by_cases hji : j = i
          · subst hji
            refine ⟨a, by simp, ?_⟩
            rcases hfile with hf | hf
            · exact hf
            · rw [hnil j (le_refl j) (by omega)] at hf
              simp at hf
          · simp only [hji, if_false]
            exact hset j hj1 (by omega)
      obtain ⟨hfin, hstep2⟩ := ih m1 m' N h (i + 1) hinv1 (by omega) (by push_cast at hN; omega) hrun
      refine ⟨?_, hstep.trans hstep2⟩
      have : i + 1 + (n : Int) = i + ((n + 1 : Nat) : Int) := by push_cast; ring
      rw [← this]
      exact hfin
    · rw [ha] at hrun
      simp at hrun

theorem setupLoop_nofault (n : Nat) : ∀ (m : ArenaManager) (N h i : Int),
    SetupInv N h i m → 0 ≤ i → i + n ≤ N → (∀ k, m.fails k = false) →
    ∃ m', setupLoop n m h i = (.ok (), m') := by
  induction n with
  | zero =>
    intro m N h i _ _ _ _
    exact ⟨m, rfl⟩
  | succ n ih =>
    intro m N h i hinv h0 hN hnf
    have hnil := hinv.2.2.1 i (le_refl i) (by push_cast at hN; omega)
    have hidx : h + i - m.baseAid = i := by rw [hinv.1]; omega
    obtain ⟨a, m1, ha⟩ : ∃ a m1, addArena m (h + i) = (.ok a, m1) :=
      ⟨_, _, @addArena_nil_slot m (h + i) (by rw [hidx]; exact hnil) (hnf _)⟩
    have hone : setupLoop 1 m h i = (.ok (), m1) := by
      simp only [setupLoop, ha]
    obtain ⟨hinv1, hstep⟩ := setupLoop_ok 1 m m1 N h i hinv h0 (by push_cast at hN ⊢; omega) hone
    rw [setupLoop, ha]
    simp only
    refine ih m1 N h (i + 1) (by simpa using hinv1) (by omega) (by push_cast at hN; omega) ?_
    intro k
    rw [hstep.fails]
    exact hnf k

theorem setupInv_init (conf : BqConfig) (headAid tailAid : Int) (index : QueueIndex)
    (fails : Nat → Bool) (trace : List Event) (W : Int) (hle : 0 ≤ tailAid - headAid + 1) :
    SetupInv (tailAid - headAid + 1) headAid 0
      { conf := conf, baseAid := headAid,
        arenaList := List.replicate (tailAid - headAid + 1).toNat none,
        activeArenaCount := W, index := index, fails := fails, trace := trace } := by
  refine ⟨rfl, ?_, fun j hj1 hj2 => ?_, fun j hj1 hj2 => ?_⟩
  · simp only [List.length_replicate]
    omega
  · simp only [slot_replicate_none]
    have : 0 ≤ j ∧ j < (((tailAid - headAid + 1).toNat : Nat) : Int) := by omega
    rw [if_pos this]
  · omega

/-- What a successful setup returns, from a table of `tailAid - headAid + 1`
nil slots: the table holds mappings of their own files, and the resident
segments are those of the window and the tail. -/
theorem setupArenas_ok {am0 am : ArenaManager} {headAid tailAid : Int} {tr : List Event}
    (hinit : SetupInv (tailAid - headAid + 1) headAid 0 am0)
    (hle : headAid ≤ tailAid)
    (hok : setupArenas am0 headAid tailAid = (.ok am, tr)) :
    Step (fun e => e.isMgr = true) am0 am ∧ tr = am.trace ∧
    (am.arenaList.length : Int) = tailAid - headAid + 1 ∧ Consistent am ∧
    (∀ aid, resident am aid ↔
      (headAid ≤ aid ∧ aid ≤ min tailAid (headAid + am0.activeArenaCount - 1)) ∨
        aid = tailAid) := by
  unfold setupArenas at hok
  generalize hn : (min (tailAid + 1 - headAid) am0.activeArenaCount).toNat = n at hok
  rcases hl : setupLoop n am0 headAid 0 with ⟨_ | f, am1⟩
  · rw [hl] at hok
    simp only at hok
    obtain ⟨hinv1, hs1⟩ := setupLoop_ok n am0 am1 _ headAid 0 hinit (le_refl 0)
      (by omega) hl
    obtain ⟨hb1, hlen1, hnil1, hset1⟩ := hinv1
    have hres1 : ∀ j, (∃ a, slot am1.arenaList j = some (some a)) ↔ 0 ≤ j ∧ j < (n : Int) := by
      intro j
      constructor
      · rintro ⟨a, ha⟩
        have hb := slot_eq_some_bounds ha
        refine ⟨hb.1, ?_⟩
        by_contra hc
        rw [hnil1 j (by omega) (by omega)] at ha
        simp at ha
      · rintro ⟨hj1, hj2⟩
        obtain ⟨a, ha, _⟩ := hset1 j hj1 (by omega)
        exact ⟨a, ha⟩
    have hcons1 : Consistent am1 := by
      intro j a ha
      have hj := (hres1 j).1 ⟨a, ha⟩
      obtain ⟨a', ha', hfile⟩ := hset1 j hj.1 (by omega)
      rw [ha] at ha'
      simp only [Option.some.injEq] at ha'
      rw [ha', hfile, hb1]
    split_ifs at hok with hw
    · have hstep2 := addArena_step am1 tailAid
      rcases ha2 : addArena am1 tailAid with ⟨a | f, am2⟩
      · rw [ha2] at hok hstep2
        simp only [Prod.mk.injEq, Res.ok.injEq] at hok
        obtain ⟨ham, htr⟩ := hok
        subst ham
        have hidx : tailAid - am1.baseAid = tailAid - headAid := by rw [hb1]
        obtain ⟨hall, hfile⟩ := addArena_slots ha2 (by omega) (by omega)
        have hlen2 := addArena_length ha2 (by omega)
        rw [hidx] at hall hfile
        have htnil : slot am1.arenaList (tailAid - headAid) = some none :=
          hnil1 _ (by omega) (by omega)
        refine ⟨hs1.trans hstep2, htr.symm, by omega, ?_, ?_⟩
        · intro j b hb
          rw [hall] at hb
          rw [hstep2.baseAid]
          split_ifs at hb with hj
          · simp only [Option.some.injEq] at hb
            subst hb
            rcases hfile with hf | hf
            · rw [hf, hj, hb1]; omega
            · rw [htnil] at hf
              simp at hf
          · exact hcons1 j b hb
        · intro aid
          unfold resident
          rw [hstep2.baseAid, hb1]
          simp only [hall]
          by_cases hj : aid - headAid = tailAid - headAid
          · simp only [hj, if_true]
            have : aid = tailAid := by omega
            constructor
            · intro _
              exact Or.inr this
            · intro _
              exact ⟨a, rfl⟩
          · simp only [hj, if_false]
            rw [hres1]
            omega
      · rw [ha2] at hok
        cases f <;> simp at hok
    · simp only [Prod.mk.injEq, Res.ok.injEq] at hok
      obtain ⟨ham, htr⟩ := hok
      subst ham
      refine ⟨hs1, htr.symm, by omega, hcons1, ?_⟩
      intro aid
      unfold resident
      rw [hb1, hres1]
      omega
  · rw [hl] at hok
    cases f <;> simp at hok

/-- What a successful `newArenaManager` returns: the fields it stores, a
table of `tailAid - headAid + 1` slots that hold mappings of their own files,
and the resident segments. -/
theorem newArenaManager_ok {conf : BqConfig} {headAid tailAid : Int} {index : QueueIndex}
    {fails : Nat → Bool} {trace tr : List Event} {am : ArenaManager}
    (hle : headAid ≤ tailAid)
    (hok : newArenaManager conf headAid tailAid index fails trace = (.ok am, tr)) :
    am.baseAid = headAid ∧ am.conf = conf ∧ am.activeArenaCount = windowSize conf ∧
    am.index = index ∧ am.fails = fails ∧ tr = am.trace ∧
    (am.arenaList.length : Int) = tailAid - headAid + 1 ∧ Consistent am ∧
    (∀ aid, resident am aid ↔
      (headAid ≤ aid ∧ aid ≤ min tailAid (headAid + windowSize conf - 1)) ∨
        aid = tailAid) := by
  unfold newArenaManager at hok
  split_ifs at hok with h1 h2
  · simp at hok
  · simp at hok
  · have hN : 0 ≤ tailAid - headAid + 1 := by omega
    have hinit := setupInv_init conf headAid tailAid index fails trace (windowSize conf) hN
    obtain ⟨hs, htr, hlen, hcons, hres⟩ := setupArenas_ok hinit hle hok
    exact ⟨hs.baseAid, hs.conf, hs.activeArenaCount, hs.index, hs.fails, htr, hlen, hcons, hres⟩

theorem setupArenas_nofault {am0 : ArenaManager} {headAid tailAid : Int}
    (hinit : SetupInv (tailAid - headAid + 1) headAid 0 am0) (hle : headAid ≤ tailAid)
    (hf0 : ∀ k, am0.fails k = false) :
    ∃ am, setupArenas am0 headAid tailAid = (.ok am, am.trace) := by
  unfold setupArenas
  generalize hn : (min (tailAid + 1 - headAid) am0.activeArenaCount).toNat = n
  obtain ⟨am1, hl⟩ := setupLoop_nofault n am0 _ headAid 0 hinit (le_refl 0) (by omega) hf0
  obtain ⟨hinv1, hs1⟩ := setupLoop_ok n am0 am1 _ headAid 0 hinit (le_refl 0) (by omega) hl
  rw [hl]
  simp only
  split_ifs with hw
  · have htnil : slot am1.arenaList (tailAid - am1.baseAid) = some none := by
      rw [hinv1.1]
      exact hinv1.2.2.1 _ (by omega) (by omega)
    have hf1 : am1.fails am1.trace.length = false := by rw [hs1.fails]; exact hf0 _
    rw [addArena_nil_slot htnil hf1]
    exact ⟨_, rfl⟩
  · exact ⟨am1, rfl⟩

/-- Without faults, and unless the window size divides by an arena size of
zero, `newArenaManager` returns a manager. -/
theorem newArenaManager_nofault (conf : BqConfig) (headAid tailAid : Int) (index : QueueIndex)
    (fails : Nat → Bool) (trace : List Event) (hle : headAid ≤ tailAid)
    (hdiv : conf.memorySize > 0 → conf.arenaSize ≠ 0) (hnf : ∀ k, fails k = false) :
    ∃ am, newArenaManager conf headAid tailAid index fails trace = (.ok am, am.trace) := by
  have hN : 0 ≤ tailAid - headAid + 1 := by omega
  have hinit := setupInv_init conf headAid tailAid index fails trace (windowSize conf) hN
  unfold newArenaManager
  have h1 : ¬ (conf.memorySize > 0 ∧ conf.arenaSize = 0) := fun h => hdiv h.1 h.2
  have h2 : ¬ tailAid - headAid + 1 < 0 := by omega
  rw [if_neg h1, if_neg h2]
  exact setupArenas_nofault hinit hle hnf

/-! ## The write path -/

theorem WriteUint64_step (m : ArenaManager) (a : Arena) (offset : Int) (num : Nat) :
    Step (fun e => e.isPutTail = false) m (WriteUint64 m a offset num) :=
  Step.single m _ rfl

theorem Write_step (m : ArenaManager) (a : Arena) (bytes : List Byte) (offset : Int) :
    Step (fun e => e.isPutTail = false) m (Write m a bytes offset).2 := by
  unfold Write
  split
  · exact Step.single m _ rfl
  · exact Step.single m _ rfl

theorem Write_ok {m m' : ArenaManager} {a : Arena} {bytes : List Byte} {offset : Int} {n : Nat}
    (h : Write m a bytes offset = (.ok n, m')) :
    m.fails m.trace.length = false ∧
    n = min bytes.length (m.conf.arenaSize - offset).toNat ∧
    m' = { m with trace := m.trace ++ [.write a offset bytes n] } := by
  unfold Write at h
  by_cases hf : m.fails m.trace.length = true
  · simp [hf] at h
  · simp only [hf, Bool.false_eq_true, if_false, Prod.mk.injEq, Res.ok.injEq] at h
    obtain ⟨hn, hm⟩ := h
    subst hn
    exact ⟨by simpa using hf, rfl, hm.symm⟩

theorem isMgr_not_putTail (e : Event) (h : e.isMgr = true) : e.isPutTail = false := by
  cases e <;> simp_all [Event.isMgr, Event.isPutTail]

theorem Step.ofMgr {m m' : ArenaManager} (h : Step (fun e => e.isMgr = true) m m') :
    Step (fun e => e.isPutTail = false) m m' :=
  h.mono isMgr_not_putTail

theorem isMgr_isHeader (e : Event) (h : e.isMgr = true) : e.isHeader = true := by
  cases e <;> simp_all [Event.isMgr, Event.isHeader]

theorem isHeader_not_putTail (e : Event) (h : e.isHeader = true) : e.isPutTail = false := by
  cases e <;> simp_all [Event.isMgr, Event.isHeader, Event.isPutTail]

theorem isHeader_not_write (e : Event) (h : e.isHeader = true) : e.isWrite = false := by
  cases e <;> simp_all [Event.isMgr, Event.isHeader, Event.isWrite]

theorem isMgr_not_write (e : Event) (h : e.isMgr = true) : e.isWrite = false := by
  cases e <;> simp_all [Event.isMgr, Event.isWrite]

theorem Step.toHeader {m m' : ArenaManager} (h : Step (fun e => e.isMgr = true) m m') :
    Step (fun e => e.isHeader = true) m m' :=
  h.mono isMgr_isHeader

theorem writeLengthAt_ok {bq bq' : BigQueue} {aid offset : Int} {length : Nat} {pos : Int × Int}
    (h : writeLengthAt bq aid offset length = (.ok pos, bq')) :
    ∃ arena bq1, getArena bq aid = (.ok arena, bq1) ∧
      ((offset + cInt64Size = bq.conf.arenaSize ∧
          getNextArena (WriteUint64 bq1 arena offset length) aid = (.ok (), bq') ∧
          pos = (aid + 1, 0)) ∨
       (offset + cInt64Size ≠ bq.conf.arenaSize ∧
          bq' = WriteUint64 bq1 arena offset length ∧ pos = (aid, offset + cInt64Size))) := by
  unfold writeLengthAt at h
  have hs := getArena_step bq aid
  rcases hg : getArena bq aid with ⟨arena | f, bq1⟩
  · rw [hg] at h hs
    simp only at h
    have hconf : (WriteUint64 bq1 arena offset length).conf = bq.conf := hs.conf
    rw [hconf] at h
    refine ⟨arena, bq1, rfl, ?_⟩
    split_ifs at h with hc
    · left
      rcases hn : getNextArena (WriteUint64 bq1 arena offset length) aid with ⟨_ | f, bq3⟩
      · rw [hn] at h
        simp only [Prod.mk.injEq, Res.ok.injEq] at h
        exact ⟨hc, by rw [← h.2], h.1.symm⟩
      · rw [hn] at h
        simp at h
    · right
      simp only [Prod.mk.injEq, Res.ok.injEq] at h
      exact ⟨hc, h.2.symm, h.1.symm⟩
  · rw [hg] at h
    simp at h

theorem writeLength_ok {bq bq' : BigQueue} {aid offset : Int} {length : Nat} {pos : Int × Int}
    (h : writeLength bq aid offset length = (.ok pos, bq')) :
    (cInt64Size + offset > bq.conf.arenaSize ∧ ∃ bq1, getNextArena bq aid = (.ok (), bq1) ∧
      writeLengthAt bq1 (aid + 1) 0 length = (.ok pos, bq')) ∨
    (¬ cInt64Size + offset > bq.conf.arenaSize ∧
      writeLengthAt bq aid offset length = (.ok pos, bq')) := by
  unfold writeLength at h
  split_ifs at h with hc
  · left
    refine ⟨hc, ?_⟩
    rcases hn : getNextArena bq aid with ⟨_ | f, bq1⟩
    · rw [hn] at h
      exact ⟨bq1, rfl, h⟩
    · rw [hn] at h
      simp at h
  · exact Or.inr ⟨hc, h⟩

theorem writeLengthAt_header (bq : BigQueue) (aid offset : Int) (length : Nat) :
    Step (fun e => e.isHeader = true) bq (writeLengthAt bq aid offset length).2 := by
  unfold writeLengthAt
  have hs := (getArena_step bq aid).toHeader
  rcases hg : getArena bq aid with ⟨arena | f, bq1⟩
  · rw [hg] at hs
    simp only
    have h2 := hs.trans (Step.single bq1 (.writeUint64 arena offset length) rfl)
    split_ifs
    · have h3 := (getNextArena_step (WriteUint64 bq1 arena offset length) aid).toHeader
      rcases hn : getNextArena (WriteUint64 bq1 arena offset length) aid with ⟨_ | f, bq3⟩
      · rw [hn] at h3
        exact h2.trans h3
      · rw [hn] at h3
        exact h2.trans h3
    · exact h2
  · rw [hg] at hs
    exact hs

theorem writeLength_header (bq : BigQueue) (aid offset : Int) (length : Nat) :
    Step (fun e => e.isHeader = true) bq (writeLength bq aid offset length).2 := by
  unfold writeLength
  split_ifs
  · have hs := (getNextArena_step bq aid).toHeader
    rcases hn : getNextArena bq aid with ⟨_ | f, bq1⟩
    · rw [hn] at hs
      exact hs.trans (writeLengthAt_header bq1 (aid + 1) 0 length)
    · rw [hn] at hs
      exact hs
  · exact writeLengthAt_header bq aid offset length

theorem writeLength_step (bq : BigQueue) (aid offset : Int) (length : Nat) :
    Step (fun e => e.isPutTail = false) bq (writeLength bq aid offset length).2 :=
  (writeLength_header bq aid offset length).mono isHeader_not_putTail

theorem writeBytesLoop_succ_ok {fuel : Nat} {bq bq' : BigQueue} {aid offset : Int}
    {byteSlice : List Byte} {counter : Nat} {pos : Int × Int}
    (h : writeBytesLoop (fuel + 1) bq aid offset byteSlice counter = (.ok pos, bq')) :
    ∃ arena bq1 n bq2, getArena bq aid = (.ok arena, bq1) ∧
      Write bq1 arena (byteSlice.drop counter) offset = (.ok n, bq2) ∧
      ((offset + n = bq.conf.arenaSize ∧ ∃ bq3, getNextArena bq2 aid = (.ok (), bq3) ∧
          ((counter + n = byteSlice.length ∧ pos = (aid + 1, 0) ∧ bq' = bq3) ∨
           (counter + n ≠ byteSlice.length ∧
            writeBytesLoop fuel bq3 (aid + 1) 0 byteSlice (counter + n) = (.ok pos, bq')))) ∨
       (offset + n ≠ bq.conf.arenaSize ∧
          ((counter + n = byteSlice.length ∧ pos = (aid, offset + n) ∧ bq' = bq2) ∨
           (counter + n ≠ byteSlice.length ∧
            writeBytesLoop fuel bq2 aid (offset + n) byteSlice (counter + n) = (.ok pos, bq'))))) := by
  rw [writeBytesLoop] at h
  have hs := getArena_step bq aid
  rcases hg : getArena bq aid with ⟨arena | f, bq1⟩
  · rw [hg] at h hs
    simp only at h
    have hw := Write_step bq1 arena (byteSlice.drop counter) offset
    rcases hwr : Write bq1 arena (byteSlice.drop counter) offset with ⟨n | f, bq2⟩
    · rw [hwr] at h hw
      simp only at h
      have hconf : bq2.conf = bq.conf := hw.conf.trans hs.conf
      rw [hconf] at h
      refine ⟨arena, bq1, n, bq2, rfl, hwr, ?_⟩
      split_ifs at h with hc hl hl
      · left
        refine ⟨hc, ?_⟩
        rcases hn : getNextArena bq2 aid with ⟨_ | f, bq3⟩
        · rw [hn] at h
          simp only [Prod.mk.injEq, Res.ok.injEq] at h
          exact ⟨bq3, rfl, Or.inl ⟨hl, h.1.symm, h.2.symm⟩⟩
        · rw [hn] at h
          simp at h
      · left
        refine ⟨hc, ?_⟩
        rcases hn : getNextArena bq2 aid with ⟨_ | f, bq3⟩
        · rw [hn] at h
          exact ⟨bq3, rfl, Or.inr ⟨hl, h⟩⟩
        · rw [hn] at h
          simp at h
      · right
        simp only [Prod.mk.injEq, Res.ok.injEq] at h
        exact ⟨hc, Or.inl ⟨hl, h.1.symm, h.2.symm⟩⟩
      · exact Or.inr ⟨hc, Or.inr ⟨hl, h⟩⟩
    · rw [hwr] at h
      simp at h
  · rw [hg] at h
    simp at h

theorem writeBytesLoop_step (fuel : Nat) : ∀ (bq : BigQueue) (aid offset : Int)
    (byteSlice : List Byte) (counter : Nat),
    Step (fun e => e.isPutTail = false) bq
      (writeBytesLoop fuel bq aid offset byteSlice counter).2 := by
  induction fuel with
  | zero => intro bq _ _ _ _; exact Step.refl _ bq
  | succ fuel ih =>
    intro bq aid offset byteSlice counter
    rw [writeBytesLoop]
    have hs := (getArena_step bq aid).ofMgr
    rcases hg : getArena bq aid with ⟨arena | f, bq1⟩
    · rw [hg] at hs
      simp only
      have hw := Write_step bq1 arena (byteSlice.drop counter) offset
      rcases hwr : Write bq1 arena (byteSlice.drop counter) offset with ⟨n | f, bq2⟩
      · rw [hwr] at hw
        simp only
        have h2 := hs.trans hw
        split_ifs
        · have h3 := (getNextArena_step bq2 aid).ofMgr
          rcases hn : getNextArena bq2 aid with ⟨_ | f, bq3⟩
          · rw [hn] at h3
            exact h2.trans h3
          · rw [hn] at h3
            exact h2.trans h3
        · have h3 := (getNextArena_step bq2 aid).ofMgr
          rcases hn : getNextArena bq2 aid with ⟨_ | f, bq3⟩
          · rw [hn] at h3
            exact (h2.trans h3).trans (ih _ _ _ _ _)
          · rw [hn] at h3
            exact h2.trans h3
        · exact h2
        · exact h2.trans (ih _ _ _ _ _)
      · rw [hwr] at hw
        exact hs.trans hw
    · rw [hg] at hs
      exact hs

/-- The position a successful run of the loop of `writeBytes` returns: the
linear position has advanced by the number of bytes that were left, and the
offset is inside the arena. -/
theorem writeBytesLoop_pos (fuel : Nat) : ∀ (bq bq' : BigQueue) (aid offset : Int)
    (byteSlice : List Byte) (counter : Nat) (pos : Int × Int),
    0 ≤ offset → offset < bq.conf.arenaSize → counter ≤ byteSlice.length →
    writeBytesLoop fuel bq aid offset byteSlice counter = (.ok pos, bq') →
    pos.1 * bq.conf.arenaSize + pos.2 =
        aid * bq.conf.arenaSize + offset + ((byteSlice.length - counter : Nat) : Int) ∧
      0 ≤ pos.2 ∧ pos.2 < bq.conf.arenaSize := by
  induction fuel with
  | zero =>
    intro bq bq' aid offset byteSlice counter pos _ _ _ h
    simp [writeBytesLoop] at h
  | succ fuel ih =>
    intro bq bq' aid offset byteSlice counter pos h0 hlt hc h
    obtain ⟨arena, bq1, n, bq2, hg, hw, hcases⟩ := writeBytesLoop_succ_ok h
    have hs1 : Step (fun e => e.isMgr = true) bq bq1 := by
      simpa [hg] using getArena_step bq aid
    obtain ⟨_, hn, hbq2⟩ := Write_ok hw
    rw [hs1.conf, List.length_drop] at hn
    have hconf2 : bq2.conf = bq.conf := by rw [hbq2]; exact hs1.conf
    have hmul : (aid + 1) * bq.conf.arenaSize = aid * bq.conf.arenaSize + bq.conf.arenaSize := by
      ring
    rcases hcases with ⟨hcap, bq3, hnx, hfin | ⟨hne, hrec⟩⟩ | ⟨hcap, hfin | ⟨hne, hrec⟩⟩
    · obtain ⟨hl, hp, _⟩ := hfin
      subst hp
      simp only
      rw [hmul]
      omega
    · have hs3 : Step (fun e => e.isMgr = true) bq2 bq3 := by
        simpa [hnx] using getNextArena_step bq2 aid
      have hconf3 : bq3.conf = bq.conf := hs3.conf.trans hconf2
      have := ih bq3 bq' (aid + 1) 0 byteSlice (counter + n) pos (le_refl 0)
        (by rw [hconf3]; omega) (by omega) hrec
      rw [hconf3, hmul] at this
      omega
    · obtain ⟨hl, hp, _⟩ := hfin
      subst hp
      simp only
      omega
    · exfalso
      omega

theorem writeLengthAt_pos {bq bq' : BigQueue} {aid offset : Int} {length : Nat}
    {pos : Int × Int} (h0 : 0 ≤ offset) (hfit : offset + 8 ≤ bq.conf.arenaSize)
    (h : writeLengthAt bq aid offset length = (.ok pos, bq')) :
    pos.1 * bq.conf.arenaSize + pos.2 = aid * bq.conf.arenaSize + offset + 8 ∧
      0 ≤ pos.2 ∧ pos.2 < bq.conf.arenaSize ∧
      (offset + 8 = bq.conf.arenaSize → pos = (aid + 1, 0)) := by
  obtain ⟨arena, bq1, _, hcase⟩ := writeLengthAt_ok h
  have hmul : (aid + 1) * bq.conf.arenaSize = aid * bq.conf.arenaSize + bq.conf.arenaSize := by
    ring
  simp only [cInt64Size] at hcase
  rcases hcase with ⟨hc, _, hp⟩ | ⟨hc, _, hp⟩
  · subst hp
    simp only
    rw [hmul]
    refine ⟨by omega, le_refl 0, by omega, fun _ => trivial⟩
  · subst hp
    simp only
    refine ⟨by omega, by omega, by omega, fun h => absurd h hc⟩

/-- The position a successful `writeLength` returns. -/
theorem writeLength_pos {bq bq' : BigQueue} {aid offset : Int} {length : Nat}
    {pos : Int × Int} (hC : 8 ≤ bq.conf.arenaSize) (h0 : 0 ≤ offset)
    (h : writeLength bq aid offset length = (.ok pos, bq')) :
    pos.1 * bq.conf.arenaSize + pos.2 =
        (if offset + 8 ≤ bq.conf.arenaSize then aid * bq.conf.arenaSize + offset
          else (aid + 1) * bq.conf.arenaSize) + 8 ∧
      0 ≤ pos.2 ∧ pos.2 < bq.conf.arenaSize ∧
      (offset + 8 = bq.conf.arenaSize → pos = (aid + 1, 0)) := by
  rcases writeLength_ok h with ⟨hc, bq1, hn, hat⟩ | ⟨hc, hat⟩
  · simp only [cInt64Size] at hc
    have hs : Step (fun e => e.isMgr = true) bq bq1 := by
      simpa [hn] using getNextArena_step bq aid
    have := writeLengthAt_pos (le_refl 0) (by rw [hs.conf]; omega) hat
    rw [hs.conf] at this
    have hif : ¬ offset + 8 ≤ bq.conf.arenaSize := by omega
    rw [if_neg hif]
    refine ⟨by omega, this.2.1, this.2.2.1, fun h => by omega⟩
  · simp only [cInt64Size] at hc
    have := writeLengthAt_pos h0 (by omega) hat
    have hif : offset + 8 ≤ bq.conf.arenaSize := by omega
    rw [if_pos hif]
    exact ⟨by omega, this.2.1, this.2.2.1, this.2.2.2⟩

theorem Enqueue_ok {fuel : Nat} {bq bq' : BigQueue} {message : List Byte}
    (h : Enqueue fuel bq message = (.ok (), bq')) :
    ∃ pos1 bq1 pos2 bq2,
      writeLength bq bq.index.getTail.1 bq.index.getTail.2 message.length = (.ok pos1, bq1) ∧
      writeBytes fuel bq1 pos1.1 pos1.2 message = (.ok pos2, bq2) ∧
      bq' = putTail bq2 pos2.1 pos2.2 := by
  unfold Enqueue at h
  rcases hl : writeLength bq bq.index.getTail.1 bq.index.getTail.2 message.length
    with ⟨⟨a1, o1⟩ | f, bq1⟩
  · rw [hl] at h
    simp only at h
    rcases hb : writeBytes fuel bq1 a1 o1 message with ⟨⟨a2, o2⟩ | f, bq2⟩
    · rw [hb] at h
      simp only [Prod.mk.injEq, true_and] at h
      exact ⟨(a1, o1), bq1, (a2, o2), bq2, rfl, hb, h.symm⟩
    · rw [hb] at h
      simp at h
  · rw [hl] at h
    simp at h

theorem Enqueue_fail_step {fuel : Nat} {bq bq' : BigQueue} {message : List Byte} {f : Failure}
    (h : Enqueue fuel bq message = (.fail f, bq')) :
    Step (fun e => e.isPutTail = false) bq bq' := by
  unfold Enqueue at h
  have h1 := writeLength_step bq bq.index.getTail.1 bq.index.getTail.2 message.length
  rcases hl : writeLength bq bq.index.getTail.1 bq.index.getTail.2 message.length
    with ⟨⟨a1, o1⟩ | f1, bq1⟩
  · rw [hl] at h h1
    simp only at h
    have h2 := writeBytesLoop_step fuel bq1 a1 o1 message 0
    unfold writeBytes at h
    rcases hb : writeBytesLoop fuel bq1 a1 o1 message 0 with ⟨⟨a2, o2⟩ | f2, bq2⟩
    · rw [hb] at h
      simp at h
    · rw [hb] at h h2
      simp only [Prod.mk.injEq] at h
      rw [← h.2]
      exact h1.trans h2
  · rw [hl] at h h1
    simp only [Prod.mk.injEq] at h
    rw [← h.2]
    exact h1

/-- The tail a successful `Enqueue` commits. -/
theorem Enqueue_pos {fuel : Nat} {bq bq' : BigQueue} {message : List Byte}
    (hC : 8 ≤ bq.conf.arenaSize) (h0 : 0 ≤ bq.index.getTail.2)
    (h : Enqueue fuel bq message = (.ok (), bq')) :
    bq'.index.getTail.1 * bq.conf.arenaSize + bq'.index.getTail.2 =
        (if bq.index.getTail.2 + 8 ≤ bq.conf.arenaSize
          then bq.index.getTail.1 * bq.conf.arenaSize + bq.index.getTail.2
          else (bq.index.getTail.1 + 1) * bq.conf.arenaSize) + 8 + (message.length : Int) ∧
      0 ≤ bq'.index.getTail.2 ∧ bq'.index.getTail.2 < bq.conf.arenaSize := by
  obtain ⟨pos1, bq1, pos2, bq2, hl, hb, hq⟩ := Enqueue_ok h
  have hs1 : Step (fun e => e.isPutTail = false) bq bq1 := by
    simpa [hl] using writeLength_step bq bq.index.getTail.1 bq.index.getTail.2 message.length
  obtain ⟨hp1, hp2, hp3, _⟩ := writeLength_pos hC h0 hl
  have hp := writeBytesLoop_pos fuel bq1 bq2 pos1.1 pos1.2 message 0 pos2 hp2
    (by rw [hs1.conf]; exact hp3) (Nat.zero_le _) hb
  rw [hs1.conf] at hp
  subst hq
  simp only [putTail, QueueIndex.getTail] at hp ⊢
  simp only [QueueIndex.getTail] at hp1
  refine ⟨?_, hp.2.1, hp.2.2⟩
  rw [hp.1, hp1]
  simp

/-- The position a successful `writeBytes` returns is the quotient and the
remainder of the linear end position. -/
theorem writeBytes_pos {fuel : Nat} {bq bq' : BigQueue} {aid offset : Int}
    {byteSlice : List Byte} {pos : Int × Int} (hC : 0 < bq.conf.arenaSize)
    (h0 : 0 ≤ offset) (hlt : offset < bq.conf.arenaSize)
    (h : writeBytes fuel bq aid offset byteSlice = (.ok pos, bq')) :
    0 ≤ pos.2 ∧ pos.2 < bq.conf.arenaSize ∧
      pos.1 = aid + (offset + (byteSlice.length : Int)) / bq.conf.arenaSize ∧
      pos.2 = (offset + (byteSlice.length : Int)) % bq.conf.arenaSize := by
  obtain ⟨hp, hp0, hplt⟩ :=
    writeBytesLoop_pos fuel bq bq' aid offset byteSlice 0 pos h0 hlt (Nat.zero_le _) h
  simp only [Nat.sub_zero] at hp
  have hu := (Int.ediv_emod_unique (a := offset + (byteSlice.length : Int))
    (r := pos.2) (q := pos.1 - aid) hC).2 ⟨by linear_combination hp, hp0, hplt⟩
  exact ⟨hp0, hplt, by omega, hu.2.symm⟩

/-! ## Lookup of a segment that is not resident -/

/-- The lookup of a nil slot outside the window fails with `ErrInactiveArena`
and changes nothing. -/
theorem getArena_nil_outside {m : ArenaManager} {aid : Int}
    (hs : slot m.arenaList (aid - m.baseAid) = some none)
    (hout : ¬ aid < m.index.getHead.1 + m.activeArenaCount) :
    getArena m aid = (.fail (.err .inactiveArena), m) := by
  unfold getArena
  rw [hs]
  simp only
  rw [if_neg hout]

/-- The lookup of a nil slot inside the window is `addArena`. -/
theorem getArena_nil_inside {m : ArenaManager} {aid : Int}
    (hs : slot m.arenaList (aid - m.baseAid) = some none)
    (hin : aid < m.index.getHead.1 + m.activeArenaCount) :
    getArena m aid = addArena m aid := by
  unfold getArena
  rw [hs]
  simp only
  rw [if_pos hin]

/-! ## The window -/

theorem resident_congr {m m' : ArenaManager} {aid : Int} (hb : m'.baseAid = m.baseAid)
    (hs : slot m'.arenaList (aid - m.baseAid) = slot m.arenaList (aid - m.baseAid)) :
    resident m' aid ↔ resident m aid := by
  unfold resident
  rw [hb, hs]

theorem WindowAt_same {P : Event → Prop} {m m' : ArenaManager} {cur : Int}
    (hs : Step P m m') (hl : m'.arenaList = m.arenaList) (hw : WindowAt m cur) :
    WindowAt m' cur := by
  obtain ⟨hb, hwin⟩ := hw
  refine ⟨by rw [hs.baseAid, hs.index, hb], fun aid hr hne => ?_⟩
  rw [hs.index, hs.activeArenaCount]
  exact hwin aid ((resident_congr hs.baseAid (by rw [hl])).1 hr) hne

theorem WindowAt_getArena {m m' : ArenaManager} {cur : Int} {a : Arena}
    (h : getArena m cur = (.ok a, m')) (hw : WindowAt m cur) : WindowAt m' cur := by
  have hs : Step (fun e => e.isMgr = true) m m' := by simpa [h] using getArena_step m cur
  obtain ⟨_, hall, _⟩ := getArena_slots h
  obtain ⟨hb, hwin⟩ := hw
  refine ⟨by rw [hs.baseAid, hs.index, hb], fun aid hr hne => ?_⟩
  rw [hs.index, hs.activeArenaCount]
  refine hwin aid ((resident_congr hs.baseAid ?_).1 hr) hne
  rw [hall]
  have : aid - m.baseAid ≠ cur - m.baseAid := by omega
  simp [this]

theorem WindowAt_getNextArena {m m' : BigQueue} {cur : Int}
    (h : getNextArena m cur = (.ok (), m')) (hw : WindowAt m cur) : WindowAt m' (cur + 1) := by
  have hs : Step (fun e => e.isMgr = true) m m' := by simpa [h] using getNextArena_step m cur
  obtain ⟨hbnd, _, hother, hself⟩ := getNextArena_slots h
  obtain ⟨hb, hwin⟩ := hw
  refine ⟨by rw [hs.baseAid, hs.index, hb], fun aid hr hne => ?_⟩
  rw [hs.index, hs.activeArenaCount]
  by_cases hc : aid = cur
  · subst hc
    obtain ⟨a, ha⟩ := hr
    rw [hs.baseAid] at ha
    rcases hself with ⟨h1, h2⟩ | h1
    · rw [h1] at ha
      rcases h2 with h2 | h2
      · rw [h2] at ha
        simp at ha
      · omega
    · rw [h1] at ha
      simp at ha
  · refine hwin aid ((resident_congr hs.baseAid ?_).1 hr) hc
    exact hother _ (by omega) (by omega)

theorem WindowAt_writeLengthAt {bq bq' : BigQueue} {aid offset : Int} {length : Nat}
    {pos : Int × Int} (h : writeLengthAt bq aid offset length = (.ok pos, bq'))
    (hw : WindowAt bq aid) : WindowAt bq' pos.1 := by
  obtain ⟨arena, bq1, hg, hcase⟩ := writeLengthAt_ok h
  have hw1 := WindowAt_getArena hg hw
  have hw2 : WindowAt (WriteUint64 bq1 arena offset length) aid :=
    WindowAt_same (WriteUint64_step bq1 arena offset length) rfl hw1
  rcases hcase with ⟨_, hn, hp⟩ | ⟨_, hq, hp⟩
  · subst hp
    exact WindowAt_getNextArena hn hw2
  · subst hp; subst hq
    exact hw2

theorem WindowAt_writeLength {bq bq' : BigQueue} {aid offset : Int} {length : Nat}
    {pos : Int × Int} (h : writeLength bq aid offset length = (.ok pos, bq'))
    (hw : WindowAt bq aid) : WindowAt bq' pos.1 := by
  rcases writeLength_ok h with ⟨_, bq1, hn, hat⟩ | ⟨_, hat⟩
  · exact WindowAt_writeLengthAt hat (WindowAt_getNextArena hn hw)
  · exact WindowAt_writeLengthAt hat hw

theorem WindowAt_writeBytesLoop (fuel : Nat) : ∀ (bq bq' : BigQueue) (aid offset : Int)
    (byteSlice : List Byte) (counter : Nat) (pos : Int × Int),
    writeBytesLoop fuel bq aid offset byteSlice counter = (.ok pos, bq') →
    WindowAt bq aid → WindowAt bq' pos.1 := by
  induction fuel with
  | zero =>
    intro bq bq' aid offset byteSlice counter pos h
    simp [writeBytesLoop] at h
  | succ fuel ih =>
    intro bq bq' aid offset byteSlice counter pos h hw
    obtain ⟨arena, bq1, n, bq2, hg, hwr, hcases⟩ := writeBytesLoop_succ_ok h
    have hw1 := WindowAt_getArena hg hw
    have hw2 : WindowAt bq2 aid := by
      have hs := Write_step bq1 arena (byteSlice.drop counter) offset
      rw [hwr] at hs
      refine WindowAt_same hs ?_ hw1
      rw [(Write_ok hwr).2.2]
    rcases hcases with ⟨_, bq3, hnx, hfin | ⟨_, hrec⟩⟩ | ⟨_, hfin | ⟨_, hrec⟩⟩
    · obtain ⟨_, hp, hq⟩ := hfin
      subst hp; subst hq
      exact WindowAt_getNextArena hnx hw2
    · exact ih _ _ _ _ _ _ _ hrec (WindowAt_getNextArena hnx hw2)
    · obtain ⟨_, hp, hq⟩ := hfin
      subst hp; subst hq
      exact hw2
    · exact ih _ _ _ _ _ _ _ hrec hw2

theorem WindowAt_Enqueue {fuel : Nat} {bq bq' : BigQueue} {message : List Byte}
    (h : Enqueue fuel bq message = (.ok (), bq')) (hw : WindowAt bq bq.index.getTail.1) :
    WindowAt bq' bq'.index.getTail.1 ∧ bq'.index.getHead = bq.index.getHead ∧
      bq'.activeArenaCount = bq.activeArenaCount := by
  obtain ⟨pos1, bq1, pos2, bq2, hl, hb, hq⟩ := Enqueue_ok h
  have hs1 : Step (fun e => e.isPutTail = false) bq bq1 := by
    simpa [hl] using writeLength_step bq bq.index.getTail.1 bq.index.getTail.2 message.length
  have hb' : writeBytesLoop fuel bq1 pos1.1 pos1.2 message 0 = (.ok pos2, bq2) := hb
  have hs2 : Step (fun e => e.isPutTail = false) bq1 bq2 := by
    simpa [hb'] using writeBytesLoop_step fuel bq1 pos1.1 pos1.2 message 0
  have hw2 := WindowAt_writeBytesLoop fuel _ _ _ _ _ _ _ hb (WindowAt_writeLength hl hw)
  have hs := hs1.trans hs2
  subst hq
  obtain ⟨hbase, hwin⟩ := hw2
  refine ⟨⟨hbase, fun aid hr hne => hwin aid hr hne⟩, ?_, hs.activeArenaCount⟩
  simp only [putTail, QueueIndex.getHead]
  rw [hs.index]

theorem WindowAt_reach {m0 m : BigQueue} (hr : EnqueueReach m0 m)
    (hw : WindowAt m0 m0.index.getTail.1) :
    WindowAt m m.index.getTail.1 ∧ m.index.getHead = m0.index.getHead ∧
      m.activeArenaCount = m0.activeArenaCount := by
  induction hr with
  | init => exact ⟨hw, rfl, rfl⟩
  | step fuel message _ hstep ih =>
    obtain ⟨h1, h2, h3⟩ := WindowAt_Enqueue hstep ih.1
    exact ⟨h1, h2.trans ih.2.1, h3.trans ih.2.2⟩

theorem othersResident_length_le {m : ArenaManager} (hw : WindowAt m m.index.getTail.1) :
    (othersResident m).length ≤ m.activeArenaCount.toNat := by
  have hsub : othersResident m ⊆ List.range m.activeArenaCount.toNat := by
    intro i hi
    unfold othersResident at hi
    rw [List.mem_filter] at hi
    simp only [Bool.and_eq_true, decide_eq_true_eq] at hi
    have := hw.2 _ hi.2.1 hi.2.2
    rw [List.mem_range]
    have hb := hw.1
    omega
  have hnd : (othersResident m).Nodup := (List.nodup_range _).filter _
  simpa using (List.subperm_of_subset hnd hsub).length_le

/-! ## Consistent slot tables -/

theorem Consistent_same {P : Event → Prop} {m m' : ArenaManager}
    (hs : Step P m m') (hl : m'.arenaList = m.arenaList) (hc : Consistent m) :
    Consistent m' := by
  intro j a ha
  rw [hl] at ha
  rw [hs.baseAid]
  exact hc j a ha

/-- A successful `getArena(aid)` keeps the table consistent and returns a
mapping of the file of `aid`. -/
theorem Consistent_getArena {m m' : ArenaManager} {aid : Int} {a : Arena}
    (h : getArena m aid = (.ok a, m')) (hc : Consistent m) :
    Consistent m' ∧ a.aid = aid := by
  have hs : Step (fun e => e.isMgr = true) m m' := by simpa [h] using getArena_step m aid
  obtain ⟨_, hall, hfile⟩ := getArena_slots h
  have haid : a.aid = aid := by
    rcases hfile with hf | hf
    · exact hf
    · have := hc _ _ hf
      omega
  refine ⟨fun j b hb => ?_, haid⟩
  rw [hall] at hb
  rw [hs.baseAid]
  split_ifs at hb with hj
  · simp only [Option.some.injEq] at hb
    subst hb
    omega
  · exact hc j b hb

theorem Consistent_getNextArena {m m' : BigQueue} {cur : Int}
    (h : getNextArena m cur = (.ok (), m')) (hc : Consistent m) : Consistent m' := by
  have hs : Step (fun e => e.isMgr = true) m m' := by simpa [h] using getNextArena_step m cur
  obtain ⟨_, ⟨a, ha, hfile⟩, hother, hself⟩ := getNextArena_slots h
  intro j b hb
  rw [hs.baseAid]
  by_cases h1 : j = cur + 1 - m.baseAid
  · subst h1
    rw [ha] at hb
    simp only [Option.some.injEq] at hb
    subst hb
    rcases hfile with hf | hf
    · omega
    · exact hc _ _ hf
  · by_cases h2 : j = cur - m.baseAid
    · subst h2
      rcases hself with ⟨hsame, _⟩ | hnil
      · rw [hsame] at hb
        exact hc _ _ hb
      · rw [hnil] at hb
        simp at hb
    · rw [hother j h2 h1] at hb
      exact hc j b hb

/-! ## What a trace writes -/

theorem writtenBytes_append (l1 l2 : List Event) :
    writtenBytes (l1 ++ l2) = writtenBytes l1 ++ writtenBytes l2 := by
  induction l1 with
  | nil => rfl
  | cons e l1 ih => cases e <;> simp [writtenBytes, ih]

theorem writtenBytes_noWrite (l : List Event) (h : ∀ e ∈ l, e.isWrite = false) :
    writtenBytes l = [] := by
  induction l with
  | nil => rfl
  | cons e l ih =>
    have hl := ih (fun e he => h e (List.mem_cons_of_mem _ he))
    have he := h e (List.mem_cons_self _ _)
    cases e <;> simp_all [writtenBytes, Event.isWrite]

theorem headerWrites_append (l1 l2 : List Event) :
    headerWrites (l1 ++ l2) = headerWrites l1 ++ headerWrites l2 := by
  induction l1 with
  | nil => rfl
  | cons e l1 ih => cases e <;> simp [headerWrites, ih]

theorem headerWrites_mgr (l : List Event) (h : ∀ e ∈ l, e.isMgr = true) :
    headerWrites l = [] := by
  induction l with
  | nil => rfl
  | cons e l ih =>
    have hl := ih (fun e he => h e (List.mem_cons_of_mem _ he))
    have he := h e (List.mem_cons_self _ _)
    cases e <;> simp_all [headerWrites, Event.isMgr]

theorem contiguousWrites_skip (C : Int) (p : List Byte) (l1 : List Event)
    (h : ∀ e ∈ l1, e.isWrite = false) : ∀ (pos : Int) (c : Nat) (l2 : List Event),
    contiguousWrites C p pos c (l1 ++ l2) ↔ contiguousWrites C p pos c l2 := by
  induction l1 with
  | nil => intro pos c l2; rfl
  | cons e l1 ih =>
    intro pos c l2
    have hl := ih (fun e he => h e (List.mem_cons_of_mem _ he)) pos c l2
    have he := h e (List.mem_cons_self _ _)
    cases e <;> simp_all [contiguousWrites, Event.isWrite]

theorem contiguousWrites_append (C : Int) (p : List Byte) (l2 : List Event)
    (h : ∀ e ∈ l2, e.isWrite = false) : ∀ (l1 : List Event) (pos : Int) (c : Nat),
    contiguousWrites C p pos c l1 → contiguousWrites C p pos c (l1 ++ l2) := by
  intro l1
  induction l1 with
  | nil =>
    intro pos c _
    have := (contiguousWrites_skip C p l2 h pos c []).2 trivial
    simpa using this
  | cons e l1 ih =>
    intro pos c hc
    cases e with
    | write a offset bytes n =>
      simp only [List.cons_append, contiguousWrites] at hc ⊢
      exact ⟨hc.1, hc.2.1, hc.2.2.1, ih _ _ hc.2.2.2⟩
    | newArena a => exact ih pos c hc
    | newArenaFailed aid => exact ih pos c hc
    | unmap a ok => exact ih pos c hc
    | writeUint64 a offset num => exact ih pos c hc
    | writeFailed a offset bytes => exact ih pos c hc
    | putTail aid offset => exact ih pos c hc

theorem ediv_emod_in_segment {C aid offset : Int} (h0 : 0 ≤ offset) (hlt : offset < C) :
    (aid * C + offset) / C = aid ∧ (aid * C + offset) % C = offset :=
  (Int.ediv_emod_unique (by omega)).2 ⟨by ring, h0, hlt⟩

/-- The layout of a payload from a position inside segment `aid` starts with
the first `n` bytes placed in that segment, when they fit. -/
theorem layout_split (C aid : Int) (n : Nat) : ∀ (bs : List Byte) (offset : Int),
    0 ≤ offset → offset + n ≤ C → n ≤ bs.length →
    layout C (aid * C + offset) bs =
      placeBytes aid offset (bs.take n) ++ layout C (aid * C + offset + n) (bs.drop n) := by
  induction n with
  | zero =>
    intro bs offset _ _ _
    simp [placeBytes]
  | succ n ih =>
    intro bs offset h0 hfit hlen
    cases bs with
    | nil => simp at hlen
    | cons b bs =>
      obtain ⟨hq, hr⟩ := @ediv_emod_in_segment C aid offset h0 (by push_cast at hfit; omega)
      have hrec := ih bs (offset + 1) (by omega) (by push_cast at hfit ⊢; omega)
        (by simpa using hlen)
      simp only [layout, List.take_succ_cons, placeBytes, List.drop_succ_cons, List.cons_append,
        hq, hr]
      have e1 : aid * C + offset + 1 = aid * C + (offset + 1) := by ring
      have e2 : aid * C + offset + ((n + 1 : Nat) : Int) = aid * C + (offset + 1) + (n : Int) := by
        push_cast; ring
      rw [e1, e2, hrec]

/-- The trace of a successful run of the loop of `writeBytes`, from a
consistent table and an offset inside the arena: the bytes written are the
contiguous layout of the bytes that were left, every `Write` starts at the
current position with the suffix not yet written, and the table stays
consistent. -/
theorem writeBytesLoop_trace (fuel : Nat) : ∀ (bq bq' : BigQueue) (aid offset : Int)
    (p : List Byte) (c : Nat) (pos : Int × Int),
    0 ≤ offset → offset < bq.conf.arenaSize → c ≤ p.length → Consistent bq →
    writeBytesLoop fuel bq aid offset p c = (.ok pos, bq') →
    Consistent bq' ∧ ∃ evs, bq'.trace = bq.trace ++ evs ∧
      writtenBytes evs = layout bq.conf.arenaSize (aid * bq.conf.arenaSize + offset) (p.drop c) ∧
      contiguousWrites bq.conf.arenaSize p (aid * bq.conf.arenaSize + offset) c evs := by
  induction fuel with
  | zero =>
    intro bq bq' aid offset p c pos _ _ _ _ h
    simp [writeBytesLoop] at h
  | succ fuel ih =>
    intro bq bq' aid offset p c pos h0 hlt hcl hcons h
    obtain ⟨arena, bq1, n, bq2, hg, hw, hcases⟩ := writeBytesLoop_succ_ok h
    have hs1 : Step (fun e => e.isMgr = true) bq bq1 := by
      simpa [hg] using getArena_step bq aid
    obtain ⟨e1, ht1, hp1⟩ := hs1.trace
    obtain ⟨hcons1, haid⟩ := Consistent_getArena hg hcons
    obtain ⟨_, hn, hbq2⟩ := Write_ok hw
    rw [hs1.conf, List.length_drop] at hn
    have hs2 : Step (fun e => e.isPutTail = false) bq1 bq2 := by
      simpa [hw] using Write_step bq1 arena (p.drop c) offset
    have hconf2 : bq2.conf = bq.conf := hs2.conf.trans hs1.conf
    have hcons2 : Consistent bq2 := Consistent_same hs2 (by rw [hbq2]) hcons1
    have ht2 : bq2.trace = bq.trace ++ (e1 ++ [.write arena offset (p.drop c) n]) := by
      rw [hbq2]
      simp only
      rw [ht1, List.append_assoc]
    have hdd : (p.drop c).drop n = p.drop (c + n) := by
      rw [List.drop_drop, Nat.add_comm]
    have hsplit := layout_split bq.conf.arenaSize aid n (p.drop c) offset h0 (by omega)
      (by rw [List.length_drop]; omega)
    rw [hdd] at hsplit
    obtain ⟨hq, hr⟩ := @ediv_emod_in_segment bq.conf.arenaSize aid offset h0 hlt
    have key : Consistent bq' ∧ ∃ rest, bq'.trace = bq2.trace ++ rest ∧
        writtenBytes rest =
          layout bq.conf.arenaSize (aid * bq.conf.arenaSize + offset + n) (p.drop (c + n)) ∧
        contiguousWrites bq.conf.arenaSize p (aid * bq.conf.arenaSize + offset + n) (c + n)
          rest := by
      have hnil : ∀ P : Int, c + n = p.length →
          layout bq.conf.arenaSize P (p.drop (c + n)) = [] := by
        intro P hl
        rw [List.drop_of_length_le (by omega)]
        rfl
      rcases hcases with ⟨hcap, bq3, hnx, hfin | ⟨hne, hrec⟩⟩ | ⟨hcap, hfin | ⟨hne, hrec⟩⟩
      · obtain ⟨hl, _, hq'⟩ := hfin
        subst hq'
        have hs3 : Step (fun e => e.isMgr = true) bq2 bq' := by
          simpa [hnx] using getNextArena_step bq2 aid
        obtain ⟨e3, ht3, hp3⟩ := hs3.trace
        refine ⟨Consistent_getNextArena hnx hcons2, e3, ht3, ?_, ?_⟩
        · rw [hnil _ hl]
          exact writtenBytes_noWrite e3 (fun e he => isMgr_not_write e (hp3 e he))
        · have := (contiguousWrites_skip bq.conf.arenaSize p e3
            (fun e he => isMgr_not_write e (hp3 e he))
            (aid * bq.conf.arenaSize + offset + n) (c + n) []).2 trivial
          simpa using this
      · have hs3 : Step (fun e => e.isMgr = true) bq2 bq3 := by
          simpa [hnx] using getNextArena_step bq2 aid
        obtain ⟨e3, ht3, hp3⟩ := hs3.trace
        have hconf3 : bq3.conf = bq.conf := hs3.conf.trans hconf2
        obtain ⟨hcons', evsR, htR, hwR, hcR⟩ := ih bq3 bq' (aid + 1) 0 p (c + n) pos (le_refl 0)
          (by rw [hconf3]; omega) (by omega) (Consistent_getNextArena hnx hcons2) hrec
        have hpos : (aid + 1) * bq.conf.arenaSize + 0 = aid * bq.conf.arenaSize + offset + n := by
          have : (aid + 1) * bq.conf.arenaSize = aid * bq.conf.arenaSize + bq.conf.arenaSize := by
            ring
          omega
        rw [hconf3, hpos] at hwR hcR
        refine ⟨hcons', e3 ++ evsR, by rw [htR, ht3, List.append_assoc], ?_, ?_⟩
        · rw [writtenBytes_append,
            writtenBytes_noWrite e3 (fun e he => isMgr_not_write e (hp3 e he))]
          exact hwR
        · exact (contiguousWrites_skip bq.conf.arenaSize p e3
            (fun e he => isMgr_not_write e (hp3 e he)) _ _ evsR).2 hcR
      · obtain ⟨hl, _, hq'⟩ := hfin
        subst hq'
        exact ⟨hcons2, [], by simp, by rw [hnil _ hl]; rfl, trivial⟩
      · exfalso
        omega
    obtain ⟨hcons', rest, htr, hwr, hcr⟩ := key
    refine ⟨hcons', (e1 ++ [.write arena offset (p.drop c) n]) ++ rest, ?_, ?_, ?_⟩
    · rw [htr, ht2, List.append_assoc]
    · rw [writtenBytes_append, writtenBytes_append,
        writtenBytes_noWrite e1 (fun e he => isMgr_not_write e (hp1 e he)), hsplit, ← hwr]
      simp [writtenBytes, haid]
    · rw [List.append_assoc]
      refine (contiguousWrites_skip bq.conf.arenaSize p e1
        (fun e he => isMgr_not_write e (hp1 e he)) _ _ _).2 ?_
      simp only [List.singleton_append, contiguousWrites]
      exact ⟨by rw [hq, haid], by rw [hr], trivial, hcr⟩

theorem layout_getElem? (C : Int) : ∀ (p : List Byte) (P : Int) (i : Nat),
    (layout C P p)[i]? = (p[i]?).map (fun b => ((P + i) / C, (P + i) % C, b)) := by
  intro p
  induction p with
  | nil => intro P i; simp [layout]
  | cons b bs ih =>
    intro P i
    cases i with
    | zero => simp [layout]
    | succ i =>
      simp only [layout, List.getElem?_cons_succ, ih]
      have : P + 1 + (i : Int) = P + ((i + 1 : Nat) : Int) := by push_cast; ring
      rw [this]

/-- The trace of a successful `writeLengthAt`, from a consistent table: one
header is written, in the file of segment `aid` at `offset`. -/
theorem writeLengthAt_trace {bq bq' : BigQueue} {aid offset : Int} {length : Nat}
    {pos : Int × Int} (hcons : Consistent bq)
    (h : writeLengthAt bq aid offset length = (.ok pos, bq')) :
    Consistent bq' ∧ ∃ evs, bq'.trace = bq.trace ++ evs ∧
      headerWrites evs = [(aid, offset, length)] := by
  obtain ⟨arena, bq1, hg, hcase⟩ := writeLengthAt_ok h
  have hs1 : Step (fun e => e.isMgr = true) bq bq1 := by
    simpa [hg] using getArena_step bq aid
  obtain ⟨e1, ht1, hp1⟩ := hs1.trace
  obtain ⟨hcons1, haid⟩ := Consistent_getArena hg hcons
  have hcons2 : Consistent (WriteUint64 bq1 arena offset length) :=
    Consistent_same (WriteUint64_step bq1 arena offset length) rfl hcons1
  have ht2 : (WriteUint64 bq1 arena offset length).trace =
      bq.trace ++ (e1 ++ [.writeUint64 arena offset length]) := by
    simp only [WriteUint64]
    rw [ht1, List.append_assoc]
  have hh2 : headerWrites (e1 ++ [.writeUint64 arena offset length]) =
      [(aid, offset, length)] := by
    rw [headerWrites_append, headerWrites_mgr e1 hp1]
    simp [headerWrites, haid]
  rcases hcase with ⟨_, hn, _⟩ | ⟨_, hq, _⟩
  · have hs3 : Step (fun e => e.isMgr = true) (WriteUint64 bq1 arena offset length) bq' := by
      simpa [hn] using getNextArena_step (WriteUint64 bq1 arena offset length) aid
    obtain ⟨e3, ht3, hp3⟩ := hs3.trace
    refine ⟨Consistent_getNextArena hn hcons2, (e1 ++ [.writeUint64 arena offset length]) ++ e3,
      by rw [ht3, ht2, List.append_assoc], ?_⟩
    rw [headerWrites_append, hh2, headerWrites_mgr e3 hp3]
    rfl
  · subst hq
    exact ⟨hcons2, _, ht2, hh2⟩

/-- The trace of a successful `writeLength`, from a consistent table: one
header is written, at `(aid, offset)` when it fits and otherwise at
`(aid + 1, 0)`, after `getNextArena(aid)`. -/
theorem writeLength_trace {bq bq' : BigQueue} {aid offset : Int} {length : Nat}
    {pos : Int × Int} (hcons : Consistent bq)
    (h : writeLength bq aid offset length = (.ok pos, bq')) :
    Consistent bq' ∧ ∃ evs, bq'.trace = bq.trace ++ evs ∧
      headerWrites evs =
        [(if offset + 8 ≤ bq.conf.arenaSize then aid else aid + 1,
          if offset + 8 ≤ bq.conf.arenaSize then offset else 0, length)] ∧
      (¬ offset + 8 ≤ bq.conf.arenaSize → ∃ bq1 pre post,
        getNextArena bq aid = (.ok (), bq1) ∧ resident bq1 (aid + 1) ∧
        bq1.trace = bq.trace ++ pre ∧ evs = pre ++ post ∧ headerWrites pre = [] ∧
        writeLengthAt bq1 (aid + 1) 0 length = (.ok pos, bq')) := by
  rcases writeLength_ok h with ⟨hc, bq1, hn, hat⟩ | ⟨hc, hat⟩
  · simp only [cInt64Size] at hc
    have hif : ¬ offset + 8 ≤ bq.conf.arenaSize := by omega
    have hs : Step (fun e => e.isMgr = true) bq bq1 := by
      simpa [hn] using getNextArena_step bq aid
    obtain ⟨e0, ht0, hp0⟩ := hs.trace
    obtain ⟨hcons', evs, ht, hh⟩ := writeLengthAt_trace (Consistent_getNextArena hn hcons) hat
    have hres : resident bq1 (aid + 1) := by
      obtain ⟨_, ⟨a, ha, _⟩, _, _⟩ := getNextArena_slots hn
      exact ⟨a, by rw [hs.baseAid]; exact ha⟩
    refine ⟨hcons', e0 ++ evs, by rw [ht, ht0, List.append_assoc], ?_, fun _ => ?_⟩
    · rw [headerWrites_append, headerWrites_mgr e0 hp0, hh, if_neg hif, if_neg hif]
      rfl
    · exact ⟨bq1, e0, evs, hn, hres, ht0, rfl, headerWrites_mgr e0 hp0, hat⟩
  · simp only [cInt64Size] at hc
    have hif : offset + 8 ≤ bq.conf.arenaSize := by omega
    obtain ⟨hcons', evs, ht, hh⟩ := writeLengthAt_trace hcons hat
    refine ⟨hcons', evs, ht, ?_, fun hno => absurd hif hno⟩
    rw [hh, if_pos hif, if_pos hif]

theorem Consistent_writeBytesLoop (fuel : Nat) : ∀ (bq bq' : BigQueue) (aid offset : Int)
    (byteSlice : List Byte) (counter : Nat) (pos : Int × Int),
    writeBytesLoop fuel bq aid offset byteSlice counter = (.ok pos, bq') →
    Consistent bq → Consistent bq' := by
  induction fuel with
  | zero =>
    intro bq bq' aid offset byteSlice counter pos h
    simp [writeBytesLoop] at h
  | succ fuel ih =>
    intro bq bq' aid offset byteSlice counter pos h hc
    obtain ⟨arena, bq1, n, bq2, hg, hwr, hcases⟩ := writeBytesLoop_succ_ok h
    have hc1 := (Consistent_getArena hg hc).1
    have hc2 : Consistent bq2 := by
      have hs := Write_step bq1 arena (byteSlice.drop counter) offset
      rw [hwr] at hs
      refine Consistent_same hs ?_ hc1
      rw [(Write_ok hwr).2.2]
    rcases hcases with ⟨_, bq3, hnx, hfin | ⟨_, hrec⟩⟩ | ⟨_, hfin | ⟨_, hrec⟩⟩
    · obtain ⟨_, _, hq⟩ := hfin
      subst hq
      exact Consistent_getNextArena hnx hc2
    · exact ih _ _ _ _ _ _ _ hrec (Consistent_getNextArena hnx hc2)
    · obtain ⟨_, _, hq⟩ := hfin
      subst hq
      exact hc2
    · exact ih _ _ _ _ _ _ _ hrec hc2

/-- A successful `Enqueue` keeps the slot table consistent. -/
theorem Consistent_Enqueue {fuel : Nat} {bq bq' : BigQueue} {message : List Byte}
    (h : Enqueue fuel bq message = (.ok (), bq')) (hc : Consistent bq) : Consistent bq' := by
  obtain ⟨pos1, bq1, pos2, bq2, hl, hb, hq⟩ := Enqueue_ok h
  have hc2 := Consistent_writeBytesLoop fuel _ _ _ _ _ _ _ hb (writeLength_trace hc hl).1
  subst hq
  exact fun j a ha => hc2 j a ha

/-- Every state reached from a constructed manager by successful `Enqueue`
calls has a consistent slot table. -/
theorem Consistent_reach {conf : BqConfig} {headAid tailAid : Int} {index : QueueIndex}
    {fails : Nat → Bool} {trace tr : List Event} {am m : BigQueue} (hle : headAid ≤ tailAid)
    (hok : newArenaManager conf headAid tailAid index fails trace = (.ok am, tr))
    (hr : EnqueueReach am m) : Consistent m := by
  induction hr with
  | init => exact (newArenaManager_ok hle hok).2.2.2.2.2.2.2.1
  | step fuel message _ hstep ih => exact Consistent_Enqueue hstep ih

/-! ## The tail segment after a successful write -/

theorem resident_of_getArena {m m' : ArenaManager} {aid : Int} {a : Arena}
    (h : getArena m aid = (.ok a, m')) : resident m' aid := by
  have hs : Step (fun e => e.isMgr = true) m m' := by simpa [h] using getArena_step m aid
  obtain ⟨_, hall, _⟩ := getArena_slots h
  exact ⟨a, by rw [hs.baseAid, hall]; simp⟩

theorem resident_of_getNextArena {m m' : BigQueue} {cur : Int}
    (h : getNextArena m cur = (.ok (), m')) : resident m' (cur + 1) := by
  have hs : Step (fun e => e.isMgr = true) m m' := by simpa [h] using getNextArena_step m cur
  obtain ⟨_, ⟨a, ha, _⟩, _, _⟩ := getNextArena_slots h
  exact ⟨a, by rw [hs.baseAid]; exact ha⟩

theorem resident_same {P : Event → Prop} {m m' : ArenaManager} {aid : Int}
    (hs : Step P m m') (hl : m'.arenaList = m.arenaList) (hr : resident m aid) :
    resident m' aid :=
  (resident_congr hs.baseAid (by rw [hl])).2 hr

theorem resident_of_writeLengthAt {bq bq' : BigQueue} {aid offset : Int} {length : Nat}
    {pos : Int × Int} (h : writeLengthAt bq aid offset length = (.ok pos, bq')) :
    resident bq' pos.1 := by
  obtain ⟨arena, bq1, hg, hcase⟩ := writeLengthAt_ok h
  rcases hcase with ⟨_, hn, hp⟩ | ⟨_, hq, hp⟩
  · subst hp
    exact resident_of_getNextArena hn
  · subst hp; subst hq
    exact resident_same (WriteUint64_step bq1 arena offset length) rfl (resident_of_getArena hg)

theorem resident_of_writeBytesLoop (fuel : Nat) : ∀ (bq bq' : BigQueue) (aid offset : Int)
    (byteSlice : List Byte) (counter : Nat) (pos : Int × Int),
    writeBytesLoop fuel bq aid offset byteSlice counter = (.ok pos, bq') →
    resident bq' pos.1 := by
  induction fuel with
  | zero =>
    intro bq bq' aid offset byteSlice counter pos h
    simp [writeBytesLoop] at h
  | succ fuel ih =>
    intro bq bq' aid offset byteSlice counter pos h
    obtain ⟨arena, bq1, n, bq2, hg, hwr, hcases⟩ := writeBytesLoop_succ_ok h
    rcases hcases with ⟨_, bq3, hnx, hfin | ⟨_, hrec⟩⟩ | ⟨_, hfin | ⟨_, hrec⟩⟩
    · obtain ⟨_, hp, hq⟩ := hfin
      subst hp; subst hq
      exact resident_of_getNextArena hnx
    · exact ih _ _ _ _ _ _ _ hrec
    · obtain ⟨_, hp, hq⟩ := hfin
      subst hp; subst hq
      have hs := Write_step bq1 arena (byteSlice.drop counter) offset
      rw [hwr] at hs
      exact resident_same hs (by rw [(Write_ok hwr).2.2]) (resident_of_getArena hg)
    · exact ih _ _ _ _ _ _ _ hrec

/-- After a successful `Enqueue` the segment of the committed tail is
resident. -/
theorem tail_resident_of_Enqueue {fuel : Nat} {bq bq' : BigQueue} {message : List Byte}
    (h : Enqueue fuel bq message = (.ok (), bq')) : resident bq' bq'.index.getTail.1 := by
  obtain ⟨pos1, bq1, pos2, bq2, hl, hb, hq⟩ := Enqueue_ok h
  obtain ⟨a, ha⟩ := resident_of_writeBytesLoop fuel _ _ _ _ _ _ _ hb
  subst hq
  exact ⟨a, ha⟩

/-- After construction and after every sequence of successful `Enqueue`
calls the segment of the committed tail is resident. -/
theorem tail_resident_of_reach {conf : BqConfig} {headAid tailAid : Int} {index : QueueIndex}
    {fails : Nat → Bool} {trace tr : List Event} {am m : BigQueue} (hle : headAid ≤ tailAid)
    (htail : index.getTail.1 = tailAid)
    (hok : newArenaManager conf headAid tailAid index fails trace = (.ok am, tr))
    (hr : EnqueueReach am m) : resident m m.index.getTail.1 := by
  cases hr with
  | init =>
    obtain ⟨_, _, _, hidx, _, _, _, _, hres⟩ := newArenaManager_ok hle hok
    rw [hidx, htail]
    exact (hres tailAid).2 (Or.inr rfl)
  | step fuel message _ hstep => exact tail_resident_of_Enqueue hstep

/-! ## Fuel -/

theorem createArena_fuel (m : ArenaManager) (aid : Int) :
    (createArena m aid).1 ≠ .fail .outOfFuel := by
  unfold createArena newArena
  by_cases hf : m.fails m.trace.length = true
  · simp [hf]
  · simp only [hf, Bool.false_eq_true, if_false]
    split_ifs <;> simp

theorem addArena_fuel (m : ArenaManager) (aid : Int) :
    (addArena m aid).1 ≠ .fail .outOfFuel := by
  unfold addArena
  split_ifs
  · split
    · simp
    · simp
    · exact createArena_fuel m aid
  · exact createArena_fuel m aid

theorem getArena_fuel (m : ArenaManager) (aid : Int) :
    (getArena m aid).1 ≠ .fail .outOfFuel := by
  unfold getArena
  split
  · simp
  · simp
  · simp only
    split_ifs
    · exact addArena_fuel m aid
    · simp

theorem unmapArena_fuel (m : ArenaManager) (aid : Int) (isStrict : Bool) :
    (unmapArena m aid isStrict).1 ≠ .fail .outOfFuel := by
  unfold unmapArena Unmap
  split
  · simp
  · simp
  · split_ifs <;> simp

theorem getNextArena_fuel (bq : BigQueue) (prevAid : Int) :
    (getNextArena bq prevAid).1 ≠ .fail .outOfFuel := by
  unfold getNextArena
  have h1 := unmapArena_fuel bq prevAid false
  rcases hu : unmapArena bq prevAid false with ⟨_ | f, bq1⟩
  · simp only
    have h2 := addArena_fuel bq1 (prevAid + 1)
    rcases ha : addArena bq1 (prevAid + 1) with ⟨_ | f, bq2⟩
    · simp
    · rw [ha] at h2
      simpa using h2
  · rw [hu] at h1
    simpa using h1

/-- With `C > 0`, an offset inside the arena and more fuel than bytes left,
the loop of `writeBytes` is not cut off: it returns a position or fails with
an error or a panic of the code. -/
theorem writeBytesLoop_fuel (fuel : Nat) : ∀ (bq : BigQueue) (aid offset : Int)
    (byteSlice : List Byte) (counter : Nat),
    0 ≤ offset → offset < bq.conf.arenaSize → counter ≤ byteSlice.length →
    byteSlice.length - counter < fuel →
    (writeBytesLoop fuel bq aid offset byteSlice counter).1 ≠ .fail .outOfFuel := by
  induction fuel with
  | zero =>
    intro bq aid offset byteSlice counter _ _ _ hf
    omega
  | succ fuel ih =>
    intro bq aid offset byteSlice counter h0 hlt hc hf
    rw [writeBytesLoop]
    have hg := getArena_fuel bq aid
    have hs1 := getArena_step bq aid
    rcases hga : getArena bq aid with ⟨arena | f, bq1⟩
    · rw [hga] at hs1
      simp only
      have hst := Write_step bq1 arena (byteSlice.drop counter) offset
      rcases hwr : Write bq1 arena (byteSlice.drop counter) offset with ⟨n | f, bq2⟩
      · rw [hwr] at hst
        obtain ⟨_, hn, _⟩ := Write_ok hwr
        rw [hs1.conf, List.length_drop] at hn
        have hconf2 : bq2.conf = bq.conf := hst.conf.trans hs1.conf
        simp only
        rw [hconf2]
        split_ifs with hcap hl hl
        · have h3 := getNextArena_fuel bq2 aid
          rcases hnx : getNextArena bq2 aid with ⟨_ | f, bq3⟩
          · simp
          · rw [hnx] at h3
            simpa using h3
        · have h3 := getNextArena_fuel bq2 aid
          have hs3 := getNextArena_step bq2 aid
          rcases hnx : getNextArena bq2 aid with ⟨_ | f, bq3⟩
          · rw [hnx] at hs3
            simp only
            exact ih bq3 (aid + 1) 0 byteSlice (counter + n) (le_refl 0)
              (by rw [hs3.conf, hconf2]; omega) (by omega) (by omega)
          · rw [hnx] at h3
            simpa using h3
        · simp
        · exact ih bq2 aid (offset + n) byteSlice (counter + n) (by omega)
            (by rw [hconf2]; omega) (by omega) (by omega)
      · unfold Write at hwr
        split_ifs at hwr
        · simp only [Prod.mk.injEq, Res.fail.injEq] at hwr
          simp [← hwr.1]
        · simp at hwr
    · rw [hga] at hg
      simpa using hg

/-- More fuel does not change a run of the loop of `writeBytes` that was not
cut off. -/
theorem writeBytesLoop_more_fuel (k : Nat) (fuel : Nat) : ∀ (bq : BigQueue) (aid offset : Int)
    (byteSlice : List Byte) (counter : Nat),
    (writeBytesLoop fuel bq aid offset byteSlice counter).1 ≠ .fail .outOfFuel →
    writeBytesLoop (fuel + k) bq aid offset byteSlice counter =
      writeBytesLoop fuel bq aid offset byteSlice counter := by
  induction fuel with
  | zero =>
    intro bq aid offset byteSlice counter h
    simp [writeBytesLoop] at h
  | succ fuel ih =>
    intro bq aid offset byteSlice counter h
    have hk : fuel + 1 + k = (fuel + k) + 1 := by omega
    rw [hk]
    rw [writeBytesLoop] at h
    rw [writeBytesLoop, writeBytesLoop]
    rcases hga : getArena bq aid with ⟨arena | f, bq1⟩
    · rw [hga] at h
      simp only at h ⊢
      rcases hwr : Write bq1 arena (byteSlice.drop counter) offset with ⟨n | f, bq2⟩
      · rw [hwr] at h
        simp only at h ⊢
        split_ifs at h ⊢ with hcap hl hl
        · rfl
        · rcases hnx : getNextArena bq2 aid with ⟨_ | f, bq3⟩
          · rw [hnx] at h
            simp only at h ⊢
            exact ih _ _ _ _ _ h
          · rfl
        · rfl
        · exact ih _ _ _ _ _ h
      · rfl
    · rfl

/-- The table of `queueA` is consistent: `queueA` is the manager that
`newArenaManager` builds for head and tail segment 0. -/
theorem queueA_consistent : Consistent queueA :=
  (newArenaManager_ok (le_refl 0)
    (rfl : newArenaManager ⟨16, 48⟩ 0 0 ⟨(0, 0), (0, 0)⟩ (fun _ => false) [] =
      (.ok queueA, queueA.trace))).2.2.2.2.2.2.2.1

/-! ## Single calls of the manager -/

/-- The existence check of `addArena` finds a segment whose id is below the
length of the table. -/
theorem addArena_existing {m : ArenaManager} {aid : Int} {a : Arena}
    (hlt : aid < (m.arenaList.length : Int))
    (hs : slot m.arenaList (aid - m.baseAid) = some (some a)) :
    addArena m aid = (.ok a, m) := by
  unfold addArena
  rw [if_pos hlt, hs]

/-- The lookup of a resident segment returns the segment of its slot and
changes nothing. -/
theorem getArena_of_slot {m : ArenaManager} {aid : Int} {a : Arena}
    (hs : slot m.arenaList (aid - m.baseAid) = some (some a)) :
    getArena m aid = (.ok a, m) := by
  unfold getArena
  rw [hs]

theorem unmapArena_nil {m : ArenaManager} {aid : Int} (isStrict : Bool)
    (hs : slot m.arenaList (aid - m.baseAid) = some none) :
    unmapArena m aid isStrict = (.ok (), m) := by
  unfold unmapArena
  rw [hs]

theorem unmapArena_window {m : ArenaManager} {aid : Int} {a : Arena}
    (hs : slot m.arenaList (aid - m.baseAid) = some (some a))
    (hw : aid - m.index.getHead.1 < m.activeArenaCount) :
    unmapArena m aid false = (.ok (), m) := by
  unfold unmapArena
  rw [hs]
  simp [hw]

theorem unmapArena_unmap_ok {m : ArenaManager} {aid : Int} {a : Arena} {isStrict : Bool}
    (hs : slot m.arenaList (aid - m.baseAid) = some (some a))
    (hc : ¬ (isStrict = false ∧ aid - m.index.getHead.1 < m.activeArenaCount))
    (hf : m.fails m.trace.length = false) :
    unmapArena m aid isStrict =
      (.ok (), { m with trace := m.trace ++ [.unmap a true],
                        arenaList := m.arenaList.set (aid - m.baseAid).toNat none }) := by
  unfold unmapArena
  rw [hs]
  have hc' : (!isStrict && decide (aid - m.index.getHead.1 < m.activeArenaCount)) = false := by
    cases isStrict
    · simpa using hc
    · simp
  simp [hc', Unmap, hf]

theorem unmapArena_unmap_fails {m : ArenaManager} {aid : Int} {a : Arena} {isStrict : Bool}
    (hs : slot m.arenaList (aid - m.baseAid) = some (some a))
    (hc : ¬ (isStrict = false ∧ aid - m.index.getHead.1 < m.activeArenaCount))
    (hf : m.fails m.trace.length = true) :
    unmapArena m aid isStrict =
      (.fail (.err (.unmap a)), { m with trace := m.trace ++ [.unmap a false] }) := by
  unfold unmapArena
  rw [hs]
  have hc' : (!isStrict && decide (aid - m.index.getHead.1 < m.activeArenaCount)) = false := by
    cases isStrict
    · simpa using hc
    · simp
  simp [hc', Unmap, hf]

theorem getMaxActiveAid_of_ne {D : Int} {m : ArenaManager} (h : m.activeArenaCount ≠ D) :
    getMaxActiveAid D m =
      min (m.index.getHead.1 + m.activeArenaCount - 1) m.index.getTail.1 := by
  unfold getMaxActiveAid
  simp only
  rw [if_neg h]

theorem getMaxActiveAid_of_eq {D : Int} {m : ArenaManager} (h : m.activeArenaCount = D) :
    getMaxActiveAid D m = m.index.getTail.1 := by
  unfold getMaxActiveAid
  simp only
  rw [if_pos h]

/-! ## Closing the manager -/

theorem trace_append_nil (m : ArenaManager) : { m with trace := m.trace ++ [] } = m := by
  cases m
  simp

/-- The loop of `close` makes the `Unmap` calls of `unmapEvents` and returns
the error of the last failed one, or the `retErr` it started with. -/
theorem closeLoop_eq (l : List (Option Arena)) : ∀ (m : ArenaManager) (retErr : Option Error),
    closeLoop l m retErr =
      ((match lastFailed m.fails m.trace.length (l.filterMap id) with
          | some b => some (Error.unmap b)
          | none => retErr),
        { m with trace := m.trace ++ unmapEvents m.fails m.trace.length (l.filterMap id) }) := by
  induction l with
  | nil =>
    intro m retErr
    simp only [closeLoop, List.filterMap_nil, lastFailed, unmapEvents]
    rw [trace_append_nil]
  | cons x l ih =>
    intro m retErr
    cases x with
    | none =>
      rw [closeLoop, ih]
      rfl
    | some a =>
      rw [closeLoop]
      have hfm : List.filterMap id (some a :: l) = a :: List.filterMap id l := rfl
      rw [hfm]
      simp only [lastFailed, unmapEvents, Unmap]
      by_cases hf : m.fails m.trace.length = true
      · simp only [hf, if_true]
        rw [ih]
        simp only [List.length_append, List.length_singleton, List.append_assoc,
          List.singleton_append, Bool.not_true]
        cases lastFailed m.fails (m.trace.length + 1) (List.filterMap id l) <;> rfl
      · simp only [hf, Bool.false_eq_true, if_false]
        rw [ih]
        simp only [List.length_append, List.length_singleton, List.append_assoc,
          List.singleton_append]
        cases lastFailed m.fails (m.trace.length + 1) (List.filterMap id l) <;> rfl

theorem unmapEvents_unmapped (fails : Nat → Bool) (as : List Arena) : ∀ start : Nat,
    (unmapEvents fails start as).filterMap Event.unmapped = as ∧
      (unmapEvents fails start as).length = as.length := by
  induction as with
  | nil => intro start; exact ⟨rfl, rfl⟩
  | cons a as ih =>
    intro start
    obtain ⟨h1, h2⟩ := ih (start + 1)
    simp [unmapEvents, Event.unmapped, h1, h2]

theorem unmapEvents_getElem? (fails : Nat → Bool) (as : List Arena) : ∀ (start k : Nat),
    (unmapEvents fails start as)[k]? =
      (as[k]?).map (fun a => Event.unmap a (!fails (start + k))) := by
  induction as with
  | nil => intro start k; simp [unmapEvents]
  | cons a as ih =>
    intro start k
    cases k with
    | zero => simp [unmapEvents]
    | succ k =>
      simp only [unmapEvents, List.getElem?_cons_succ, ih]
      have : start + 1 + k = start + (k + 1) := by omega
      rw [this]

theorem lastFailed_eq_none_iff (fails : Nat → Bool) (as : List Arena) : ∀ start : Nat,
    lastFailed fails start as = none ↔ ∀ k, k < as.length → fails (start + k) = false := by
  induction as with
  | nil => intro start; simp [lastFailed]
  | cons a as ih =>
    intro start
    have hrec := ih (start + 1)
    simp only [lastFailed, List.length_cons]
    constructor
    · intro h k hk
      cases hl : lastFailed fails (start + 1) as with
      | some b => rw [hl] at h; simp at h
      | none =>
        rw [hl] at h
        simp only at h
        cases k with
        | zero =>
          by_cases hf : fails start = true
          · simp [hf] at h
          · simpa using hf
        | succ k =>
          have := hrec.1 hl k (by omega)
          have e : start + (k + 1) = start + 1 + k := by omega
          rw [e]
          exact this
    · intro h
      have h0 : fails start = false := h 0 (by omega)
      have hl : lastFailed fails (start + 1) as = none := by
        refine hrec.2 (fun k hk => ?_)
        have := h (k + 1) (by omega)
        have e : start + (k + 1) = start + 1 + k := by omega
        rw [← e]
        exact this
      rw [hl]
      simp [h0]

theorem lastFailed_eq_some (fails : Nat → Bool) (as : List Arena) : ∀ (start : Nat) (b : Arena),
    lastFailed fails start as = some b →
    ∃ k, as[k]? = some b ∧ fails (start + k) = true ∧
      ∀ j, k < j → j < as.length → fails (start + j) = false := by
  induction as with
  | nil => intro start b h; simp [lastFailed] at h
  | cons a as ih =>
    intro start b h
    simp only [lastFailed] at h
    cases hl : lastFailed fails (start + 1) as with
    | some c =>
      rw [hl] at h
      simp only [Option.some.injEq] at h
      subst h
      obtain ⟨k, hk, hf, hlast⟩ := ih (start + 1) c hl
      refine ⟨k + 1, by simpa using hk, ?_, fun j hj1 hj2 => ?_⟩
      · have e : start + (k + 1) = start + 1 + k := by omega
        rw [e]
        exact hf
      · cases j with
        | zero => omega
        | succ j =>
          have := hlast j (by omega) (by simpa using hj2)
          have e : start + (j + 1) = start + 1 + j := by omega
          rw [e]
          exact this
    | none =>
      rw [hl] at h
      simp only at h
      by_cases hf : fails start = true
      · simp only [hf, if_true, Option.some.injEq] at h
        subst h
        refine ⟨0, by simp, by simpa using hf, fun j hj1 hj2 => ?_⟩
        cases j with
        | zero => omega
        | succ j =>
          have := (lastFailed_eq_none_iff fails as (start + 1)).1 hl j (by simpa using hj2)
          have e : start + (j + 1) = start + 1 + j := by omega
          rw [e]
          exact this
      · simp [hf] at h

/-- In a table whose slot `j` holds a mapping of the file `b + j`, the
resident segments in slot order have strictly increasing ids. -/
theorem filterMap_aid_increasing (l : List (Option Arena)) : ∀ b : Int,
    (∀ (j : Nat) (a : Arena), l[j]? = some (some a) → a.aid = b + j) →
    List.Pairwise (fun x y : Arena => x.aid < y.aid) (l.filterMap id) ∧
      ∀ x ∈ l.filterMap id, b ≤ x.aid := by
  induction l with
  | nil => intro b _; simp
  | cons x l ih =>
    intro b h
    have hrec := ih (b + 1) (fun j a hj => by
      have := h (j + 1) a (by simpa using hj)
      rw [this]
      push_cast
      ring)
    cases x with
    | none =>
      have hfm : List.filterMap id (none :: l) = List.filterMap id l := rfl
      rw [hfm]
      exact ⟨hrec.1, fun y hy => by have := hrec.2 y hy; omega⟩
    | some a =>
      have hfm : List.filterMap id (some a :: l) = a :: List.filterMap id l := rfl
      rw [hfm]
      have ha : a.aid = b := by
        have := h 0 a (by simp)
        simpa using this
      refine ⟨List.pairwise_cons.2 ⟨fun y hy => ?_, hrec.1⟩, fun y hy => ?_⟩
      · have := hrec.2 y hy
        omega
      · rcases List.mem_cons.1 hy with hy | hy
        · rw [hy, ha]
        · have := hrec.2 y hy
          omega

theorem residentArenas_increasing {m : ArenaManager} (hc : Consistent m) :
    List.Pairwise (fun x y : Arena => x.aid < y.aid) (residentArenas m) := by
  refine (filterMap_aid_increasing m.arenaList m.baseAid (fun j a hj => ?_)).1
  refine hc (j : Int) a ?_
  unfold slot
  have : ¬ ((j : Int) < 0) := by omega
  simp only [this, if_false, Int.toNat_ofNat]
  exact hj

/-! ## The window size is never written -/

theorem setupLoop_step (n : Nat) : ∀ (m : ArenaManager) (h i : Int),
    Step (fun e => e.isMgr = true) m (setupLoop n m h i).2 := by
  induction n with
  | zero => intro m h i; exact Step.refl _ m
  | succ n ih =>
    intro m h i
    rw [setupLoop]
    have hs := addArena_step m (h + i)
    rcases ha : addArena m (h + i) with ⟨a | f, m1⟩
    · rw [ha] at hs
      exact hs.trans (ih m1 h (i + 1))
    · rw [ha] at hs
      exact hs

theorem setupArenas_activeArenaCount {am0 am : ArenaManager} {headAid tailAid : Int}
    {tr : List Event} (hok : setupArenas am0 headAid tailAid = (.ok am, tr)) :
    am.activeArenaCount = am0.activeArenaCount := by
  unfold setupArenas at hok
  generalize (min (tailAid + 1 - headAid) am0.activeArenaCount).toNat = n at hok
  have hs1 := setupLoop_step n am0 headAid 0
  rcases hl : setupLoop n am0 headAid 0 with ⟨_ | f, am1⟩
  · rw [hl] at hok hs1
    simp only at hok
    split_ifs at hok
    · have hs2 := addArena_step am1 tailAid
      rcases ha : addArena am1 tailAid with ⟨a | f, am2⟩
      · rw [ha] at hok hs2
        simp only [Prod.mk.injEq, Res.ok.injEq] at hok
        rw [← hok.1]
        exact (hs1.trans hs2).activeArenaCount
      · rw [ha] at hok
        cases f <;> simp at hok
    · simp only [Prod.mk.injEq, Res.ok.injEq] at hok
      rw [← hok.1]
      exact hs1.activeArenaCount
  · rw [hl] at hok
    cases f <;> simp at hok

/-- The window size a manager returned by `newArenaManager` stores. -/
theorem newArenaManager_activeArenaCount {conf : BqConfig} {headAid tailAid : Int}
    {index : QueueIndex} {fails : Nat → Bool} {trace tr : List Event} {am : ArenaManager}
    (hok : newArenaManager conf headAid tailAid index fails trace = (.ok am, tr)) :
    am.activeArenaCount = windowSize conf := by
  unfold newArenaManager at hok
  split_ifs at hok
  · simp at hok
  · simp at hok
  · exact setupArenas_activeArenaCount hok

theorem activateArenaRangeLoop_step (n : Nat) : ∀ (m : ArenaManager) (aid : Int),
    Step (fun e => e.isMgr = true) m (activateArenaRangeLoop n m aid).2 := by
  induction n with
  | zero => intro m aid; exact Step.refl _ m
  | succ n ih =>
    intro m aid
    rw [activateArenaRangeLoop]
    have hs := getArena_step m aid
    rcases ha : getArena m aid with ⟨a | f, m1⟩
    · rw [ha] at hs
      exact hs.trans (ih m1 (aid + 1))
    · rw [ha] at hs
      exact hs

theorem unmapArenaRangeLoop_step (n : Nat) (isStrict : Bool) : ∀ (m : ArenaManager) (aid : Int),
    Step (fun e => e.isMgr = true) m (unmapArenaRangeLoop n m aid isStrict).2 := by
  induction n with
  | zero => intro m aid; exact Step.refl _ m
  | succ n ih =>
    intro m aid
    rw [unmapArenaRangeLoop]
    have hs := unmapArena_step m aid isStrict
    rcases ha : unmapArena m aid isStrict with ⟨a | f, m1⟩
    · rw [ha] at hs
      exact hs.trans (ih m1 (aid + 1))
    · rw [ha] at hs
      exact hs

theorem close_activeArenaCount (m : ArenaManager) :
    (close m).2.activeArenaCount = m.activeArenaCount := by
  unfold close
  rw [closeLoop_eq]

theorem Enqueue_activeArenaCount (fuel : Nat) (bq : BigQueue) (message : List Byte) :
    (Enqueue fuel bq message).2.activeArenaCount = bq.activeArenaCount := by
  rcases h : Enqueue fuel bq message with ⟨_ | f, bq'⟩
  · obtain ⟨pos1, bq1, pos2, bq2, hl, hb, hq⟩ := Enqueue_ok h
    have hs1 : Step (fun e => e.isPutTail = false) bq bq1 := by
      simpa [hl] using writeLength_step bq bq.index.getTail.1 bq.index.getTail.2 message.length
    have hb' : writeBytesLoop fuel bq1 pos1.1 pos1.2 message 0 = (.ok pos2, bq2) := hb
    have hs2 : Step (fun e => e.isPutTail = false) bq1 bq2 := by
      simpa [hb'] using writeBytesLoop_step fuel bq1 pos1.1 pos1.2 message 0
    subst hq
    exact (hs1.trans hs2).activeArenaCount
  · exact (Enqueue_fail_step h).activeArenaCount

/-! ## Iterations of the loop of `writeBytes` -/

theorem Calls.ofStep {m m' : ArenaManager} (h : Step (fun e => e.isMgr = true) m m') :
    Calls 0 m m' := by
  obtain ⟨evs, ht, hp⟩ := h.trace
  refine ⟨evs, ht, ?_, fun e he => ?_⟩
  · rw [Nat.le_zero, List.countP_eq_zero]
    intro e he
    have := hp e he
    cases e <;> simp_all [Event.isMgr, Event.isWriteCall]
  · have := hp e he
    cases e <;> simp_all [Event.isMgr, Event.progress]

theorem Calls.append {a b : Nat} {m1 m2 m3 : ArenaManager} (h12 : Calls a m1 m2)
    (h23 : Calls b m2 m3) : Calls (a + b) m1 m3 := by
  obtain ⟨e1, t1, c1, p1⟩ := h12
  obtain ⟨e2, t2, c2, p2⟩ := h23
  refine ⟨e1 ++ e2, by rw [t2, t1, List.append_assoc], ?_, fun e he => ?_⟩
  · rw [List.countP_append]
    omega
  · rcases List.mem_append.1 he with h | h
    · exact p1 e h
    · exact p2 e h

theorem Calls.weaken {a b : Nat} {m m' : ArenaManager} (hab : a ≤ b) (h : Calls a m m') :
    Calls b m m' := by
  obtain ⟨e1, t1, c1, p1⟩ := h
  exact ⟨e1, t1, by omega, p1⟩

/-- One call of `Write` at an offset inside the arena is one call that makes
progress. -/
theorem Write_calls (m : ArenaManager) (a : Arena) (bytes : List Byte) (offset : Int)
    (hlt : offset < m.conf.arenaSize) : Calls 1 m (Write m a bytes offset).2 := by
  unfold Write
  split
  · refine ⟨[.writeFailed a offset bytes], rfl, by simp [Event.isWriteCall], fun e he => ?_⟩
    simp only [List.mem_singleton] at he
    subst he
    trivial
  · refine ⟨[.write a offset bytes (min bytes.length (m.conf.arenaSize - offset).toNat)], rfl,
      by simp [Event.isWriteCall], fun e he => ?_⟩
    simp only [List.mem_singleton] at he
    subst he
    intro hne
    have : 1 ≤ bytes.length := by
      cases bytes with
      | nil => exact absurd rfl hne
      | cons b bs => simp
    omega

/-- The loop of `writeBytes` run with `fuel` makes at most `fuel` calls of
`Write`, at most one in every iteration, and each of them makes progress. -/
theorem writeBytesLoop_calls (fuel : Nat) : ∀ (bq : BigQueue) (aid offset : Int)
    (byteSlice : List Byte) (counter : Nat),
    0 ≤ offset → offset < bq.conf.arenaSize →
    Calls fuel bq (writeBytesLoop fuel bq aid offset byteSlice counter).2 := by
  induction fuel with
  | zero =>
    intro bq _ _ _ _ _ _
    exact Calls.ofStep (Step.refl _ bq)
  | succ fuel ih =>
    intro bq aid offset byteSlice counter h0 hlt
    rw [writeBytesLoop]
    have hs1 := getArena_step bq aid
    rcases hg : getArena bq aid with ⟨arena | f, bq1⟩
    · rw [hg] at hs1
      simp only
      have hw := Write_calls bq1 arena (byteSlice.drop counter) offset
        (by rw [hs1.conf]; exact hlt)
      have hst := Write_step bq1 arena (byteSlice.drop counter) offset
      rcases hwr : Write bq1 arena (byteSlice.drop counter) offset with ⟨n | f, bq2⟩
      · rw [hwr] at hw hst
        have h2 : Calls 1 bq bq2 := by
          have := (Calls.ofStep hs1).append hw
          simpa using this
        obtain ⟨_, hn, _⟩ := Write_ok hwr
        rw [hs1.conf, List.length_drop] at hn
        have hconf2 : bq2.conf = bq.conf := hst.conf.trans hs1.conf
        simp only
        rw [hconf2]
        have hone : 1 + 0 ≤ fuel + 1 := by omega
        split_ifs with hcap hl hl
        · have hs3 := getNextArena_step bq2 aid
          rcases hnx : getNextArena bq2 aid with ⟨_ | f, bq3⟩
          · rw [hnx] at hs3
            exact (h2.append (Calls.ofStep hs3)).weaken hone
          · rw [hnx] at hs3
            exact (h2.append (Calls.ofStep hs3)).weaken hone
        · have hs3 := getNextArena_step bq2 aid
          rcases hnx : getNextArena bq2 aid with ⟨_ | f, bq3⟩
          · rw [hnx] at hs3
            simp only
            have hrec := ih bq3 (aid + 1) 0 byteSlice (counter + n) (le_refl 0)
              (by rw [hs3.conf, hconf2]; omega)
            exact ((h2.append (Calls.ofStep hs3)).append hrec).weaken (by omega)
          · rw [hnx] at hs3
            exact (h2.append (Calls.ofStep hs3)).weaken hone
        · exact h2.weaken (by omega)
        · have hrec := ih bq2 aid (offset + n) byteSlice (counter + n) (by omega)
            (by rw [hconf2]; omega)
          exact (h2.append hrec).weaken (by omega)
      · rw [hwr] at hw
        have := (Calls.ofStep hs1).append hw
        exact this.weaken (by omega)
    · rw [hg] at hs1
      exact (Calls.ofStep hs1).weaken (by omega)

/-- With `C > 0` and an offset inside the arena, `floor((offset + left) / C)
+ 1` iterations are enough for the loop of `writeBytes`, `left` being the
number of bytes not yet written. -/
theorem writeBytesLoop_fuel_tight (fuel : Nat) : ∀ (bq : BigQueue) (aid offset : Int)
    (byteSlice : List Byte) (counter : Nat),
    0 ≤ offset → offset < bq.conf.arenaSize → counter ≤ byteSlice.length →
    (offset + ((byteSlice.length - counter : Nat) : Int)) / bq.conf.arenaSize + 1 ≤ fuel →
    (writeBytesLoop fuel bq aid offset byteSlice counter).1 ≠ .fail .outOfFuel := by
  induction fuel with
  | zero =>
    intro bq aid offset byteSlice counter h0 hlt _ hf
    have := Int.ediv_nonneg (a := offset + ((byteSlice.length - counter : Nat) : Int))
      (b := bq.conf.arenaSize) (by omega) (by omega)
    simp only [Nat.cast_zero] at hf
    omega
  | succ fuel ih =>
    intro bq aid offset byteSlice counter h0 hlt hc hf
    rw [writeBytesLoop]
    have hg := getArena_fuel bq aid
    have hs1 := getArena_step bq aid
    rcases hga : getArena bq aid with ⟨arena | f, bq1⟩
    · rw [hga] at hs1
      simp only
      have hst := Write_step bq1 arena (byteSlice.drop counter) offset
      rcases hwr : Write bq1 arena (byteSlice.drop counter) offset with ⟨n | f, bq2⟩
      · rw [hwr] at hst
        obtain ⟨_, hn, _⟩ := Write_ok hwr
        rw [hs1.conf, List.length_drop] at hn
        have hconf2 : bq2.conf = bq.conf := hst.conf.trans hs1.conf
        simp only
        rw [hconf2]
        split_ifs with hcap hl hl
        · have h3 := getNextArena_fuel bq2 aid
          rcases hnx : getNextArena bq2 aid with ⟨_ | f, bq3⟩
          · simp
          · rw [hnx] at h3
            simpa using h3
        · have h3 := getNextArena_fuel bq2 aid
          have hs3 := getNextArena_step bq2 aid
          rcases hnx : getNextArena bq2 aid with ⟨_ | f, bq3⟩
          · rw [hnx] at hs3
            simp only
            have hconf3 : bq3.conf = bq.conf := hs3.conf.trans hconf2
            refine ih bq3 (aid + 1) 0 byteSlice (counter + n) (le_refl 0)
              (by rw [hconf3]; omega) (by omega) ?_
            rw [hconf3]
            have hsplit : offset + ((byteSlice.length - counter : Nat) : Int) =
                (0 + ((byteSlice.length - (counter + n) : Nat) : Int)) +
                  1 * bq.conf.arenaSize := by
              omega
            rw [hsplit, Int.add_mul_ediv_right _ _ (by omega)] at hf
            push_cast at hf
            omega
          · rw [hnx] at h3
            simpa using h3
        · simp
        · exfalso
          omega
      · unfold Write at hwr
        split_ifs at hwr
        · simp only [Prod.mk.injEq, Res.fail.injEq] at hwr
          simp [← hwr.1]
        · simp at hwr
    · rw [hga] at hg
      simpa using hg

/-- The run of `writeBytes` on the empty payload from an offset inside the
arena: a successful run is one lookup and one `Write` of no bytes, and it
returns the start position. -/
theorem writeBytes_empty_ok {fuel : Nat} {bq bq' : BigQueue} {aid offset : Int}
    {pos : Int × Int} (hlt : offset < bq.conf.arenaSize)
    (h : writeBytes fuel bq aid offset [] = (.ok pos, bq')) :
    pos = (aid, offset) ∧ ∃ a bq1, getArena bq aid = (.ok a, bq1) ∧
      bq' = { bq1 with trace := bq1.trace ++ [.write a offset [] 0] } := by
  unfold writeBytes at h
  cases fuel with
  | zero => simp [writeBytesLoop] at h
  | succ fuel =>
    obtain ⟨arena, bq1, n, bq2, hg, hw, hcases⟩ := writeBytesLoop_succ_ok h
    obtain ⟨_, hn, hbq2⟩ := Write_ok hw
    simp only [List.drop_nil, List.length_nil, Nat.zero_min] at hn
    subst hn
    simp only [List.drop_nil] at hbq2
    rcases hcases with ⟨hcap, _⟩ | ⟨_, hfin | ⟨hne, _⟩⟩
    · simp only [Nat.cast_zero, add_zero] at hcap
      omega
    · obtain ⟨_, hp, hq⟩ := hfin
      refine ⟨by simpa using hp, arena, bq1, hg, ?_⟩
      rw [hq, hbq2]
    · simp at hne

/-- The run of `writeBytes` on the empty payload when the segment is resident
and `Write` does not fail. -/
theorem writeBytes_empty_resident {bq : BigQueue} {aid offset : Int} {a : Arena}
    (hlt : offset < bq.conf.arenaSize)
    (hs : slot bq.arenaList (aid - bq.baseAid) = some (some a))
    (hf : bq.fails bq.trace.length = false) :
    writeBytes 1 bq aid offset [] =
      (.ok (aid, offset), { bq with trace := bq.trace ++ [.write a offset [] 0] }) := by
  have hne : ¬ offset = bq.conf.arenaSize := by omega
  simp [writeBytes, writeBytesLoop, getArena_of_slot hs, Write, hf, hne]

/-! ## The next `Enqueue` succeeds -/

theorem NoFault_step {P : Event → Prop} {m m' : ArenaManager} (hs : Step P m m')
    (hn : NoFault m) : NoFault m' := by
  obtain ⟨evs, ht, _⟩ := hs.trace
  intro k hk
  rw [hs.fails]
  refine hn k ?_
  rw [ht, List.length_append] at hk
  omega

theorem LastSlot_same {P : Event → Prop} {m m' : ArenaManager} {cur : Int}
    (hs : Step P m m') (hl : m'.arenaList = m.arenaList) (h : LastSlot m cur) :
    LastSlot m' cur := by
  obtain ⟨h0, hlen, hres⟩ := h
  exact ⟨by rw [hs.baseAid]; exact h0, by rw [hl, hs.baseAid]; exact hlen,
    resident_same hs hl hres⟩

/-- Creating a segment one past the end of the table appends its slot. -/
theorem createArena_append {m : ArenaManager} {aid : Int}
    (hlen : (m.arenaList.length : Int) < aid - m.baseAid + 1)
    (hf : m.fails m.trace.length = false) :
    createArena m aid = (.ok ⟨aid, m.trace.length⟩,
      { m with trace := m.trace ++ [.newArena ⟨aid, m.trace.length⟩],
               arenaList := m.arenaList ++ [some ⟨aid, m.trace.length⟩] }) := by
  simp [createArena, newArena, hf, hlen]

theorem LastSlot_getArena {m m' : ArenaManager} {cur : Int} {a : Arena}
    (h : LastSlot m cur) (hg : getArena m cur = (.ok a, m')) : m' = m := by
  obtain ⟨b, hb⟩ := h.2.2
  rw [getArena_of_slot hb] at hg
  simp only [Prod.mk.injEq] at hg
  exact hg.2.symm

/-- A successful rollover from the last slot appends the slot of the next
segment. -/
theorem LastSlot_getNextArena {m m' : BigQueue} {cur : Int} (h : LastSlot m cur)
    (hn : getNextArena m cur = (.ok (), m')) : LastSlot m' (cur + 1) := by
  obtain ⟨h0, hlen, _⟩ := h
  obtain ⟨m1, a, hu, ha⟩ := getNextArena_ok hn
  have hs1 : Step (fun e => e.isMgr = true) m m1 := by
    simpa [hu] using unmapArena_step m cur false
  have hs2 : Step (fun e => e.isMgr = true) m1 m' := by
    simpa [ha] using addArena_step m1 (cur + 1)
  obtain ⟨_, hlen1, _, _⟩ := unmapArena_slots hu
  have hb1 := hs1.baseAid
  refine ⟨by rw [hs2.baseAid, hb1]; exact h0, ?_, resident_of_getNextArena hn⟩
  rcases addArena_ok ha with ⟨_, hs⟩ | ⟨_, _, _, hm⟩
  · have := (slot_eq_some_bounds hs).2
    rw [hb1, hlen1] at this
    omega
  · subst hm
    have hl : (m1.arenaList.length : Int) < cur + 1 - m1.baseAid + 1 := by
      rw [hb1, hlen1]
      omega
    simp only [addedList, hl, if_true, List.length_append, List.length_singleton]
    rw [hb1, hlen1]
    push_cast
    omega

/-- From the last slot and without faults the rollover succeeds. -/
theorem getNextArena_nofault {m : BigQueue} {cur : Int} (h : LastSlot m cur)
    (hnf : NoFault m) : ∃ m', getNextArena m cur = (.ok (), m') := by
  obtain ⟨h0, hlen, a, ha⟩ := h
  obtain ⟨m1, hu⟩ : ∃ m1, unmapArena m cur false = (.ok (), m1) := by
    by_cases hw : cur - m.index.getHead.1 < m.activeArenaCount
    · exact ⟨m, unmapArena_window ha hw⟩
    · exact ⟨_, unmapArena_unmap_ok ha (fun hc => hw hc.2) (hnf _ (le_refl _))⟩
  have hs1 : Step (fun e => e.isMgr = true) m m1 := by
    simpa [hu] using unmapArena_step m cur false
  obtain ⟨_, hlen1, _, _⟩ := unmapArena_slots hu
  have hnf1 := NoFault_step hs1 hnf
  have hnot : ¬ cur + 1 < (m1.arenaList.length : Int) := by
    rw [hlen1]
    omega
  have hl : (m1.arenaList.length : Int) < cur + 1 - m1.baseAid + 1 := by
    rw [hs1.baseAid, hlen1]
    omega
  have hadd : addArena m1 (cur + 1) = createArena m1 (cur + 1) := by
    unfold addArena
    rw [if_neg hnot]
  have hget : getNextArena m cur =
      (match addArena m1 (cur + 1) with
        | (.fail f, bq2) => (.fail f, bq2)
        | (.ok _, bq2) => (.ok (), bq2)) := by
    unfold getNextArena
    rw [hu]
  rw [hget, hadd, createArena_append hl (hnf1 _ (le_refl _))]
  exact ⟨_, rfl⟩

theorem LastSlot_writeLengthAt {bq bq' : BigQueue} {aid offset : Int} {length : Nat}
    {pos : Int × Int} (h : LastSlot bq aid)
    (hw : writeLengthAt bq aid offset length = (.ok pos, bq')) : LastSlot bq' pos.1 := by
  obtain ⟨arena, bq1, hg, hcase⟩ := writeLengthAt_ok hw
  have h1 : bq1 = bq := LastSlot_getArena h hg
  subst h1
  have h2 : LastSlot (WriteUint64 bq1 arena offset length) aid :=
    LastSlot_same (WriteUint64_step bq1 arena offset length) rfl h
  rcases hcase with ⟨_, hn, hp⟩ | ⟨_, hq, hp⟩
  · subst hp
    exact LastSlot_getNextArena h2 hn
  · subst hp; subst hq
    exact h2

theorem LastSlot_writeLength {bq bq' : BigQueue} {aid offset : Int} {length : Nat}
    {pos : Int × Int} (h : LastSlot bq aid)
    (hw : writeLength bq aid offset length = (.ok pos, bq')) : LastSlot bq' pos.1 := by
  rcases writeLength_ok hw with ⟨_, bq1, hn, hat⟩ | ⟨_, hat⟩
  · exact LastSlot_writeLengthAt (LastSlot_getNextArena h hn) hat
  · exact LastSlot_writeLengthAt h hat

theorem writeLengthAt_nofault {bq : BigQueue} {aid : Int} (offset : Int) (length : Nat)
    (h : LastSlot bq aid) (hnf : NoFault bq) :
    ∃ pos bq', writeLengthAt bq aid offset length = (.ok pos, bq') := by
  obtain ⟨a, ha⟩ := h.2.2
  unfold writeLengthAt
  rw [getArena_of_slot ha]
  simp only
  split_ifs
  · have h2 : LastSlot (WriteUint64 bq a offset length) aid :=
      LastSlot_same (WriteUint64_step bq a offset length) rfl h
    obtain ⟨bq3, hn⟩ := getNextArena_nofault h2
      (NoFault_step (WriteUint64_step bq a offset length) hnf)
    rw [hn]
    exact ⟨_, _, rfl⟩
  · exact ⟨_, _, rfl⟩

theorem writeLength_nofault {bq : BigQueue} {aid : Int} (offset : Int) (length : Nat)
    (h : LastSlot bq aid) (hnf : NoFault bq) :
    ∃ pos bq', writeLength bq aid offset length = (.ok pos, bq') := by
  unfold writeLength
  split_ifs
  · obtain ⟨bq1, hn⟩ := getNextArena_nofault h hnf
    have hs : Step (fun e => e.isMgr = true) bq bq1 := by
      simpa [hn] using getNextArena_step bq aid
    rw [hn]
    exact writeLengthAt_nofault 0 length (LastSlot_getNextArena h hn) (NoFault_step hs hnf)
  · exact writeLengthAt_nofault offset length h hnf

theorem LastSlot_writeBytesLoop (fuel : Nat) : ∀ (bq bq' : BigQueue) (aid offset : Int)
    (byteSlice : List Byte) (counter : Nat) (pos : Int × Int),
    writeBytesLoop fuel bq aid offset byteSlice counter = (.ok pos, bq') →
    LastSlot bq aid → LastSlot bq' pos.1 := by
  induction fuel with
  | zero =>
    intro bq bq' aid offset byteSlice counter pos h
    simp [writeBytesLoop] at h
  | succ fuel ih =>
    intro bq bq' aid offset byteSlice counter pos h hl
    obtain ⟨arena, bq1, n, bq2, hg, hwr, hcases⟩ := writeBytesLoop_succ_ok h
    have h1 : bq1 = bq := LastSlot_getArena hl hg
    subst h1
    have hl2 : LastSlot bq2 aid := by
      have hs := Write_step bq1 arena (byteSlice.drop counter) offset
      rw [hwr] at hs
      refine LastSlot_same hs ?_ hl
      rw [(Write_ok hwr).2.2]
    rcases hcases with ⟨_, bq3, hnx, hfin | ⟨_, hrec⟩⟩ | ⟨_, hfin | ⟨_, hrec⟩⟩
    · obtain ⟨_, hp, hq⟩ := hfin
      subst hp; subst hq
      exact LastSlot_getNextArena hl2 hnx
    · exact ih _ _ _ _ _ _ _ hrec (LastSlot_getNextArena hl2 hnx)
    · obtain ⟨_, hp, hq⟩ := hfin
      subst hp; subst hq
      exact hl2
    · exact ih _ _ _ _ _ _ _ hrec hl2

/-- From the last slot, without faults, from an offset inside the arena and
with more fuel than bytes left, the loop of `writeBytes` returns a
position. -/
theorem writeBytesLoop_nofault (fuel : Nat) : ∀ (bq : BigQueue) (aid offset : Int)
    (byteSlice : List Byte) (counter : Nat),
    LastSlot bq aid → NoFault bq → 0 ≤ offset → offset < bq.conf.arenaSize →
    counter ≤ byteSlice.length → byteSlice.length - counter < fuel →
    ∃ pos bq', writeBytesLoop fuel bq aid offset byteSlice counter = (.ok pos, bq') := by
  induction fuel with
  | zero =>
    intro bq aid offset byteSlice counter _ _ _ _ _ hf
    omega
  | succ fuel ih =>
    intro bq aid offset byteSlice counter hl hnf h0 hlt hc hf
    obtain ⟨a, ha⟩ := hl.2.2
    rw [writeBytesLoop, getArena_of_slot ha]
    simp only
    have hst := Write_step bq a (byteSlice.drop counter) offset
    have hfw : bq.fails bq.trace.length = false := hnf _ (le_refl _)
    obtain ⟨n, bq2, hwr⟩ : ∃ n bq2, Write bq a (byteSlice.drop counter) offset = (.ok n, bq2) := by
      unfold Write
      rw [hfw]
      exact ⟨_, _, rfl⟩
    rw [hwr] at hst
    obtain ⟨_, hn, hbq2⟩ := Write_ok hwr
    rw [List.length_drop] at hn
    have hl2 : LastSlot bq2 aid := LastSlot_same hst (by rw [hbq2]) hl
    have hnf2 := NoFault_step hst hnf
    rw [hwr]
    simp only
    rw [hst.conf]
    split_ifs with hcap hfin hfin
    · obtain ⟨bq3, hnx⟩ := getNextArena_nofault hl2 hnf2
      rw [hnx]
      exact ⟨_, _, rfl⟩
    · obtain ⟨bq3, hnx⟩ := getNextArena_nofault hl2 hnf2
      have hs3 : Step (fun e => e.isMgr = true) bq2 bq3 := by
        simpa [hnx] using getNextArena_step bq2 aid
      rw [hnx]
      simp only
      exact ih bq3 (aid + 1) 0 byteSlice (counter + n) (LastSlot_getNextArena hl2 hnx)
        (NoFault_step hs3 hnf2) (le_refl 0) (by rw [hs3.conf, hst.conf]; omega) (by omega)
        (by omega)
    · exact ⟨_, _, rfl⟩
    · exact ih bq2 aid (offset + n) byteSlice (counter + n) hl2 hnf2 (by omega)
        (by rw [hst.conf]; omega) (by omega) (by omega)

/-- What a successful `Enqueue` keeps: the table ends with the tail segment,
which is resident, and the tail offset is not negative. -/
theorem LastSlot_Enqueue {fuel : Nat} {bq bq' : BigQueue} {message : List Byte}
    (hC : 8 ≤ bq.conf.arenaSize) (h0 : 0 ≤ bq.index.getTail.2)
    (hl : LastSlot bq bq.index.getTail.1)
    (h : Enqueue fuel bq message = (.ok (), bq')) :
    LastSlot bq' bq'.index.getTail.1 ∧ 0 ≤ bq'.index.getTail.2 ∧ bq'.conf = bq.conf := by
  have hpos := Enqueue_pos hC h0 h
  obtain ⟨pos1, bq1, pos2, bq2, hw, hb, hq⟩ := Enqueue_ok h
  have hs1 : Step (fun e => e.isPutTail = false) bq bq1 := by
    simpa [hw] using writeLength_step bq bq.index.getTail.1 bq.index.getTail.2 message.length
  have hb' : writeBytesLoop fuel bq1 pos1.1 pos1.2 message 0 = (.ok pos2, bq2) := hb
  have hs2 : Step (fun e => e.isPutTail = false) bq1 bq2 := by
    simpa [hb'] using writeBytesLoop_step fuel bq1 pos1.1 pos1.2 message 0
  have hl2 := LastSlot_writeBytesLoop fuel _ _ _ _ _ _ _ hb' (LastSlot_writeLength hl hw)
  refine ⟨?_, hpos.2.1, ?_⟩
  · subst hq
    exact hl2
  · subst hq
    exact (hs1.trans hs2).conf

/-- From a state whose table ends with the resident tail segment, without
faults and with more fuel than payload bytes, `Enqueue` succeeds. -/
theorem Enqueue_nofault {bq : BigQueue} (fuel : Nat) (message : List Byte)
    (hC : 8 ≤ bq.conf.arenaSize) (h0 : 0 ≤ bq.index.getTail.2)
    (hl : LastSlot bq bq.index.getTail.1) (hnf : NoFault bq) (hfuel : message.length < fuel) :
    ∃ bq', Enqueue fuel bq message = (.ok (), bq') := by
  obtain ⟨pos1, bq1, hw⟩ :=
    writeLength_nofault bq.index.getTail.2 message.length hl hnf
  have hs1 : Step (fun e => e.isPutTail = false) bq bq1 := by
    simpa [hw] using writeLength_step bq bq.index.getTail.1 bq.index.getTail.2 message.length
  obtain ⟨_, hp0, hplt, _⟩ := writeLength_pos hC h0 hw
  obtain ⟨pos2, bq2, hb⟩ := writeBytesLoop_nofault fuel bq1 pos1.1 pos1.2 message 0
    (LastSlot_writeLength hl hw) (NoFault_step hs1 hnf) hp0 (by rw [hs1.conf]; exact hplt)
    (Nat.zero_le _) (by omega)
  refine ⟨putTail bq2 pos2.1 pos2.2, ?_⟩
  unfold Enqueue
  rw [hw]
  simp only
  unfold writeBytes
  rw [hb]

/-- In every state reached from a constructed manager by successful
`Enqueue` calls the table ends with the resident tail segment. -/
theorem LastSlot_reach {conf : BqConfig} {headAid tailAid : Int} {index : QueueIndex}
    {fails : Nat → Bool} {trace tr : List Event} {am m : BigQueue}
    (hh : 0 ≤ headAid) (hle : headAid ≤ tailAid) (hC : 8 ≤ conf.arenaSize)
    (htail : index.getTail.1 = tailAid) (ho : 0 ≤ index.getTail.2)
    (hok : newArenaManager conf headAid tailAid index fails trace = (.ok am, tr))
    (hr : EnqueueReach am m) :
    LastSlot m m.index.getTail.1 ∧ 0 ≤ m.index.getTail.2 ∧ m.conf = conf := by
  induction hr with
  | init =>
    obtain ⟨hbase, hconf, _, hidx, _, _, hlen, _, hres⟩ := newArenaManager_ok hle hok
    refine ⟨⟨by rw [hbase]; exact hh, ?_, ?_⟩, by rw [hidx]; exact ho, hconf⟩
    · rw [hidx, htail, hbase]
      exact hlen
    · rw [hidx, htail]
      exact (hres tailAid).2 (Or.inr rfl)
  | step fuel message _ hstep ih =>
    obtain ⟨hl, h0, hconf⟩ := ih
    obtain ⟨hl', h0', hconf'⟩ := LastSlot_Enqueue (by rw [hconf]; exact hC) h0 hl hstep
    exact ⟨hl', h0', hconf'.trans hconf⟩

/-! ## Segments inside the window stay resident -/

theorem Keeps.same_state (m : ArenaManager) : Keeps m m :=
  ⟨rfl, rfl, rfl, fun _ h _ => h⟩

theorem Keeps.comp {m1 m2 m3 : ArenaManager} (h12 : Keeps m1 m2) (h23 : Keeps m2 m3) :
    Keeps m1 m3 := by
  obtain ⟨b1, i1, a1, r1⟩ := h12
  obtain ⟨b2, i2, a2, r2⟩ := h23
  refine ⟨b2.trans b1, i2.trans i1, a2.trans a1, fun aid hr hw => ?_⟩
  refine r2 aid (r1 aid hr hw) ?_
  rw [i1, a1]
  exact hw

theorem Keeps.same {P : Event → Prop} {m m' : ArenaManager} (hs : Step P m m')
    (hl : m'.arenaList = m.arenaList) : Keeps m m' :=
  ⟨hs.baseAid, by rw [hs.index], hs.activeArenaCount, fun _ hr _ => resident_same hs hl hr⟩

/-- A step that only fills slots keeps every resident segment. -/
theorem Keeps.ofSlots {P : Event → Prop} {m m' : ArenaManager} (hs : Step P m m')
    (hl : ∀ j a, slot m.arenaList j = some (some a) → ∃ b, slot m'.arenaList j = some (some b)) :
    Keeps m m' := by
  refine ⟨hs.baseAid, by rw [hs.index], hs.activeArenaCount, fun aid hr _ => ?_⟩
  obtain ⟨a, ha⟩ := hr
  obtain ⟨b, hb⟩ := hl _ a ha
  exact ⟨b, by rw [hs.baseAid]; exact hb⟩

theorem createArena_keeps (m : ArenaManager) (aid : Int) : Keeps m (createArena m aid).2 := by
  refine Keeps.ofSlots (createArena_step m aid) (fun j a ha => ?_)
  have hb := slot_eq_some_bounds ha
  unfold createArena newArena
  by_cases hf : m.fails m.trace.length = true
  · simp only [hf, if_true]
    exact ⟨a, ha⟩
  · simp only [hf, Bool.false_eq_true, if_false]
    split_ifs with h1 h2
    · simp only
      rw [slot_append_single]
      have : j ≠ (m.arenaList.length : Int) := by omega
      simp only [this, if_false]
      exact ⟨a, ha⟩
    · exact ⟨a, ha⟩
    · simp only
      rw [slot_set _ _ _ _ (by omega) (by omega)]
      split_ifs
      · exact ⟨_, rfl⟩
      · exact ⟨a, ha⟩

theorem addArena_keeps (m : ArenaManager) (aid : Int) : Keeps m (addArena m aid).2 := by
  unfold addArena
  split
  · split
    · exact Keeps.same_state m
    · exact Keeps.same_state m
    · exact createArena_keeps m aid
  · exact createArena_keeps m aid

theorem getArena_keeps (m : ArenaManager) (aid : Int) : Keeps m (getArena m aid).2 := by
  unfold getArena
  split
  · exact Keeps.same_state m
  · exact Keeps.same_state m
  · simp only
    split
    · exact addArena_keeps m aid
    · exact Keeps.same_state m

/-- A non-strict `unmapArena` keeps the resident segments inside the window,
whatever its outcome. -/
theorem unmapArena_keeps (m : ArenaManager) (aid : Int) :
    Keeps m (unmapArena m aid false).2 := by
  have hs := unmapArena_step m aid false
  refine ⟨hs.baseAid, by rw [hs.index], hs.activeArenaCount, fun x hr hw => ?_⟩
  rcases hu : unmapArena m aid false with ⟨_ | f, m1⟩
  · rw [hu] at hs
    obtain ⟨_, _, hother, hself⟩ := unmapArena_slots hu
    by_cases hx : x = aid
    · subst hx
      rcases hself with ⟨h1, _⟩ | h1
      · exact (resident_congr hs.baseAid h1).2 hr
      · rcases unmapArena_ok hu with ⟨hm, _⟩ | ⟨_, _, hc, _⟩
        · rw [hm]
          exact hr
        · rcases hc with hc | hc
          · cases hc
          · exact absurd hw hc
    · exact (resident_congr hs.baseAid (hother _ (by omega))).2 hr
  · rw [hu] at hs
    have hl : m1.arenaList = m.arenaList := by
      unfold unmapArena at hu
      split at hu
      · simp only [Prod.mk.injEq] at hu
        rw [← hu.2]
      · simp at hu
      · split at hu
        · simp at hu
        · unfold Unmap at hu
          split_ifs at hu
          · simp only [Prod.mk.injEq] at hu
            rw [← hu.2]
          · simp at hu
    exact resident_same hs hl hr

theorem getNextArena_keeps (bq : BigQueue) (prevAid : Int) :
    Keeps bq (getNextArena bq prevAid).2 := by
  unfold getNextArena
  have h1 := unmapArena_keeps bq prevAid
  rcases hu : unmapArena bq prevAid false with ⟨_ | f, bq1⟩
  · rw [hu] at h1
    have h2 := addArena_keeps bq1 (prevAid + 1)
    simp only
    rcases ha : addArena bq1 (prevAid + 1) with ⟨_ | f, bq2⟩
    · rw [ha] at h2
      exact h1.comp h2
    · rw [ha] at h2
      exact h1.comp h2
  · rw [hu] at h1
    exact h1

theorem writeLengthAt_keeps (bq : BigQueue) (aid offset : Int) (length : Nat) :
    Keeps bq (writeLengthAt bq aid offset length).2 := by
  unfold writeLengthAt
  have hs := getArena_keeps bq aid
  rcases hg : getArena bq aid with ⟨arena | f, bq1⟩
  · rw [hg] at hs
    simp only
    have h2 := hs.comp (Keeps.same (WriteUint64_step bq1 arena offset length) rfl)
    split_ifs
    · have h3 := getNextArena_keeps (WriteUint64 bq1 arena offset length) aid
      rcases hn : getNextArena (WriteUint64 bq1 arena offset length) aid with ⟨_ | f, bq3⟩
      · rw [hn] at h3
        exact h2.comp h3
      · rw [hn] at h3
        exact h2.comp h3
    · exact h2
  · rw [hg] at hs
    exact hs

theorem writeLength_keeps (bq : BigQueue) (aid offset : Int) (length : Nat) :
    Keeps bq (writeLength bq aid offset length).2 := by
  unfold writeLength
  split_ifs
  · have hs := getNextArena_keeps bq aid
    rcases hn : getNextArena bq aid with ⟨_ | f, bq1⟩
    · rw [hn] at hs
      exact hs.comp (writeLengthAt_keeps bq1 (aid + 1) 0 length)
    · rw [hn] at hs
      exact hs
  · exact writeLengthAt_keeps bq aid offset length

theorem Write_arenaList (m : ArenaManager) (a : Arena) (bytes : List Byte) (offset : Int) :
    (Write m a bytes offset).2.arenaList = m.arenaList := by
  unfold Write
  split <;> rfl

theorem writeBytesLoop_keeps (fuel : Nat) : ∀ (bq : BigQueue) (aid offset : Int)
    (byteSlice : List Byte) (counter : Nat),
    Keeps bq (writeBytesLoop fuel bq aid offset byteSlice counter).2 := by
  induction fuel with
  | zero => intro bq _ _ _ _; exact Keeps.same_state bq
  | succ fuel ih =>
    intro bq aid offset byteSlice counter
    rw [writeBytesLoop]
    have hs := getArena_keeps bq aid
    rcases hg : getArena bq aid with ⟨arena | f, bq1⟩
    · rw [hg] at hs
      simp only
      have hw : Keeps bq1 (Write bq1 arena (byteSlice.drop counter) offset).2 :=
        Keeps.same (Write_step bq1 arena (byteSlice.drop counter) offset)
          (Write_arenaList bq1 arena (byteSlice.drop counter) offset)
      rcases hwr : Write bq1 arena (byteSlice.drop counter) offset with ⟨n | f, bq2⟩
      · rw [hwr] at hw
        simp only
        have h2 := hs.comp hw
        split_ifs
        · have h3 := getNextArena_keeps bq2 aid
          rcases hn : getNextArena bq2 aid with ⟨_ | f, bq3⟩
          · rw [hn] at h3
            exact h2.comp h3
          · rw [hn] at h3
            exact h2.comp h3
        · have h3 := getNextArena_keeps bq2 aid
          rcases hn : getNextArena bq2 aid with ⟨_ | f, bq3⟩
          · rw [hn] at h3
            exact (h2.comp h3).comp (ih _ _ _ _ _)
          · rw [hn] at h3
            exact h2.comp h3
        · exact h2
        · exact h2.comp (ih _ _ _ _ _)
      · rw [hwr] at hw
        exact hs.comp hw
    · rw [hg] at hs
      exact hs

/-- An `Enqueue`, whatever its outcome, keeps the resident segments inside
the window of the head. -/
theorem Enqueue_keeps (fuel : Nat) (bq : BigQueue) (message : List Byte) :
    Keeps bq (Enqueue fuel bq message).2 := by
  unfold Enqueue
  have h1 := writeLength_keeps bq bq.index.getTail.1 bq.index.getTail.2 message.length
  rcases hl : writeLength bq bq.index.getTail.1 bq.index.getTail.2 message.length
    with ⟨⟨a1, o1⟩ | f1, bq1⟩
  · rw [hl] at h1
    simp only
    have h2 := writeBytesLoop_keeps fuel bq1 a1 o1 message 0
    unfold writeBytes
    rcases hb : writeBytesLoop fuel bq1 a1 o1 message 0 with ⟨⟨a2, o2⟩ | f2, bq2⟩
    · rw [hb] at h2
      simp only
      refine (h1.comp h2).comp ?_
      exact ⟨rfl, rfl, rfl, fun _ hr _ => hr⟩
    · rw [hb] at h2
      exact h1.comp h2
  · rw [hl] at h1
    exact h1

theorem EnqueueSeq_keeps {m0 m : BigQueue} (h : EnqueueSeq m0 m) : Keeps m0 m := by
  induction h with
  | init => exact Keeps.same_state m0
  | step fuel message _ ih => exact ih.comp (Enqueue_keeps fuel _ message)

/-! ## The segments up to the tail -/

theorem RangeResident.shrink {m : ArenaManager} {lo hi hi' : Int} (hle : hi' ≤ hi)
    (h : RangeResident m lo hi) : RangeResident m lo hi' :=
  fun aid h1 h2 h3 => h aid h1 (by omega) h3

theorem RangeResident.keeps {m m' : ArenaManager} {lo hi : Int} (hk : Keeps m m')
    (h : RangeResident m lo hi) : RangeResident m' lo hi := by
  obtain ⟨_, hi1, ha, hres⟩ := hk
  intro aid h1 h2 h3
  rw [hi1, ha] at h3
  exact hres aid (h aid h1 h2 h3) h3

theorem RangeResident.extend {m : ArenaManager} {lo hi : Int}
    (h : RangeResident m lo (hi - 1)) (hr : resident m hi) : RangeResident m lo hi := by
  intro aid h1 h2 h3
  by_cases he : aid = hi
  · rw [he]
    exact hr
  · exact h aid h1 (by omega) h3

theorem getNextArena_range {bq bq' : BigQueue} {cur lo : Int}
    (h : getNextArena bq cur = (.ok (), bq')) (hr : RangeResident bq lo cur) :
    RangeResident bq' lo (cur + 1) := by
  have hk := getNextArena_keeps bq cur
  rw [h] at hk
  exact RangeResident.extend ((hr.keeps hk).shrink (by omega)) (resident_of_getNextArena h)

theorem writeLengthAt_range {bq bq' : BigQueue} {aid offset lo : Int} {length : Nat}
    {pos : Int × Int} (h : writeLengthAt bq aid offset length = (.ok pos, bq'))
    (hr : RangeResident bq lo (aid - 1)) : aid ≤ pos.1 ∧ RangeResident bq' lo pos.1 := by
  obtain ⟨arena, bq1, hg, hcase⟩ := writeLengthAt_ok h
  have hk1 := getArena_keeps bq aid
  rw [hg] at hk1
  have hr1 : RangeResident bq1 lo aid :=
    RangeResident.extend (hr.keeps hk1) (resident_of_getArena hg)
  have hk2 : Keeps bq1 (WriteUint64 bq1 arena offset length) :=
    Keeps.same (WriteUint64_step bq1 arena offset length) rfl
  rcases hcase with ⟨_, hn, hp⟩ | ⟨_, hq, hp⟩
  · subst hp
    exact ⟨by show aid ≤ aid + 1; omega, getNextArena_range hn (hr1.keeps hk2)⟩
  · subst hp; subst hq
    exact ⟨le_refl _, hr1.keeps hk2⟩

theorem writeLength_range {bq bq' : BigQueue} {aid offset lo : Int} {length : Nat}
    {pos : Int × Int} (h : writeLength bq aid offset length = (.ok pos, bq'))
    (hr : RangeResident bq lo aid) : aid ≤ pos.1 ∧ RangeResident bq' lo pos.1 := by
  rcases writeLength_ok h with ⟨_, bq1, hn, hat⟩ | ⟨_, hat⟩
  · have h1 := getNextArena_range hn hr
    obtain ⟨hle, h2⟩ := writeLengthAt_range hat (h1.shrink (by omega))
    exact ⟨by omega, h2⟩
  · exact writeLengthAt_range hat (hr.shrink (by omega))

theorem writeBytesLoop_range (fuel : Nat) : ∀ (bq bq' : BigQueue) (aid offset : Int)
    (byteSlice : List Byte) (counter : Nat) (pos : Int × Int) (lo : Int),
    writeBytesLoop fuel bq aid offset byteSlice counter = (.ok pos, bq') →
    RangeResident bq lo (aid - 1) → aid ≤ pos.1 ∧ RangeResident bq' lo pos.1 := by
  induction fuel with
  | zero =>
    intro bq bq' aid offset byteSlice counter pos lo h
    simp [writeBytesLoop] at h
  | succ fuel ih =>
    intro bq bq' aid offset byteSlice counter pos lo h hr
    obtain ⟨arena, bq1, n, bq2, hg, hwr, hcases⟩ := writeBytesLoop_succ_ok h
    have hk1 := getArena_keeps bq aid
    rw [hg] at hk1
    have hr1 : RangeResident bq1 lo aid :=
      RangeResident.extend (hr.keeps hk1) (resident_of_getArena hg)
    have hk2 : Keeps bq1 (Write bq1 arena (byteSlice.drop counter) offset).2 :=
      Keeps.same (Write_step bq1 arena (byteSlice.drop counter) offset)
        (Write_arenaList bq1 arena (byteSlice.drop counter) offset)
    rw [hwr] at hk2
    have hr2 := hr1.keeps hk2
    rcases hcases with ⟨_, bq3, hnx, hfin | ⟨_, hrec⟩⟩ | ⟨_, hfin | ⟨_, hrec⟩⟩
    · obtain ⟨_, hp, hq⟩ := hfin
      subst hp; subst hq
      exact ⟨by show aid ≤ aid + 1; omega, getNextArena_range hnx hr2⟩
    · obtain ⟨hle, h3⟩ :=
        ih _ _ _ _ _ _ _ lo hrec ((getNextArena_range hnx hr2).shrink (by omega))
      exact ⟨by omega, h3⟩
    · obtain ⟨_, hp, hq⟩ := hfin
      subst hp; subst hq
      exact ⟨le_refl _, hr2⟩
    · exact ih _ _ _ _ _ _ _ lo hrec (hr2.shrink (by omega))

/-- A successful `Enqueue` moves the tail forward and leaves every segment
inside the window resident from `lo` through the new tail, when this was so
through the old tail. -/
theorem Enqueue_range {fuel : Nat} {bq bq' : BigQueue} {message : List Byte} {lo : Int}
    (h : Enqueue fuel bq message = (.ok (), bq'))
    (hr : RangeResident bq lo bq.index.getTail.1) :
    bq.index.getTail.1 ≤ bq'.index.getTail.1 ∧ RangeResident bq' lo bq'.index.getTail.1 := by
  obtain ⟨pos1, bq1, pos2, bq2, hl, hb, hq⟩ := Enqueue_ok h
  obtain ⟨h1, r1⟩ := writeLength_range hl hr
  obtain ⟨h2, r2⟩ := writeBytesLoop_range fuel _ _ _ _ _ _ _ lo hb (r1.shrink (by omega))
  subst hq
  refine ⟨?_, r2⟩
  show bq.index.getTail.1 ≤ pos2.1
  omega

theorem RangeResident_reach {m0 m : BigQueue} {lo : Int} (hr : EnqueueReach m0 m)
    (h0 : RangeResident m0 lo m0.index.getTail.1) : RangeResident m lo m.index.getTail.1 := by
  induction hr with
  | init => exact h0
  | step fuel message _ hstep ih => exact (Enqueue_range hstep ih).2

/-! ## C1 -/


/-- C1: for capacity `C >= 8` and a committed tail `(a, o)` with
`0 <= o < C`, a successful `Enqueue` of a payload of length `L` commits a
tail `(a', o')` with `a'*C + o' = S + 8 + L` and `0 <= o' < C`, where
`S = a*C + o` when `o + 8 <= C` and `S = (a+1)*C` otherwise.  (The bound
`o < C` on the old tail is not needed.) -/
theorem enqueue_tail_advance (fuel : Nat) (bq bq' : BigQueue) (message : List Byte)
    (hC : 8 ≤ bq.conf.arenaSize) (h0 : 0 ≤ bq.index.getTail.2)
    (h : Enqueue fuel bq message = (.ok (), bq')) :
    bq'.index.getTail.1 * bq.conf.arenaSize + bq'.index.getTail.2 =
        (if bq.index.getTail.2 + 8 ≤ bq.conf.arenaSize
          then bq.index.getTail.1 * bq.conf.arenaSize + bq.index.getTail.2
          else (bq.index.getTail.1 + 1) * bq.conf.arenaSize) + 8 + (message.length : Int) ∧
      0 ≤ bq'.index.getTail.2 ∧ bq'.index.getTail.2 < bq.conf.arenaSize :=
  Enqueue_pos hC h0 h

/-- C1, witness: capacity 16, tail `(0, 0)`, payload of 10 bytes; the new
tail is `(1, 2)`. -/
theorem enqueue_tail_advance_witness :
    (Enqueue 2 queueA (payload 10)).2.index.getTail = (1, 2) ∧
    ((1 : Int) * 16 + 2 = (if (0 : Int) + 8 ≤ 16 then 0 * 16 + 0 else (0 + 1) * 16) + 8 + 10 ∧
      (0 : Int) ≤ 2 ∧ (2 : Int) < 16) :=
  ⟨by decide, enqueue_tail_advance 2 queueA (Enqueue 2 queueA (payload 10)).2 (payload 10)
    (by decide) (by decide) rfl⟩

/-! ## C2 -/

/-- C2, counterexample: with capacity 4 (positive, below the width of the
header) and the start position `(0, 0)`, `writeLength` returns the position
`(1, 8)`, whose offset is not below the capacity. -/
theorem write_path_offset_counterexample :
    0 < queueSmall.conf.arenaSize ∧
    (0 : Int) ≤ 0 ∧ (0 : Int) < queueSmall.conf.arenaSize ∧
    (writeLength queueSmall 0 0 5).1 = .ok (1, 8) ∧
    ¬ ((8 : Int) < queueSmall.conf.arenaSize) := by
  decide

/-- C2, amended: for a start position `(a, o)` with `0 <= o < C` every
position the write path returns has `0 <= offset < C`, for `writeBytes` with
every capacity `C > 0` and for `writeLength` and the tail committed by
`Enqueue` with every capacity `C >= 8`; a header that ends exactly at
capacity is reported at `(a+1, 0)`, and `writeBytes` reports the quotient and
remainder of the linear end position, so a payload that ends exactly at
capacity in segment `s` is reported at `(s+1, 0)`. -/
theorem write_path_offsets_in_range (fuel : Nat) (bq : BigQueue) (aid offset : Int)
    (message : List Byte) (h0 : 0 ≤ offset) (hlt : offset < bq.conf.arenaSize) :
    (8 ≤ bq.conf.arenaSize → ∀ pos bq',
      writeLength bq aid offset message.length = (.ok pos, bq') →
      0 ≤ pos.2 ∧ pos.2 < bq.conf.arenaSize ∧
        (offset + 8 = bq.conf.arenaSize → pos = (aid + 1, 0))) ∧
    (0 < bq.conf.arenaSize → ∀ pos bq',
      writeBytes fuel bq aid offset message = (.ok pos, bq') →
      0 ≤ pos.2 ∧ pos.2 < bq.conf.arenaSize ∧
        pos.1 = aid + (offset + (message.length : Int)) / bq.conf.arenaSize ∧
        pos.2 = (offset + (message.length : Int)) % bq.conf.arenaSize) ∧
    (8 ≤ bq.conf.arenaSize → bq.index.getTail = (aid, offset) → ∀ bq',
      Enqueue fuel bq message = (.ok (), bq') →
      0 ≤ bq'.index.getTail.2 ∧ bq'.index.getTail.2 < bq.conf.arenaSize) := by
  refine ⟨fun hC pos bq' h => ?_, fun hC pos bq' h => writeBytes_pos hC h0 hlt h,
    fun hC ht bq' h => ?_⟩
  · exact (writeLength_pos hC h0 h).2
  · exact (Enqueue_pos hC (by rw [ht]; exact h0) h).2

/-- C2, witness: capacity 16 and start `(0, 8)`: the header ends exactly at
capacity and is reported at `(1, 0)`, and so is a payload of 8 bytes. -/
theorem write_path_offsets_in_range_witness :
    (writeLength queueA 0 8 8).1 = .ok (1, 0) ∧
    (writeBytes 2 queueA 0 8 (payload 8)).1 = .ok (1, 0) ∧
    ((8 ≤ queueA.conf.arenaSize → ∀ pos bq',
      writeLength queueA 0 8 (payload 8).length = (.ok pos, bq') →
      0 ≤ pos.2 ∧ pos.2 < queueA.conf.arenaSize ∧
        ((8 : Int) + 8 = queueA.conf.arenaSize → pos = (0 + 1, 0))) ∧
    (0 < queueA.conf.arenaSize → ∀ pos bq',
      writeBytes 2 queueA 0 8 (payload 8) = (.ok pos, bq') →
      0 ≤ pos.2 ∧ pos.2 < queueA.conf.arenaSize ∧
        pos.1 = 0 + (8 + ((payload 8).length : Int)) / queueA.conf.arenaSize ∧
        pos.2 = (8 + ((payload 8).length : Int)) % queueA.conf.arenaSize) ∧
    (8 ≤ queueA.conf.arenaSize → queueA.index.getTail = (0, 8) → ∀ bq',
      Enqueue 2 queueA (payload 8) = (.ok (), bq') →
      0 ≤ bq'.index.getTail.2 ∧ bq'.index.getTail.2 < queueA.conf.arenaSize)) :=
  ⟨by decide, by decide,
    write_path_offsets_in_range 2 queueA 0 8 (payload 8) (by decide) (by decide)⟩

/-! ## C3 -/

/-- C3: when `Enqueue` does not succeed (it returns an error, or stops in a
panic), the position index, and so the stored tail, is the one from before
the call, and none of the capability calls it made is `putTail`. -/
theorem enqueue_failure_keeps_tail (fuel : Nat) (bq bq' : BigQueue) (message : List Byte)
    (f : Failure) (h : Enqueue fuel bq message = (.fail f, bq')) :
    bq'.index.getTail = bq.index.getTail ∧ bq'.index = bq.index ∧
      ∃ evs, bq'.trace = bq.trace ++ evs ∧ ∀ e ∈ evs, e.isPutTail = false := by
  have hs := Enqueue_fail_step h
  exact ⟨by rw [hs.index], hs.index, hs.trace⟩

/-- C3, witness: with capacity 16, window size 1 and tail `(1, 0)` the
payload of 10 bytes fills segment 1; creating segment 2 fails at the
rollover, `Enqueue` returns that error, and the tail is still `(1, 0)`. -/
theorem enqueue_failure_keeps_tail_witness :
    (Enqueue 2 queueB (payload 10)).1 = .fail (.err (.newArena 2)) ∧
    ((Enqueue 2 queueB (payload 10)).2.index.getTail = queueB.index.getTail ∧
      (Enqueue 2 queueB (payload 10)).2.index = queueB.index ∧
      ∃ evs, (Enqueue 2 queueB (payload 10)).2.trace = queueB.trace ++ evs ∧
        ∀ e ∈ evs, e.isPutTail = false) :=
  ⟨by decide, enqueue_failure_keeps_tail 2 queueB (Enqueue 2 queueB (payload 10)).2 (payload 10)
    (.err (.newArena 2)) rfl⟩

/-! ## C4 -/

/-- C4, the code at the failing input: `newArenaManager` builds `queueB`
(capacity 16, window size 1, head segment 0, tail `(1, 0)`), in which the tail
segment 1 is resident.  `Enqueue` of 10 bytes fills segment 1; the rollover
unmaps segment 1, which is outside the window, and creating segment 2 then
fails.  `Enqueue` returns that error, the tail is still `(1, 0)`, and segment
1 is not resident any more; the same `Enqueue` tried again fails with
`ErrInactiveArena`. -/
theorem failed_rollover_evicts_tail_segment :
    newArenaManager ⟨16, 32⟩ 0 1 ⟨(0, 0), (1, 0)⟩ (fun n => n == 5) [] =
      (.ok queueB, queueB.trace) ∧
    resident queueB queueB.index.getTail.1 ∧
    (Enqueue 2 queueB (payload 10)).1 = .fail (.err (.newArena 2)) ∧
    (Enqueue 2 queueB (payload 10)).2.index.getTail = (1, 0) ∧
    ¬ resident (Enqueue 2 queueB (payload 10)).2 1 ∧
    (Enqueue 2 (Enqueue 2 queueB (payload 10)).2 (payload 10)).1 =
      .fail (.err .inactiveArena) :=
  ⟨rfl, by decide, by decide, by decide, by decide, by decide⟩

/-! ## C5 -/

/-- C5, counterexample: with capacity 16 and memory budget 8 the window size
is `-1`; the constructed manager has no resident segment besides the tail
segment, and 0 segments are not "at most `W = -1`" segments. -/
theorem window_count_counterexample :
    newArenaManager ⟨16, 8⟩ 0 0 ⟨(0, 0), (0, 0)⟩ (fun _ => false) [] =
      (.ok queueNeg, queueNeg.trace) ∧
    queueNeg.activeArenaCount = -1 ∧
    ¬ (((othersResident queueNeg).length : Int) ≤ queueNeg.activeArenaCount) :=
  ⟨rfl, by decide, by decide⟩

/-- C5, amended: for a manager constructed with head segment `h <= t`, the
tail segment, and window size `W`, after construction and after every
sequence of successful `Enqueue` calls every resident segment other than the
one of the committed tail has its id in `[h, h + W)`; hence at most
`max(W, 0)` segments besides the tail segment are resident. -/
theorem window_bound (conf : BqConfig) (h t : Int) (index : QueueIndex) (fails : Nat → Bool)
    (trace tr : List Event) (am m : BigQueue) (hle : h ≤ t)
    (hhead : index.getHead.1 = h) (htail : index.getTail.1 = t)
    (hok : newArenaManager conf h t index fails trace = (.ok am, tr))
    (hr : EnqueueReach am m) :
    (∀ aid, resident m aid → aid ≠ m.index.getTail.1 →
      h ≤ aid ∧ aid < h + windowSize conf) ∧
    (othersResident m).length ≤ (windowSize conf).toNat := by
  obtain ⟨hbase, _, hW, hidx, _, _, _, _, hres⟩ := newArenaManager_ok hle hok
  have hw0 : WindowAt am am.index.getTail.1 := by
    refine ⟨by rw [hbase, hidx, hhead], fun aid hra hne => ?_⟩
    rw [hidx, hhead, hW]
    rw [hidx, htail] at hne
    rcases (hres aid).1 hra with hin | heq
    · omega
    · exact absurd heq hne
  obtain ⟨hw, hhd, hcnt⟩ := WindowAt_reach hr hw0
  have hlen := othersResident_length_le hw
  rw [hcnt, hW] at hlen
  refine ⟨fun aid hra hne => ?_, hlen⟩
  have := hw.2 aid hra hne
  rw [hhd, hidx, hhead, hcnt, hW] at this
  exact this

/-- C5, witness: the manager built for head segment 0, tail `(5, 0)` and
window size 2, after one `Enqueue` of 10 bytes. -/
theorem window_bound_witness :
    (Enqueue 2 queueC (payload 10)).1 = .ok () ∧
    ((∀ aid, resident (Enqueue 2 queueC (payload 10)).2 aid →
        aid ≠ (Enqueue 2 queueC (payload 10)).2.index.getTail.1 →
        0 ≤ aid ∧ aid < 0 + windowSize confC) ∧
      (othersResident (Enqueue 2 queueC (payload 10)).2).length ≤ (windowSize confC).toNat) :=
  ⟨by decide, window_bound confC 0 5 indexC (fun _ => false) [] queueC.trace queueC
    (Enqueue 2 queueC (payload 10)).2 (by decide) rfl rfl rfl
    (EnqueueReach.step 2 (payload 10) EnqueueReach.init rfl)⟩

/-! ## C6 -/

/-- C6: for `headAid <= tailAid`, a manager that `newArenaManager` returns
stores the window size `W` computed from the configuration, and its resident
segments are exactly `headAid, ..., min(tailAid, headAid + W - 1)` together
with `tailAid`; and when no capability call fails (and the window size does
not divide by an arena size of zero) `newArenaManager` does return a
manager. -/
theorem newArenaManager_resident_set (conf : BqConfig) (headAid tailAid : Int)
    (index : QueueIndex) (fails : Nat → Bool) (trace : List Event) (hle : headAid ≤ tailAid) :
    (∀ am tr, newArenaManager conf headAid tailAid index fails trace = (.ok am, tr) →
      am.activeArenaCount = windowSize conf ∧
      ∀ aid, resident am aid ↔
        (headAid ≤ aid ∧ aid ≤ min tailAid (headAid + windowSize conf - 1)) ∨ aid = tailAid) ∧
    ((conf.memorySize > 0 → conf.arenaSize ≠ 0) → (∀ k, fails k = false) →
      ∃ am, newArenaManager conf headAid tailAid index fails trace = (.ok am, am.trace)) := by
  refine ⟨fun am tr hok => ?_, fun hdiv hnf => ?_⟩
  · have h := newArenaManager_ok hle hok
    exact ⟨h.2.2.1, h.2.2.2.2.2.2.2.2⟩
  · exact newArenaManager_nofault conf headAid tailAid index fails trace hle hdiv hnf

/-- C6, witness: head segment 0, tail segment 5, window size 2: the manager
returned is `queueC`, in which segments 0, 1 and 5 are resident and segments
2, 3, 4 and 6 are not. -/
theorem newArenaManager_resident_set_witness :
    newArenaManager confC 0 5 indexC (fun _ => false) [] = (.ok queueC, queueC.trace) ∧
    (resident queueC 0 ∧ resident queueC 1 ∧ ¬ resident queueC 2 ∧ ¬ resident queueC 3 ∧
      ¬ resident queueC 4 ∧ resident queueC 5 ∧ ¬ resident queueC 6) ∧
    ((∀ am tr, newArenaManager confC 0 5 indexC (fun _ => false) [] = (.ok am, tr) →
      am.activeArenaCount = windowSize confC ∧
      ∀ aid, resident am aid ↔
        ((0 : Int) ≤ aid ∧ aid ≤ min 5 (0 + windowSize confC - 1)) ∨ aid = 5) ∧
    ((confC.memorySize > 0 → confC.arenaSize ≠ 0) →
      (∀ k : Nat, (fun _ => false : Nat → Bool) k = false) →
      ∃ am, newArenaManager confC 0 5 indexC (fun _ => false) [] = (.ok am, am.trace))) :=
  ⟨rfl, by decide,
    newArenaManager_resident_set confC 0 5 indexC (fun _ => false) [] (by decide)⟩

/-! ## C7 -/

/-- C7: for capacity `C >= 8`, a tail `(a, o)` with `o >= 0` and a slot
table that holds mappings of its own files, a successful `Enqueue` writes the
payload contiguously from the linear position `P` just after the header: the
bytes the `Write` calls accepted are, in order, byte `i` of the payload in
segment `(P + i) / C` at offset `(P + i) % C`, nothing else, and every `Write`
starts at the current position and carries the suffix not yet written. -/
theorem payload_written_contiguously (fuel : Nat) (bq bq' : BigQueue) (message : List Byte)
    (hC : 8 ≤ bq.conf.arenaSize) (h0 : 0 ≤ bq.index.getTail.2) (hcons : Consistent bq)
    (h : Enqueue fuel bq message = (.ok (), bq')) :
    ∃ evs, bq'.trace = bq.trace ++ evs ∧
      writtenBytes evs = layout bq.conf.arenaSize
        ((if bq.index.getTail.2 + 8 ≤ bq.conf.arenaSize
          then bq.index.getTail.1 * bq.conf.arenaSize + bq.index.getTail.2
          else (bq.index.getTail.1 + 1) * bq.conf.arenaSize) + 8) message ∧
      (∀ i : Nat, (writtenBytes evs)[i]? = (message[i]?).map (fun b =>
        (((if bq.index.getTail.2 + 8 ≤ bq.conf.arenaSize
            then bq.index.getTail.1 * bq.conf.arenaSize + bq.index.getTail.2
            else (bq.index.getTail.1 + 1) * bq.conf.arenaSize) + 8 + i) / bq.conf.arenaSize,
         ((if bq.index.getTail.2 + 8 ≤ bq.conf.arenaSize
            then bq.index.getTail.1 * bq.conf.arenaSize + bq.index.getTail.2
            else (bq.index.getTail.1 + 1) * bq.conf.arenaSize) + 8 + i) % bq.conf.arenaSize,
         b))) ∧
      contiguousWrites bq.conf.arenaSize message
        ((if bq.index.getTail.2 + 8 ≤ bq.conf.arenaSize
          then bq.index.getTail.1 * bq.conf.arenaSize + bq.index.getTail.2
          else (bq.index.getTail.1 + 1) * bq.conf.arenaSize) + 8) 0 evs := by
  obtain ⟨pos1, bq1, pos2, bq2, hl, hb, hq⟩ := Enqueue_ok h
  have hs1 : Step (fun e => e.isHeader = true) bq bq1 := by
    simpa [hl] using writeLength_header bq bq.index.getTail.1 bq.index.getTail.2 message.length
  obtain ⟨e1, ht1, hp1⟩ := hs1.trace
  obtain ⟨hp, hp0, hplt, _⟩ := writeLength_pos hC h0 hl
  obtain ⟨hcons1, _⟩ := writeLength_trace hcons hl
  obtain ⟨_, e2, ht2, hw2, hc2⟩ := writeBytesLoop_trace fuel bq1 bq2 pos1.1 pos1.2 message 0 pos2
    hp0 (by rw [hs1.conf]; exact hplt) (Nat.zero_le _) hcons1 hb
  rw [hs1.conf, hp] at hw2 hc2
  simp only [List.drop_zero] at hw2
  have hnw1 : ∀ e ∈ e1, e.isWrite = false := fun e he => isHeader_not_write e (hp1 e he)
  have hw : writtenBytes (e1 ++ (e2 ++ [.putTail pos2.1 pos2.2])) = writtenBytes e2 := by
    rw [writtenBytes_append, writtenBytes_append, writtenBytes_noWrite e1 hnw1]
    simp [writtenBytes]
  refine ⟨e1 ++ (e2 ++ [.putTail pos2.1 pos2.2]), ?_, ?_, ?_, ?_⟩
  · subst hq
    simp only [putTail]
    rw [ht2, ht1, List.append_assoc, List.append_assoc]
  · rw [hw, hw2]
  · intro i
    rw [hw, hw2, layout_getElem?]
  · refine (contiguousWrites_skip _ _ e1 hnw1 _ _ _).2 ?_
    refine contiguousWrites_append _ _ _ ?_ _ _ _ hc2
    intro e he
    simp only [List.mem_singleton] at he
    subst he
    rfl

/-- C7, witness: capacity 16, tail `(0, 0)`, payload `0, ..., 9`: bytes 0 to
7 go to segment 0 at offsets 8 to 15 and bytes 8, 9 to segment 1 at offsets
0, 1, by two `Write` calls. -/
theorem payload_written_contiguously_witness :
    writtenBytes ((Enqueue 2 queueA (payload 10)).2.trace.drop queueA.trace.length) =
      [(0, 8, 0), (0, 9, 1), (0, 10, 2), (0, 11, 3), (0, 12, 4), (0, 13, 5), (0, 14, 6),
        (0, 15, 7), (1, 0, 8), (1, 1, 9)] ∧
    ∃ evs, (Enqueue 2 queueA (payload 10)).2.trace = queueA.trace ++ evs ∧
      writtenBytes evs = layout queueA.conf.arenaSize
        ((if queueA.index.getTail.2 + 8 ≤ queueA.conf.arenaSize
          then queueA.index.getTail.1 * queueA.conf.arenaSize + queueA.index.getTail.2
          else (queueA.index.getTail.1 + 1) * queueA.conf.arenaSize) + 8) (payload 10) ∧
      (∀ i : Nat, (writtenBytes evs)[i]? = ((payload 10)[i]?).map (fun b =>
        (((if queueA.index.getTail.2 + 8 ≤ queueA.conf.arenaSize
            then queueA.index.getTail.1 * queueA.conf.arenaSize + queueA.index.getTail.2
            else (queueA.index.getTail.1 + 1) * queueA.conf.arenaSize) + 8 + i) /
              queueA.conf.arenaSize,
         ((if queueA.index.getTail.2 + 8 ≤ queueA.conf.arenaSize
            then queueA.index.getTail.1 * queueA.conf.arenaSize + queueA.index.getTail.2
            else (queueA.index.getTail.1 + 1) * queueA.conf.arenaSize) + 8 + i) %
              queueA.conf.arenaSize,
         b))) ∧
      contiguousWrites queueA.conf.arenaSize (payload 10)
        ((if queueA.index.getTail.2 + 8 ≤ queueA.conf.arenaSize
          then queueA.index.getTail.1 * queueA.conf.arenaSize + queueA.index.getTail.2
          else (queueA.index.getTail.1 + 1) * queueA.conf.arenaSize) + 8) 0 evs :=
  ⟨by decide, payload_written_contiguously 2 queueA (Enqueue 2 queueA (payload 10)).2 (payload 10)
    (by decide) (by decide) queueA_consistent rfl⟩

/-! ## C8 -/

/-- C8: for capacity `C >= 8`, a position `(a, o)` with `o >= 0` and a slot
table that holds mappings of its own files, a successful `writeLength` writes
the length as one 8-byte integer that lies inside one segment: at `(a, o)`
when `o + 8 <= C`, and otherwise at offset 0 of segment `a + 1`, after
`getNextArena(a)` has unmapped `a` non-strictly and activated `a + 1`, which
is resident before the header is written; in that case it returns
`(a + 1, 8)` (`(a + 2, 0)` when `C = 8`). -/
theorem header_in_one_segment (bq bq' : BigQueue) (aid offset : Int) (length : Nat)
    (pos : Int × Int) (hC : 8 ≤ bq.conf.arenaSize) (h0 : 0 ≤ offset) (hcons : Consistent bq)
    (h : writeLength bq aid offset length = (.ok pos, bq')) :
    ∃ evs, bq'.trace = bq.trace ++ evs ∧
      headerWrites evs =
        [(if offset + 8 ≤ bq.conf.arenaSize then aid else aid + 1,
          if offset + 8 ≤ bq.conf.arenaSize then offset else 0, length)] ∧
      0 ≤ (if offset + 8 ≤ bq.conf.arenaSize then offset else 0) ∧
      (if offset + 8 ≤ bq.conf.arenaSize then offset else 0) + 8 ≤ bq.conf.arenaSize ∧
      (¬ offset + 8 ≤ bq.conf.arenaSize → ∃ bq0 arena bq1 pre post,
        unmapArena bq aid false = (.ok (), bq0) ∧
        addArena bq0 (aid + 1) = (.ok arena, bq1) ∧ resident bq1 (aid + 1) ∧
        bq1.trace = bq.trace ++ pre ∧ evs = pre ++ post ∧ headerWrites pre = [] ∧
        (bq.conf.arenaSize = 8 → pos = (aid + 2, 0)) ∧
        (bq.conf.arenaSize ≠ 8 → pos = (aid + 1, 8))) := by
  obtain ⟨_, evs, ht, hh, hroll⟩ := writeLength_trace hcons h
  refine ⟨evs, ht, hh, ?_, ?_, fun hno => ?_⟩
  · split_ifs
    · exact h0
    · exact le_refl 0
  · split_ifs with hfit
    · exact hfit
    · omega
  · obtain ⟨bq1, pre, post, hn, hres, ht1, hev, hpre, hat⟩ := hroll hno
    obtain ⟨bq0, arena, hu, ha⟩ := getNextArena_ok hn
    have hs : Step (fun e => e.isMgr = true) bq bq1 := by
      simpa [hn] using getNextArena_step bq aid
    refine ⟨bq0, arena, bq1, pre, post, hu, ha, hres, ht1, hev, hpre, ?_, ?_⟩
    · intro h8
      obtain ⟨_, _, _, hcase⟩ := writeLengthAt_ok hat
      simp only [cInt64Size, hs.conf] at hcase
      rcases hcase with ⟨_, _, hp⟩ | ⟨hne, _, _⟩
      · rw [hp]
        simp only [Prod.mk.injEq, and_true]
        omega
      · omega
    · intro h8
      obtain ⟨_, _, _, hcase⟩ := writeLengthAt_ok hat
      simp only [cInt64Size, hs.conf] at hcase
      rcases hcase with ⟨he, _, _⟩ | ⟨_, _, hp⟩
      · omega
      · rw [hp]
        simp

/-- C8, witness: capacity 16 and position `(0, 12)`: the header is written
at offset 0 of segment 1 and `writeLength` returns `(1, 8)`. -/
theorem header_in_one_segment_witness :
    (writeLength queueA 0 12 10).1 = .ok (1, 8) ∧
    headerWrites ((writeLength queueA 0 12 10).2.trace.drop queueA.trace.length) =
      [(1, 0, 10)] ∧
    ∃ evs, (writeLength queueA 0 12 10).2.trace = queueA.trace ++ evs ∧
      headerWrites evs =
        [(if (12 : Int) + 8 ≤ queueA.conf.arenaSize then 0 else 0 + 1,
          if (12 : Int) + 8 ≤ queueA.conf.arenaSize then 12 else 0, 10)] ∧
      0 ≤ (if (12 : Int) + 8 ≤ queueA.conf.arenaSize then (12 : Int) else 0) ∧
      (if (12 : Int) + 8 ≤ queueA.conf.arenaSize then (12 : Int) else 0) + 8 ≤
        queueA.conf.arenaSize ∧
      (¬ (12 : Int) + 8 ≤ queueA.conf.arenaSize → ∃ bq0 arena bq1 pre post,
        unmapArena queueA 0 false = (.ok (), bq0) ∧
        addArena bq0 (0 + 1) = (.ok arena, bq1) ∧ resident bq1 (0 + 1) ∧
        bq1.trace = queueA.trace ++ pre ∧ evs = pre ++ post ∧ headerWrites pre = [] ∧
        (queueA.conf.arenaSize = 8 → ((1, 8) : Int × Int) = (0 + 2, 0)) ∧
        (queueA.conf.arenaSize ≠ 8 → ((1, 8) : Int × Int) = (0 + 1, 8))) :=
  ⟨by decide, by decide, header_in_one_segment queueA (writeLength queueA 0 12 10).2 0 12 10
    (1, 8) (by decide) (by decide) queueA_consistent rfl⟩

/-! ## C9 -/

/-- C9, counterexample: in `queueA` (head segment 0, window size 2, a table
of one slot) segment 1 is not resident and lies inside the window, yet
`getArena(1)` neither activates it nor returns `ErrInactiveArena`: the lookup
indexes the table past its end and panics. -/
theorem getArena_past_table_counterexample :
    ¬ resident queueA 1 ∧
    (1 : Int) < queueA.index.getHead.1 + queueA.activeArenaCount ∧
    queueA.fails queueA.trace.length = false ∧
    (getArena queueA 1).1 = .fail .panic := by
  decide

/-- C9, amended: for every manager state and every segment id `aid` whose
slot exists in the slot table and is nil: if `aid < head + W` (head read from
the position index), `getArena(aid)` activates the segment: when creation
succeeds it returns the new mapping of the file of `aid` without error and
`aid` is resident afterwards (when creation fails it returns that error);
otherwise `getArena(aid)` returns `ErrInactiveArena`. -/
theorem getArena_not_resident (m : ArenaManager) (aid : Int)
    (hs : slot m.arenaList (aid - m.baseAid) = some none) :
    (aid < m.index.getHead.1 + m.activeArenaCount →
      (m.fails m.trace.length = false →
        ∃ a m', getArena m aid = (.ok a, m') ∧ a.aid = aid ∧
          slot m'.arenaList (aid - m'.baseAid) = some (some a) ∧ resident m' aid) ∧
      (m.fails m.trace.length = true →
        (getArena m aid).1 = .fail (.err (.newArena aid)))) ∧
    (¬ aid < m.index.getHead.1 + m.activeArenaCount →
      (getArena m aid).1 = .fail (.err .inactiveArena)) := by
  have hb := slot_eq_some_bounds hs
  refine ⟨fun hin => ⟨fun hf => ?_, fun hf => ?_⟩, fun hout => ?_⟩
  · rw [getArena_nil_inside hs hin, addArena_nil_slot hs hf]
    refine ⟨_, _, rfl, rfl, ?_, ?_⟩
    · simp only
      rw [slot_set _ _ _ _ hb.1 hb.2]
      simp
    · unfold resident
      simp only
      rw [slot_set _ _ _ _ hb.1 hb.2]
      simp
  · rw [getArena_nil_inside hs hin, addArena_nil_slot_fails hs hf]
  · rw [getArena_nil_outside hs hout]

/-- C9, witness: in `queueD` the slot of segment 1 is nil and inside the
window, and `getArena(1)` activates it; in `queueC` the slot of segment 3 is
nil and outside the window, and `getArena(3)` returns `ErrInactiveArena`. -/
theorem getArena_not_resident_witness :
    ((getArena queueD 1).1 = .ok ⟨1, 3⟩ ∧ resident (getArena queueD 1).2 1) ∧
    (getArena queueC 3).1 = .fail (.err .inactiveArena) ∧
    ((1 < queueD.index.getHead.1 + queueD.activeArenaCount →
      (queueD.fails queueD.trace.length = false →
        ∃ a m', getArena queueD 1 = (.ok a, m') ∧ a.aid = 1 ∧
          slot m'.arenaList (1 - m'.baseAid) = some (some a) ∧ resident m' 1) ∧
      (queueD.fails queueD.trace.length = true →
        (getArena queueD 1).1 = .fail (.err (.newArena 1)))) ∧
    (¬ 1 < queueD.index.getHead.1 + queueD.activeArenaCount →
      (getArena queueD 1).1 = .fail (.err .inactiveArena))) :=
  ⟨by decide, by decide, getArena_not_resident queueD 1 (by decide)⟩

/-! ## C10 -/

/-- C10, counterexample: in `queueC` (head segment 0, window size 2, a table
of six slots) the tail segment 5 is resident although `5 > 0 + 2`, and
`getArena(5)` returns it without an error; and for segment 9, past the end of
the table, `getArena(9)` panics instead of returning `ErrInactiveArena`. -/
theorem getArena_resident_outside_window_counterexample :
    queueC.index.getHead.1 + queueC.activeArenaCount < 5 ∧
    (getArena queueC 5).1 = .ok ⟨5, 2⟩ ∧
    queueC.index.getHead.1 + queueC.activeArenaCount < 9 ∧
    (getArena queueC 9).1 = .fail .panic := by
  decide

/-- C10, amended: for every manager state, current head `h`, window size `W`
and every segment id `aid > h + W` whose slot exists in the slot table and is
nil (the segment is not resident), `getArena(aid)` returns `ErrInactiveArena`
and the manager is the same afterwards: the slot table, and the trace of
capability calls (no segment is created, none is unmapped). -/
theorem getArena_inactive_no_effect (m : ArenaManager) (aid : Int)
    (hs : slot m.arenaList (aid - m.baseAid) = some none)
    (hout : m.index.getHead.1 + m.activeArenaCount < aid) :
    getArena m aid = (.fail (.err .inactiveArena), m) :=
  getArena_nil_outside hs (by omega)

/-- C10, witness: segment 3 of `queueC`. -/
theorem getArena_inactive_no_effect_witness :
    slot queueC.arenaList (3 - queueC.baseAid) = some none ∧
    queueC.index.getHead.1 + queueC.activeArenaCount < 3 ∧
    getArena queueC 3 = (.fail (.err .inactiveArena), queueC) :=
  ⟨by decide, by decide, getArena_inactive_no_effect queueC 3 (by decide) (by decide)⟩

/-! ## C11 -/

/-- C11, the code at the failing input: `queueE` is the manager built for
head and tail segment 5, so `baseAid = 5` and the one slot holds the mapping
`⟨5, 0⟩` of segment 5.  `addArena(5)` does not return it: the existence check
tests `5 < len(arenaList) = 1`, skips the slot, creates a second mapping
`⟨5, 1⟩` of the same file and overwrites the slot with it.  The same happens
on the write path: an `Enqueue` that fails after it created segment 6 leaves
segment 6 in its slot, and the next `Enqueue` creates segment 6 again. -/
theorem addArena_recreates_existing_segment :
    newArenaManager ⟨16, 0⟩ 5 5 ⟨(5, 0), (5, 0)⟩ (fun n => n == 4) [] =
      (.ok queueE, queueE.trace) ∧
    0 ≤ queueE.baseAid ∧
    slot queueE.arenaList (5 - queueE.baseAid) = some (some ⟨5, 0⟩) ∧
    (addArena queueE 5).1 = .ok ⟨5, 1⟩ ∧
    (addArena queueE 5).2.arenaList = [some ⟨5, 1⟩] ∧
    (addArena queueE 5).2.trace = queueE.trace ++ [.newArena ⟨5, 1⟩] ∧
    (Enqueue 3 queueE (payload 20)).1 = .fail (.err (.write ⟨6, 3⟩)) ∧
    (Enqueue 3 queueE (payload 20)).2.arenaList = [some ⟨5, 0⟩, some ⟨6, 3⟩] ∧
    (Enqueue 3 (Enqueue 3 queueE (payload 20)).2 (payload 20)).1 = .ok () ∧
    (Enqueue 3 (Enqueue 3 queueE (payload 20)).2 (payload 20)).2.arenaList =
      [some ⟨5, 0⟩, some ⟨6, 7⟩] ∧
    Event.newArena ⟨6, 7⟩ ∈
      (Enqueue 3 (Enqueue 3 queueE (payload 20)).2 (payload 20)).2.trace :=
  ⟨rfl, by decide, by decide, by decide, by decide, by decide, by decide, by decide, by decide,
    by decide, by decide⟩

/-! ## C12 -/

/-- C12: for every manager state and every resident segment id `aid`,
`getArena(aid)` returns the segment stored in the slot of `aid` and the
manager state is the same afterwards (slot table and trace of capability
calls: nothing created, written or unmapped); a second call returns the same
segment, again with the same state. -/
theorem getArena_resident_idempotent (m : ArenaManager) (aid : Int) (h : resident m aid) :
    ∃ a, slot m.arenaList (aid - m.baseAid) = some (some a) ∧
      getArena m aid = (.ok a, m) ∧
      getArena (getArena m aid).2 aid = (.ok a, m) := by
  obtain ⟨a, ha⟩ := h
  have hg := getArena_of_slot ha
  refine ⟨a, ha, hg, ?_⟩
  rw [hg]
  exact hg

/-- C12, witness: the tail segment 5 of `queueC`. -/
theorem getArena_resident_idempotent_witness :
    resident queueC 5 ∧
    ∃ a, slot queueC.arenaList (5 - queueC.baseAid) = some (some a) ∧
      getArena queueC 5 = (.ok a, queueC) ∧
      getArena (getArena queueC 5).2 5 = (.ok a, queueC) :=
  ⟨by decide, getArena_resident_idempotent queueC 5 (by decide)⟩

/-! ## C13 -/

/-- C13, counterexample: in `queueA` (head segment 0, window size 2, a table
of one slot) segment 1 is not resident, and `1 - 0 < 2`; `unmapArena(1,
false)` and `unmapArena(1, true)` are not no-ops that return nil: they index
the table past its end and panic. -/
theorem unmapArena_past_table_counterexample :
    ¬ resident queueA 1 ∧
    (1 : Int) - queueA.index.getHead.1 < queueA.activeArenaCount ∧
    (unmapArena queueA 1 false).1 = .fail .panic ∧
    (unmapArena queueA 1 true).1 = .fail .panic := by
  decide

/-- C13, amended: for every manager state, current head `h`, window size `W`
and segment id `aid` whose slot exists in the slot table with content `s`:
`unmapArena(aid, strict)` is a no-op returning nil when the slot is nil, or
when `strict` is false and `aid - h < W`; in every other case it calls
`Unmap` of the segment of the slot; if that succeeds it returns nil, the slot
of `aid` is nil afterwards and all other slots are as before; if it fails,
the error is returned and the slot table is as before. -/
theorem unmapArena_cases (m : ArenaManager) (aid : Int) (isStrict : Bool) (s : Option Arena)
    (hs : slot m.arenaList (aid - m.baseAid) = some s) :
    ((s = none ∨ (isStrict = false ∧ aid - m.index.getHead.1 < m.activeArenaCount)) →
      unmapArena m aid isStrict = (.ok (), m)) ∧
    (∀ a, s = some a →
      ¬ (isStrict = false ∧ aid - m.index.getHead.1 < m.activeArenaCount) →
      (m.fails m.trace.length = false →
        ∃ m', unmapArena m aid isStrict = (.ok (), m') ∧
          m'.trace = m.trace ++ [.unmap a true] ∧
          m'.arenaList.length = m.arenaList.length ∧
          ∀ j, slot m'.arenaList j =
            if j = aid - m.baseAid then some none else slot m.arenaList j) ∧
      (m.fails m.trace.length = true →
        ∃ m', unmapArena m aid isStrict = (.fail (.err (.unmap a)), m') ∧
          m'.trace = m.trace ++ [.unmap a false] ∧
          m'.arenaList = m.arenaList)) := by
  have hb := slot_eq_some_bounds hs
  refine ⟨fun hnoop => ?_, fun a ha hc => ⟨fun hf => ?_, fun hf => ?_⟩⟩
  · cases s with
    | none => exact unmapArena_nil isStrict hs
    | some a =>
      rcases hnoop with h1 | ⟨h1, h2⟩
      · cases h1
      · subst h1
        exact unmapArena_window hs h2
  · subst ha
    refine ⟨_, unmapArena_unmap_ok hs hc hf, rfl, by simp, fun j => ?_⟩
    simp only
    rw [slot_set _ _ _ _ hb.1 hb.2]
  · subst ha
    exact ⟨_, unmapArena_unmap_fails hs hc hf, rfl, rfl⟩

/-- C13, witness: in `queueC` (head 0, window size 2) the slot of segment 1
holds a segment inside the window and the slot of the tail segment 5 holds
one outside: `unmapArena(1, false)` changes nothing and `unmapArena(5,
false)` unmaps segment 5 and clears its slot. -/
theorem unmapArena_cases_witness :
    unmapArena queueC 1 false = (.ok (), queueC) ∧
    (unmapArena queueC 5 false).2.arenaList =
      [some ⟨0, 0⟩, some ⟨1, 1⟩, none, none, none, none] ∧
    (((some (⟨5, 2⟩ : Arena) = none ∨
        (false = false ∧ 5 - queueC.index.getHead.1 < queueC.activeArenaCount)) →
      unmapArena queueC 5 false = (.ok (), queueC)) ∧
    (∀ a, some (⟨5, 2⟩ : Arena) = some a →
      ¬ (false = false ∧ 5 - queueC.index.getHead.1 < queueC.activeArenaCount) →
      (queueC.fails queueC.trace.length = false →
        ∃ m', unmapArena queueC 5 false = (.ok (), m') ∧
          m'.trace = queueC.trace ++ [.unmap a true] ∧
          m'.arenaList.length = queueC.arenaList.length ∧
          ∀ j, slot m'.arenaList j =
            if j = 5 - queueC.baseAid then some none else slot queueC.arenaList j) ∧
      (queueC.fails queueC.trace.length = true →
        ∃ m', unmapArena queueC 5 false = (.fail (.err (.unmap a)), m') ∧
          m'.trace = queueC.trace ++ [.unmap a false] ∧
          m'.arenaList = queueC.arenaList))) :=
  ⟨rfl, by decide, unmapArena_cases queueC 5 false (some ⟨5, 2⟩) (by decide)⟩

/-! ## C14 -/

/-- C14, counterexample: in `queueF` segment 1 is resident and inside the
window of head 0; `unmapArena(1, true)` succeeds and makes it non-resident,
but the following `getArena(1)` does not succeed: creating the mapping fails,
`getArena` returns that error and segment 1 is still not resident. -/
theorem reactivation_fails_counterexample :
    resident queueF 1 ∧
    (1 : Int) < queueF.index.getHead.1 + queueF.activeArenaCount ∧
    (unmapArena queueF 1 true).1 = .ok () ∧
    ¬ resident (unmapArena queueF 1 true).2 1 ∧
    (getArena (unmapArena queueF 1 true).2 1).1 = .fail (.err (.newArena 1)) ∧
    ¬ resident (getArena (unmapArena queueF 1 true).2 1).2 1 := by
  decide

/-- C14, amended: for every segment id `aid` whose slot holds a segment `a`
and which lies inside the active window of the current head: `unmapArena(aid,
false)` changes nothing, so `aid` stays resident with the same segment; a
successful `unmapArena(aid, true)` makes it non-resident, and a following
`getArena(aid)`, when the creation of the mapping succeeds, succeeds by
re-activating it: it creates a new mapping of the file of `aid`, stores it in
the slot and returns it, so that `aid` is resident again. -/
theorem unmap_then_reactivate (m : ArenaManager) (aid : Int) (a : Arena)
    (hs : slot m.arenaList (aid - m.baseAid) = some (some a))
    (hw : aid < m.index.getHead.1 + m.activeArenaCount) :
    unmapArena m aid false = (.ok (), m) ∧
    ∀ m1, unmapArena m aid true = (.ok (), m1) →
      ¬ resident m1 aid ∧
      (m1.fails m1.trace.length = false →
        ∃ b m2, getArena m1 aid = (.ok b, m2) ∧ b.aid = aid ∧
          m2.trace = m1.trace ++ [.newArena b] ∧
          slot m2.arenaList (aid - m2.baseAid) = some (some b) ∧ resident m2 aid) := by
  refine ⟨unmapArena_window hs (by omega), fun m1 hu => ?_⟩
  have hb := slot_eq_some_bounds hs
  have hstep : Step (fun e => e.isMgr = true) m m1 := by
    simpa [hu] using unmapArena_step m aid true
  have hnil : slot m1.arenaList (aid - m1.baseAid) = some none := by
    obtain ⟨_, _, _, hself⟩ := unmapArena_slots hu
    rw [hstep.baseAid]
    rcases hself with ⟨_, h2 | ⟨h2, _⟩⟩ | h1
    · rw [hs] at h2
      simp at h2
    · simp at h2
    · exact h1
  have hb1 := slot_eq_some_bounds hnil
  refine ⟨?_, fun hf => ?_⟩
  · rintro ⟨b, hb'⟩
    rw [hnil] at hb'
    simp at hb'
  · have hin : aid < m1.index.getHead.1 + m1.activeArenaCount := by
      rw [hstep.index, hstep.activeArenaCount]
      exact hw
    rw [getArena_nil_inside hnil hin, addArena_nil_slot hnil hf]
    refine ⟨_, _, rfl, rfl, rfl, ?_, ?_⟩
    · simp only
      rw [slot_set _ _ _ _ hb1.1 hb1.2]
      simp
    · unfold resident
      simp only
      rw [slot_set _ _ _ _ hb1.1 hb1.2]
      simp

/-- C14, witness: segment 1 of `queueC`: the non-strict unmap changes
nothing, the strict unmap clears the slot, and `getArena(1)` stores the new
mapping `⟨1, 4⟩` of the file of segment 1. -/
theorem unmap_then_reactivate_witness :
    (getArena (unmapArena queueC 1 true).2 1).1 = .ok ⟨1, 4⟩ ∧
    (unmapArena queueC 1 false = (.ok (), queueC) ∧
    ∀ m1, unmapArena queueC 1 true = (.ok (), m1) →
      ¬ resident m1 1 ∧
      (m1.fails m1.trace.length = false →
        ∃ b m2, getArena m1 1 = (.ok b, m2) ∧ b.aid = 1 ∧
          m2.trace = m1.trace ++ [.newArena b] ∧
          slot m2.arenaList (1 - m2.baseAid) = some (some b) ∧ resident m2 1)) :=
  ⟨by decide, unmap_then_reactivate queueC 1 ⟨1, 1⟩ (by decide) (by decide)⟩

/-! ## C15 -/

/-- C15, the code at the failing input, for every value of the constant
`cDefaultArenaSize` that `getMaxActiveAid` compares the window size with.
When the constant is not the sentinel `2^31 - 1`: in `queueHuge` (no memory
budget, head segment 0, tail segment `2147483647`) the result is
`2147483646`, not the tail.  When the constant is the sentinel: in
`queueWide` (a memory budget with window limit `2^31 - 1`, same head and
tail) the result is the tail `2147483647`, not `min(h + W - 1, t) =
2147483646`. -/
theorem getMaxActiveAid_wrong_constant : ∀ cDefaultArenaSize : Int,
    (queueHuge.conf.memorySize = 0 ∧
      queueHuge.activeArenaCount = windowSize queueHuge.conf ∧
      queueHuge.activeArenaCount = cMaxActiveArenaCount ∧
      queueHuge.index.getHead.1 = 0 ∧ queueHuge.index.getTail.1 = 2147483647 ∧
      (cDefaultArenaSize ≠ cMaxActiveArenaCount →
        getMaxActiveAid cDefaultArenaSize queueHuge = 2147483646)) ∧
    (0 < queueWide.conf.memorySize ∧
      queueWide.activeArenaCount = windowSize queueWide.conf ∧
      queueWide.index.getHead.1 = 0 ∧ queueWide.index.getTail.1 = 2147483647 ∧
      min (queueWide.index.getHead.1 + queueWide.activeArenaCount - 1)
        queueWide.index.getTail.1 = 2147483646 ∧
      (cDefaultArenaSize = cMaxActiveArenaCount →
        getMaxActiveAid cDefaultArenaSize queueWide = 2147483647)) := by
  intro D
  refine ⟨⟨rfl, rfl, rfl, rfl, rfl, fun hD => ?_⟩, ⟨by decide, rfl, rfl, rfl, by decide,
    fun hD => ?_⟩⟩
  · have hne : queueHuge.activeArenaCount ≠ D := fun h => hD h.symm
    rw [getMaxActiveAid_of_ne hne]
    decide
  · have heq : queueWide.activeArenaCount = D := hD.symm
    rw [getMaxActiveAid_of_eq heq]
    rfl

/-! ## C16 -/

/-- C16: for every manager state, `close()` makes one `Unmap` call on every
resident segment, in slot order, and nothing else, whether the calls fail or
not; the slot table and the rest of the manager stay as they are.  It returns
nil if and only if none of these calls failed; otherwise it returns the error
of the last failed call in slot order, and in a table whose slots hold the
mappings of their own files slot order is the order of increasing segment
id, so that is the failing resident segment with the highest id. -/
theorem close_unmaps_every_resident (m : ArenaManager) :
    ∃ evs, (close m).2 = { m with trace := m.trace ++ evs } ∧
      evs.filterMap Event.unmapped = residentArenas m ∧
      evs.length = (residentArenas m).length ∧
      (∀ k, evs[k]? = ((residentArenas m)[k]?).map
        (fun a => Event.unmap a (!m.fails (m.trace.length + k)))) ∧
      ((close m).1 = none ↔
        ∀ k, k < (residentArenas m).length → m.fails (m.trace.length + k) = false) ∧
      (∀ e, (close m).1 = some e →
        ∃ k a, (residentArenas m)[k]? = some a ∧ e = .unmap a ∧
          m.fails (m.trace.length + k) = true ∧
          ∀ j, k < j → j < (residentArenas m).length →
            m.fails (m.trace.length + j) = false) ∧
      (Consistent m →
        List.Pairwise (fun x y : Arena => x.aid < y.aid) (residentArenas m)) := by
  have hclose := closeLoop_eq m.arenaList m none
  have hev := unmapEvents_unmapped m.fails (residentArenas m) m.trace.length
  refine ⟨unmapEvents m.fails m.trace.length (residentArenas m), ?_, hev.1, hev.2,
    fun k => unmapEvents_getElem? m.fails (residentArenas m) m.trace.length k, ?_, ?_,
    fun hc => residentArenas_increasing hc⟩
  · unfold close
    rw [hclose]
    rfl
  · unfold close
    rw [hclose]
    simp only
    rw [← lastFailed_eq_none_iff m.fails (residentArenas m) m.trace.length]
    unfold residentArenas
    cases lastFailed m.fails m.trace.length (List.filterMap id m.arenaList) <;> simp
  · intro e he
    unfold close at he
    rw [hclose] at he
    simp only at he
    cases hl : lastFailed m.fails m.trace.length (List.filterMap id m.arenaList) with
    | none => rw [hl] at he; simp at he
    | some b =>
      rw [hl] at he
      simp only [Option.some.injEq] at he
      obtain ⟨k, hk, hf, hlast⟩ := lastFailed_eq_some m.fails _ m.trace.length b hl
      exact ⟨k, b, hk, he.symm, hf, hlast⟩

/-- C16, witness: `queueG` has the resident segments 0, 1 and 5, and the
`Unmap` calls of segments 0 and 1 fail: `close()` calls `Unmap` on all three
and returns the error of segment 1. -/
theorem close_unmaps_every_resident_witness :
    (close queueG).1 = some (.unmap ⟨1, 1⟩) ∧
    (close queueG).2.trace = queueG.trace ++
      [.unmap ⟨0, 0⟩ false, .unmap ⟨1, 1⟩ false, .unmap ⟨5, 2⟩ true] ∧
    (close queueG).2.arenaList = queueG.arenaList ∧
    ∃ evs, (close queueG).2 = { queueG with trace := queueG.trace ++ evs } ∧
      evs.filterMap Event.unmapped = residentArenas queueG ∧
      evs.length = (residentArenas queueG).length ∧
      (∀ k, evs[k]? = ((residentArenas queueG)[k]?).map
        (fun a => Event.unmap a (!queueG.fails (queueG.trace.length + k)))) ∧
      ((close queueG).1 = none ↔
        ∀ k, k < (residentArenas queueG).length →
          queueG.fails (queueG.trace.length + k) = false) ∧
      (∀ e, (close queueG).1 = some e →
        ∃ k a, (residentArenas queueG)[k]? = some a ∧ e = .unmap a ∧
          queueG.fails (queueG.trace.length + k) = true ∧
          ∀ j, k < j → j < (residentArenas queueG).length →
            queueG.fails (queueG.trace.length + j) = false) ∧
      (Consistent queueG →
        List.Pairwise (fun x y : Arena => x.aid < y.aid) (residentArenas queueG)) :=
  ⟨by decide, by decide, by decide, close_unmaps_every_resident queueG⟩

/-! ## C18 -/

/-- C18: for every configuration with capacity `C > 0`, the window size a
manager returned by `newArenaManager` stores is `floor(memorySize / C) - 1`
when `memorySize > 0` and the sentinel `2^31 - 1` when `memorySize = 0`, and
no operation of the manager and no `Enqueue`, whatever its outcome, changes
the stored window size. -/
theorem window_size_fixed (conf : BqConfig) (hC : 0 < conf.arenaSize) :
    (∀ headAid tailAid index fails trace am tr,
      newArenaManager conf headAid tailAid index fails trace = (.ok am, tr) →
      (0 < conf.memorySize →
        am.activeArenaCount = conf.memorySize / conf.arenaSize - 1 ∧
        am.activeArenaCount = Int.fdiv conf.memorySize conf.arenaSize - 1) ∧
      (conf.memorySize = 0 → am.activeArenaCount = 2 ^ 31 - 1)) ∧
    (∀ (m : ArenaManager) (aid endAid : Int) (isStrict : Bool) (fuel : Nat)
        (message : List Byte),
      (getArena m aid).2.activeArenaCount = m.activeArenaCount ∧
      (addArena m aid).2.activeArenaCount = m.activeArenaCount ∧
      (unmapArena m aid isStrict).2.activeArenaCount = m.activeArenaCount ∧
      (activateArenaRange m aid endAid).2.activeArenaCount = m.activeArenaCount ∧
      (unmapArenaRange m aid endAid isStrict).2.activeArenaCount = m.activeArenaCount ∧
      (close m).2.activeArenaCount = m.activeArenaCount ∧
      (getNextArena m aid).2.activeArenaCount = m.activeArenaCount ∧
      (Enqueue fuel m message).2.activeArenaCount = m.activeArenaCount) := by
  refine ⟨fun headAid tailAid index fails trace am tr hok => ?_,
    fun m aid endAid isStrict fuel message =>
      ⟨(getArena_step m aid).activeArenaCount, (addArena_step m aid).activeArenaCount,
        (unmapArena_step m aid isStrict).activeArenaCount,
        (activateArenaRangeLoop_step _ m aid).activeArenaCount,
        (unmapArenaRangeLoop_step _ isStrict m aid).activeArenaCount,
        close_activeArenaCount m, (getNextArena_step m aid).activeArenaCount,
        Enqueue_activeArenaCount fuel m message⟩⟩
  have hW := newArenaManager_activeArenaCount hok
  refine ⟨fun hM => ?_, fun hM => ?_⟩
  · have hw : windowSize conf = conf.memorySize / conf.arenaSize - 1 := by
      unfold windowSize
      rw [if_pos hM, Int.tdiv_eq_ediv (by omega) (by omega)]
    refine ⟨hW.trans hw, ?_⟩
    rw [Int.fdiv_eq_ediv _ (by omega)]
    exact hW.trans hw
  · rw [hW]
    unfold windowSize cMaxActiveArenaCount
    rw [if_neg (by omega)]
    norm_num

/-- C18, witness: capacity 16 and memory budget 48 give the window size
`48 / 16 - 1 = 2`, also after an `Enqueue`, and capacity 16 without memory
budget gives `2147483647`. -/
theorem window_size_fixed_witness :
    queueC.activeArenaCount = 2 ∧
    (Enqueue 2 queueC (payload 10)).2.activeArenaCount = 2 ∧
    queueE.activeArenaCount = 2147483647 ∧
    ((∀ headAid tailAid index fails trace am tr,
      newArenaManager confC headAid tailAid index fails trace = (.ok am, tr) →
      (0 < confC.memorySize →
        am.activeArenaCount = confC.memorySize / confC.arenaSize - 1 ∧
        am.activeArenaCount = Int.fdiv confC.memorySize confC.arenaSize - 1) ∧
      (confC.memorySize = 0 → am.activeArenaCount = 2 ^ 31 - 1)) ∧
    (∀ (m : ArenaManager) (aid endAid : Int) (isStrict : Bool) (fuel : Nat)
        (message : List Byte),
      (getArena m aid).2.activeArenaCount = m.activeArenaCount ∧
      (addArena m aid).2.activeArenaCount = m.activeArenaCount ∧
      (unmapArena m aid isStrict).2.activeArenaCount = m.activeArenaCount ∧
      (activateArenaRange m aid endAid).2.activeArenaCount = m.activeArenaCount ∧
      (unmapArenaRange m aid endAid isStrict).2.activeArenaCount = m.activeArenaCount ∧
      (close m).2.activeArenaCount = m.activeArenaCount ∧
      (getNextArena m aid).2.activeArenaCount = m.activeArenaCount ∧
      (Enqueue fuel m message).2.activeArenaCount = m.activeArenaCount)) :=
  ⟨by decide, by decide, by decide, window_size_fixed confC (by decide)⟩

/-! ## C20 -/

/-- C20: for capacity `C > 0`, a start offset `0 <= o < C` and a payload of
length `L`, in every manager state and under every fault schedule: the loop
of `writeBytes` ends within `floor((o + L) / C) + 1` iterations (that many
iterations of fuel are enough, and more fuel does not change the result);
it makes at most that many calls of `Write`, and every `Write` that is given
bytes accepts at least one.  For the empty payload the bound is one
iteration, a run that returns a position is one lookup and one `Write` of no
bytes and returns the start position, and when the segment is resident and
`Write` does not fail the run does return it. -/
theorem writeBytes_terminates (bq : BigQueue) (aid offset : Int) (message : List Byte)
    (hC : 0 < bq.conf.arenaSize) (h0 : 0 ≤ offset) (hlt : offset < bq.conf.arenaSize) :
    (∀ fuel, ((offset + (message.length : Int)) / bq.conf.arenaSize + 1).toNat ≤ fuel →
      (writeBytes fuel bq aid offset message).1 ≠ .fail .outOfFuel ∧
      writeBytes fuel bq aid offset message =
        writeBytes ((offset + (message.length : Int)) / bq.conf.arenaSize + 1).toNat
          bq aid offset message) ∧
    (∀ fuel, ∃ evs, (writeBytes fuel bq aid offset message).2.trace = bq.trace ++ evs ∧
      ((evs.countP Event.isWriteCall : Nat) : Int) ≤
        (offset + (message.length : Int)) / bq.conf.arenaSize + 1 ∧
      ∀ a off bytes n, Event.write a off bytes n ∈ evs → bytes ≠ [] → 1 ≤ n) ∧
    ((offset + (([] : List Byte).length : Int)) / bq.conf.arenaSize + 1 = 1 ∧
      (writeBytes 0 bq aid offset []).1 = .fail .outOfFuel ∧
      (∀ fuel pos bq', writeBytes fuel bq aid offset [] = (.ok pos, bq') →
        pos = (aid, offset) ∧ ∃ a bq1, getArena bq aid = (.ok a, bq1) ∧
          bq' = { bq1 with trace := bq1.trace ++ [.write a offset [] 0] }) ∧
      (∀ a, slot bq.arenaList (aid - bq.baseAid) = some (some a) →
        bq.fails bq.trace.length = false →
        writeBytes 1 bq aid offset [] =
          (.ok (aid, offset), { bq with trace := bq.trace ++ [.write a offset [] 0] }))) := by
  have hnn : 0 ≤ (offset + (message.length : Int)) / bq.conf.arenaSize :=
    Int.ediv_nonneg (by omega) (by omega)
  have htight : (writeBytes ((offset + (message.length : Int)) / bq.conf.arenaSize + 1).toNat
      bq aid offset message).1 ≠ .fail .outOfFuel := by
    refine writeBytesLoop_fuel_tight _ bq aid offset message 0 h0 hlt (Nat.zero_le _) ?_
    simp only [Nat.sub_zero]
    omega
  have hmore : ∀ fuel,
      ((offset + (message.length : Int)) / bq.conf.arenaSize + 1).toNat ≤ fuel →
      writeBytes fuel bq aid offset message =
        writeBytes ((offset + (message.length : Int)) / bq.conf.arenaSize + 1).toNat
          bq aid offset message := by
    intro fuel hf
    obtain ⟨k, hk⟩ := Nat.exists_eq_add_of_le hf
    rw [hk]
    exact writeBytesLoop_more_fuel k _ bq aid offset message 0 htight
  refine ⟨fun fuel hf => ?_, fun fuel => ?_, ?_, rfl, fun fuel pos bq' h => ?_,
    fun a hs hf => ?_⟩
  · rw [hmore fuel hf]
    exact ⟨htight, rfl⟩
  · have hcalls : ∀ f : Nat,
        ((f : Int) ≤ (offset + (message.length : Int)) / bq.conf.arenaSize + 1) →
        ∃ evs, (writeBytes f bq aid offset message).2.trace = bq.trace ++ evs ∧
          ((evs.countP Event.isWriteCall : Nat) : Int) ≤
            (offset + (message.length : Int)) / bq.conf.arenaSize + 1 ∧
          ∀ a off bytes n, Event.write a off bytes n ∈ evs → bytes ≠ [] → 1 ≤ n := by
      intro f hf
      obtain ⟨evs, ht, hc, hp⟩ := writeBytesLoop_calls f bq aid offset message 0 h0 hlt
      exact ⟨evs, ht, by omega, fun a off bytes n he hne => hp _ he hne⟩
    by_cases hf : ((offset + (message.length : Int)) / bq.conf.arenaSize + 1).toNat ≤ fuel
    · rw [hmore fuel hf]
      exact hcalls _ (by omega)
    · exact hcalls fuel (by omega)
  · have := (@ediv_emod_in_segment bq.conf.arenaSize 0 offset h0 hlt).1
    simp only [zero_mul, zero_add] at this
    simp [this]
  · exact writeBytes_empty_ok hlt h
  · exact writeBytes_empty_resident hlt hs hf

/-- C20, witness: capacity 16, start `(0, 8)` in `queueA`: 10 bytes take two
iterations (`floor(18 / 16) + 1 = 2`), and the empty payload takes one and
returns `(0, 8)`. -/
theorem writeBytes_terminates_witness :
    (writeBytes 2 queueA 0 8 (payload 10)).1 = .ok (1, 2) ∧
    (writeBytes 1 queueA 0 8 (payload 10)).1 = .fail .outOfFuel ∧
    (writeBytes 1 queueA 0 8 []).1 = .ok (0, 8) ∧
    ((∀ fuel, ((8 + ((payload 10).length : Int)) / queueA.conf.arenaSize + 1).toNat ≤ fuel →
      (writeBytes fuel queueA 0 8 (payload 10)).1 ≠ .fail .outOfFuel ∧
      writeBytes fuel queueA 0 8 (payload 10) =
        writeBytes ((8 + ((payload 10).length : Int)) / queueA.conf.arenaSize + 1).toNat
          queueA 0 8 (payload 10)) ∧
    (∀ fuel, ∃ evs, (writeBytes fuel queueA 0 8 (payload 10)).2.trace = queueA.trace ++ evs ∧
      ((evs.countP Event.isWriteCall : Nat) : Int) ≤
        (8 + ((payload 10).length : Int)) / queueA.conf.arenaSize + 1 ∧
      ∀ a off bytes n, Event.write a off bytes n ∈ evs → bytes ≠ [] → 1 ≤ n) ∧
    ((8 + (([] : List Byte).length : Int)) / queueA.conf.arenaSize + 1 = 1 ∧
      (writeBytes 0 queueA 0 8 []).1 = .fail .outOfFuel ∧
      (∀ fuel pos bq', writeBytes fuel queueA 0 8 [] = (.ok pos, bq') →
        pos = (0, 8) ∧ ∃ a bq1, getArena queueA 0 = (.ok a, bq1) ∧
          bq' = { bq1 with trace := bq1.trace ++ [.write a 8 [] 0] }) ∧
      (∀ a, slot queueA.arenaList (0 - queueA.baseAid) = some (some a) →
        queueA.fails queueA.trace.length = false →
        writeBytes 1 queueA 0 8 [] =
          (.ok (0, 8), { queueA with trace := queueA.trace ++ [.write a 8 [] 0] })))) :=
  ⟨by decide, by decide, by decide,
    writeBytes_terminates queueA 0 8 (payload 10) (by decide) (by decide) (by decide)⟩

/-! ## C19 -/

/-- C19: in every state reached from a manager constructed with
`0 <= headAid <= tailAid` (segment ids are not negative), capacity `C >= 8`
and a tail offset that is not negative by successful `Enqueue` calls, when no
capability call fails from then on, the next `Enqueue` succeeds (given fuel
for more iterations than the payload has bytes): it does not stop in the
panic of an index outside the slot table and does not fail with
`ErrInactiveArena` or any other error. -/
theorem next_enqueue_succeeds (conf : BqConfig) (headAid tailAid : Int) (index : QueueIndex)
    (fails : Nat → Bool) (trace tr : List Event) (am m : BigQueue) (fuel : Nat)
    (message : List Byte) (hh : 0 ≤ headAid) (hle : headAid ≤ tailAid)
    (hC : 8 ≤ conf.arenaSize) (htail : index.getTail.1 = tailAid)
    (ho : 0 ≤ index.getTail.2)
    (hok : newArenaManager conf headAid tailAid index fails trace = (.ok am, tr))
    (hr : EnqueueReach am m) (hnf : ∀ k, m.trace.length ≤ k → m.fails k = false)
    (hfuel : message.length < fuel) :
    (Enqueue fuel m message).1 = .ok () ∧
    (Enqueue fuel m message).1 ≠ .fail .panic ∧
    (Enqueue fuel m message).1 ≠ .fail (.err .inactiveArena) ∧
    EnqueueReach am (Enqueue fuel m message).2 := by
  obtain ⟨hl, h0, hconf⟩ := LastSlot_reach hh hle hC htail ho hok hr
  obtain ⟨m', hm'⟩ := Enqueue_nofault fuel message (by rw [hconf]; exact hC) h0 hl hnf hfuel
  rw [hm']
  exact ⟨rfl, by simp, by simp, EnqueueReach.step fuel message hr hm'⟩

/-- C19, witness: the manager built for head segment 0, tail `(5, 0)`,
capacity 16 and window size 2, after one `Enqueue` of 10 bytes (which rolls
over to segment 6): the next `Enqueue`, of 30 bytes, succeeds and commits the
tail `(8, 8)`. -/
theorem next_enqueue_succeeds_witness :
    (Enqueue 31 (Enqueue 2 queueC (payload 10)).2 (payload 30)).2.index.getTail = (8, 8) ∧
    ((Enqueue 31 (Enqueue 2 queueC (payload 10)).2 (payload 30)).1 = .ok () ∧
    (Enqueue 31 (Enqueue 2 queueC (payload 10)).2 (payload 30)).1 ≠ .fail .panic ∧
    (Enqueue 31 (Enqueue 2 queueC (payload 10)).2 (payload 30)).1 ≠
      .fail (.err .inactiveArena) ∧
    EnqueueReach queueC (Enqueue 31 (Enqueue 2 queueC (payload 10)).2 (payload 30)).2) :=
  ⟨by decide, next_enqueue_succeeds confC 0 5 indexC (fun _ => false) [] queueC.trace queueC
    (Enqueue 2 queueC (payload 10)).2 31 (payload 30) (by decide) (by decide) (by decide)
    rfl (by decide) rfl (EnqueueReach.step 2 (payload 10) EnqueueReach.init rfl)
    (fun _ _ => rfl) (by decide)⟩

/-! ## C17 -/

/-- C17, counterexample: the manager `newArenaManager` builds without
faults for capacity 16, no memory budget, head segment 0 and tail segment
`2147483647`.  The tail segment is resident and not below the head, and
`unmapArena(2147483647, false)` returns nil and evicts it: the window size is
the finite sentinel `2147483647`, and `2147483647 - 0` is not below it. -/
theorem no_budget_eviction_counterexample :
    ∃ am : BigQueue,
      newArenaManager ⟨16, 0⟩ 0 2147483647 ⟨(0, 0), (2147483647, 0)⟩ (fun _ => false) [] =
        (.ok am, am.trace) ∧
      am.conf.memorySize = 0 ∧ am.index.getHead.1 = 0 ∧ am.activeArenaCount = 2147483647 ∧
      resident am 2147483647 ∧
      (unmapArena am 2147483647 false).1 = .ok () ∧
      ¬ resident (unmapArena am 2147483647 false).2 2147483647 := by
  obtain ⟨am, hok⟩ := newArenaManager_nofault ⟨16, 0⟩ 0 2147483647
    ⟨(0, 0), (2147483647, 0)⟩ (fun _ => false) [] (by decide) (by decide) (fun _ => rfl)
  obtain ⟨hb, hconf, hW, hidx, hfails, _, hlen, _, hres⟩ :=
    newArenaManager_ok (by decide) hok
  have hWv : am.activeArenaCount = 2147483647 := by rw [hW]; rfl
  obtain ⟨a, ha⟩ : resident am 2147483647 := (hres _).2 (Or.inr rfl)
  have hc : ¬ ((false : Bool) = false ∧
      2147483647 - am.index.getHead.1 < am.activeArenaCount) := by
    rw [hidx, hWv]
    decide
  have hf : am.fails am.trace.length = false := by rw [hfails]
  have hu := unmapArena_unmap_ok ha hc hf
  have hbd := slot_eq_some_bounds ha
  refine ⟨am, hok, by rw [hconf], by rw [hidx]; rfl, hWv, ⟨a, ha⟩, by rw [hu], ?_⟩
  rw [hu]
  rintro ⟨b, hb2⟩
  simp only at hb2
  rw [slot_set _ _ _ _ hbd.1 hbd.2] at hb2
  simp at hb2

/-- C17, amended: with `memorySize = 0` the window size is the sentinel
`2147483647`.  In every state `m` reached from the constructed manager by
`Enqueue` calls of any outcome, with head segment `h`: for every resident
segment `aid >= h` with `aid - h < 2147483647`, `unmapArena(aid, false)`
returns nil and leaves the state as it is; every segment with
`aid - h < 2147483647` that was resident at construction is resident in `m`,
and one that is resident in `m` is resident after every further sequence of
`Enqueue` calls; when all the calls succeeded, every such segment from the
head through the current tail is resident; and a strict unmap whose `Unmap`
call succeeds does evict a resident segment. -/
theorem no_budget_window (conf : BqConfig) (headAid tailAid : Int) (index : QueueIndex)
    (fails : Nat → Bool) (trace tr : List Event) (am m : BigQueue)
    (hmem : conf.memorySize = 0) (hle : headAid ≤ tailAid)
    (hhead : index.getHead.1 = headAid) (htail : index.getTail.1 = tailAid)
    (hok : newArenaManager conf headAid tailAid index fails trace = (.ok am, tr))
    (hr : EnqueueSeq am m) :
    m.activeArenaCount = 2147483647 ∧ m.index.getHead.1 = headAid ∧
    (∀ aid, headAid ≤ aid → resident m aid → aid - headAid < 2147483647 →
      unmapArena m aid false = (.ok (), m)) ∧
    (∀ aid, aid - headAid < 2147483647 → resident am aid → resident m aid) ∧
    (∀ m', EnqueueSeq m m' → ∀ aid, aid - headAid < 2147483647 → resident m aid →
      resident m' aid) ∧
    (EnqueueReach am m → ∀ aid, headAid ≤ aid → aid ≤ m.index.getTail.1 →
      aid - headAid < 2147483647 → resident m aid) ∧
    (∀ aid, resident m aid → m.fails m.trace.length = false →
      (unmapArena m aid true).1 = .ok () ∧ ¬ resident (unmapArena m aid true).2 aid) := by
  have hWc : windowSize conf = 2147483647 := by
    unfold windowSize
    rw [hmem]
    rfl
  obtain ⟨_, _, hW0, hidx, _, _, _, _, hres⟩ := newArenaManager_ok hle hok
  have hW : am.activeArenaCount = 2147483647 := by rw [hW0, hWc]
  have hH : am.index.getHead.1 = headAid := by rw [hidx, hhead]
  obtain ⟨_, ki, ka, kres⟩ := EnqueueSeq_keeps hr
  have hWm : m.activeArenaCount = 2147483647 := by rw [ka, hW]
  have hHm : m.index.getHead.1 = headAid := by rw [ki, hH]
  refine ⟨hWm, hHm, ?_, ?_, ?_, ?_, ?_⟩
  · rintro aid _ ⟨a, ha⟩ hlt
    exact unmapArena_window ha (by rw [hHm, hWm]; exact hlt)
  · intro aid hlt hra
    exact kres aid hra (by rw [hH, hW]; exact hlt)
  · intro m' hr' aid hlt hra
    exact (EnqueueSeq_keeps hr').2.2.2 aid hra (by rw [hHm, hWm]; exact hlt)
  · intro hreach aid h1 h2 h3
    have h0 : RangeResident am headAid am.index.getTail.1 := by
      intro x hx1 hx2 hx3
      rw [hidx, htail] at hx2
      rw [hH, hW] at hx3
      refine (hres x).2 (Or.inl ⟨hx1, ?_⟩)
      rw [hWc]
      exact le_min hx2 (by omega)
    exact RangeResident_reach hreach h0 aid h1 h2 (by rw [hHm, hWm]; exact h3)
  · rintro aid ⟨a, ha⟩ hf
    have hc : ¬ ((true : Bool) = false ∧ aid - m.index.getHead.1 < m.activeArenaCount) := by
      simp
    have hu := unmapArena_unmap_ok ha hc hf
    have hbd := slot_eq_some_bounds ha
    rw [hu]
    refine ⟨rfl, ?_⟩
    rintro ⟨b, hb2⟩
    simp only at hb2
    rw [slot_set _ _ _ _ hbd.1 hbd.2] at hb2
    simp at hb2

/-- C17, witness: capacity 16, no memory budget, head and tail segment 5.
The manager built is `queueE`; the state is the one after an `Enqueue` of 30
bytes, which rolls over into segment 6 and then fails in `Write`. -/
theorem no_budget_window_witness :
    (Enqueue 64 queueE (payload 30)).2.activeArenaCount = 2147483647 ∧
    (Enqueue 64 queueE (payload 30)).2.index.getHead.1 = 5 ∧
    (∀ aid, 5 ≤ aid → resident (Enqueue 64 queueE (payload 30)).2 aid →
      aid - 5 < 2147483647 →
      unmapArena (Enqueue 64 queueE (payload 30)).2 aid false =
        (.ok (), (Enqueue 64 queueE (payload 30)).2)) ∧
    (∀ aid, aid - 5 < 2147483647 → resident queueE aid →
      resident (Enqueue 64 queueE (payload 30)).2 aid) ∧
    (∀ m', EnqueueSeq (Enqueue 64 queueE (payload 30)).2 m' → ∀ aid,
      aid - 5 < 2147483647 → resident (Enqueue 64 queueE (payload 30)).2 aid →
      resident m' aid) ∧
    (EnqueueReach queueE (Enqueue 64 queueE (payload 30)).2 → ∀ aid, 5 ≤ aid →
      aid ≤ (Enqueue 64 queueE (payload 30)).2.index.getTail.1 →
      aid - 5 < 2147483647 → resident (Enqueue 64 queueE (payload 30)).2 aid) ∧
    (∀ aid, resident (Enqueue 64 queueE (payload 30)).2 aid →
      (Enqueue 64 queueE (payload 30)).2.fails
        (Enqueue 64 queueE (payload 30)).2.trace.length = false →
      (unmapArena (Enqueue 64 queueE (payload 30)).2 aid true).1 = .ok () ∧
      ¬ resident (unmapArena (Enqueue 64 queueE (payload 30)).2 aid true).2 aid) :=
  no_budget_window ⟨16, 0⟩ 5 5 ⟨(5, 0), (5, 0)⟩ (fun n => n == 4) [] queueE.trace queueE
    (Enqueue 64 queueE (payload 30)).2 rfl (by decide) rfl rfl rfl
    (EnqueueSeq.step 64 (payload 30) EnqueueSeq.init)

end Bigqueue
